import Mathlib

/-!
# Cave generators: cellular automata, drunkard walk and BSP rooms

A shallow embedding of `generators.cpp` / `generators.h` and the properties of
the three generation strategies.

Conventions of the embedding.

* C++ `int` values are `Int`; no arithmetic of the generators comes close to the
  machine bounds for grids that fit in memory.
* A `float` value is the rational it denotes.  Float arithmetic (the quotient of
  two `int` values, the sum `1.f + t`) is rounded to single precision, ties to
  even; a quotient by an integer zero is treated apart, following IEEE (`+inf`,
  `-inf`, `NaN`).  A configured value enters the arithmetic as the nearest
  `float`, and the samples of the real distribution range over all rationals of
  `[0, 1)`.
* A random engine is an infinite stream of raw outcomes.  Each distribution
  consumes outcomes from the stream and every value of its range is reachable.
* A call that has no defined behaviour in C++ (a distribution built on an empty
  range, a write outside the grid) yields `none`.
* A loop whose number of iterations is not bounded by its input takes a fuel
  argument and yields `none` when the fuel runs out.
-/

namespace Cavegen

/-! ## Grid collaborator -/

/-- State of one grid cell. -/
inductive CellType where
  | Wall
  | Empty
deriving DecidableEq, Repr

/-- Modelled from the spec: a position of the cell array of the grid
(`map.h` is not among the sources).  The layout of the array is not part of the
contract, so a position is named by the (row, col) pair stored there. -/
abbrev CellIndex := Int × Int

/-- Modelled from the spec: `Map::CellArray`, the bulk cell array that can be
copied for a snapshot. -/
abbrev CellArray := CellIndex → CellType

/-- Modelled from the spec: the grid collaborator `Map` (`map.h` is not among the
sources): "a 2D array of cell states with row/column bounds, addressable by
(row, col), reporting total cell count and bounds validity". -/
structure Map where
  rows : Nat
  cols : Nat
  cells : CellArray

/-- Modelled from the spec: `Map::numCells`, the total cell count. -/
def Map.numCells (m : Map) : Int := (m.rows : Int) * (m.cols : Int)

/-- Modelled from the spec: `Map::validCoords`, the bounds-validity check. -/
def Map.validCoords (m : Map) (row col : Int) : Bool :=
  decide (0 ≤ row) && decide (row < (m.rows : Int)) &&
    decide (0 ≤ col) && decide (col < (m.cols : Int))

/-- Modelled from the spec: `Map::asIndex`, the position of cell (row, col) in
the cell array. -/
def Map.asIndex (_m : Map) (row col : Int) : CellIndex := (row, col)

/-- Modelled from the spec: storing a value at one position of the cell array. -/
def Map.write (m : Map) (idx : CellIndex) (v : CellType) : Map :=
  { m with cells := fun q => if q = idx then v else m.cells q }

/-- Modelled from the spec: the assignment `(*map)(row, col) = v`.  The grid is
only addressable inside its bounds: a write elsewhere has no defined result. -/
def Map.set (m : Map) (row col : Int) (v : CellType) : Option Map :=
  if m.validCoords row col then some (m.write (m.asIndex row col) v) else none

/-! ## Random source -/

/-- The random engine: an infinite stream of raw outcomes. -/
structure Engine where
  raw : Nat → Nat

/-- Take the next raw outcome off the stream. -/
def Engine.pop (e : Engine) : Nat × Engine :=
  (e.raw 0, { raw := fun n => e.raw (n + 1) })

/-- Sampling `std::uniform_int_distribution<int>(a, b)`: a value of `[a, b]`;
undefined for an empty range. -/
def uniformInt (a b : Int) (e : Engine) : Option (Int × Engine) :=
  if a ≤ b then
    some (a + (((e.pop).1 % ((b - a).toNat + 1) : Nat) : Int), (e.pop).2)
  else none

/-- Sampling `std::uniform_real_distribution<float>(0, 1)`: a value of `[0, 1)`.
Two raw outcomes give numerator and denominator, so every rational of the
interval is reachable. -/
def uniformReal (e : Engine) : ℚ × Engine :=
  let n := (e.pop).1
  let d := ((e.pop).2.pop).1
  (((n % (d + 1) : Nat) : ℚ) / ((d + 1 : Nat) : ℚ), ((e.pop).2.pop).2)

/-! ## Single-precision arithmetic -/

/-- Rounding a rational to the nearest integer, ties to the even one. -/
def roundHalfEven (s : ℚ) : Int :=
  if s - (⌊s⌋ : ℚ) < 1 / 2 then ⌊s⌋
  else if 1 / 2 < s - (⌊s⌋ : ℚ) then ⌊s⌋ + 1
  else if ⌊s⌋ % 2 = 0 then ⌊s⌋ else ⌊s⌋ + 1

/-- The `float` nearest to a rational (IEEE 754 binary32, round to nearest, ties
to even): 24 significant bits in the binade of the value.  The exponent range is
not bounded: quotients of two `int` values and sums `1.f + t` of a finite `t`
neither overflow nor lose bits to underflow. -/
def f32 (q : ℚ) : ℚ :=
  if q = 0 then 0
  else (roundHalfEven (q / (2 : ℚ) ^ (Int.log 2 |q| - 23)) : ℚ) * (2 : ℚ) ^ (Int.log 2 |q| - 23)

/-- The `float` quotient `a / (float) b` of two `int` values, for `b != 0`: both
are converted to `float`, then divided. -/
def floatQuotient (a b : Int) : ℚ := f32 (f32 (a : ℚ) / f32 (b : ℚ))

/-- The `float` sum `1.f + t` for a configured `float` value `t`. -/
def floatOnePlus (t : ℚ) : ℚ := f32 (1 + f32 t)

/-- The comparison `a / (float) b < t` of a `float` quotient with a configured
`float` value.  A zero divisor gives `-inf`, `NaN` or `+inf`, of which only
`-inf` is below `t`. -/
def quotientLt (a b : Int) (t : ℚ) : Bool :=
  if b = 0 then decide (a < 0) else decide (floatQuotient a b < f32 t)

/-- The comparison `a / (float) b >= 1.f + t`; with a zero divisor only `+inf`
passes. -/
def quotientGe (a b : Int) (t : ℚ) : Bool :=
  if b = 0 then decide (0 < a) else decide (floatQuotient a b ≥ floatOnePlus t)

/-- The comparison `a / (float) b > 1.f + t`; with a zero divisor only `+inf`
passes. -/
def quotientGt (a b : Int) (t : ℚ) : Bool :=
  if b = 0 then decide (0 < a) else decide (floatQuotient a b > floatOnePlus t)

/-! ## Loops -/

/-- The values of a counting loop `for (v = lo; v < hi; ++v)`, in order. -/
def intRange (lo hi : Int) : List Int :=
  (List.range (hi - lo).toNat).map (fun (k : Nat) => lo + (k : Int))

/-- Two nested counting loops
`for (r = r0; r < r1; ++r) for (c = c0; c < c1; ++c) body`, threading a state;
the loop stops with `none` as soon as the body has no defined result. -/
def forGrid {σ : Type} (r0 r1 c0 c1 : Int) (body : Int → Int → σ → Option σ)
    (init : σ) : Option σ :=
  (intRange r0 r1).foldlM
    (fun s r => (intRange c0 c1).foldlM (fun s c => body r c s) s) init

/-- The iteration space of the nested loops of forGrid, in loop order. -/
def gridCells (r0 r1 c0 c1 : Int) : List (Int × Int) :=
  (intRange r0 r1).flatMap (fun r => (intRange c0 c1).map (fun c => (r, c)))

/-! ## Cellular automata -/

/-- The two evaluation rules a `CellEvaluationFunction` can be bound to. -/
inductive CellEvaluationFunction where
  | basicEvaluation
  | basicEvaluationClosed
deriving DecidableEq, Repr

/-- Configuration of the cellular automata generator (`CellAutomataConfig`). -/
structure CellAutomataConfig where
  useSeed : Bool
  seed : Nat
  useCorners : Bool
  wallProbability : ℚ
  minSurroundingWallsForNextIter : Int
  includeSelf : Bool
  functionIndex : Int
  checkFunction : Option CellEvaluationFunction

/-- The cellular automata generator: it only owns its configuration. -/
structure CellAutomataGenerator where
  config : CellAutomataConfig

/-- `CellAutomataGenerator::init`: copy the configuration and bind the basic
rule. -/
def CellAutomataGenerator.init (_config : CellAutomataConfig) : CellAutomataGenerator :=
  { config := { _config with
      checkFunction := some CellEvaluationFunction.basicEvaluation } }

/-- `CellAutomataGenerator::countNeighbourhood`. -/
def CellAutomataGenerator.countNeighbourhood (i j : Int) (map : Map)
    (oldCells : CellArray) (distance : Int) (countSelf : Bool) : Int :=
  (intRange (-distance) (distance + 1)).foldl
    (fun numWalls deltaRow =>
      (intRange (-distance) (distance + 1)).foldl
        (fun numWalls deltaCol =>
          if distance = 2 ∧ (|i - deltaRow| = 2 ∧ |j - deltaCol| = 2) then numWalls
          else if ¬ map.validCoords (i + deltaRow) (j + deltaCol) then numWalls
          else if deltaRow = 0 ∧ deltaCol = 0 ∧ ¬ countSelf then numWalls
          else if oldCells (map.asIndex (i + deltaRow) (j + deltaCol)) = CellType.Wall
            then numWalls + 1
          else numWalls)
        numWalls)
    0

/-- `CellAutomataGenerator::basicEvaluation`. -/
def CellAutomataGenerator.basicEvaluation (g : CellAutomataGenerator) (i j : Int)
    (map : Map) (oldMapCells : CellArray) : Bool :=
  let numWalls := CellAutomataGenerator.countNeighbourhood i j map oldMapCells 1
    g.config.includeSelf
  decide (numWalls ≥ g.config.minSurroundingWallsForNextIter)

/-- `CellAutomataGenerator::basicEvaluationClosed`. -/
def CellAutomataGenerator.basicEvaluationClosed (g : CellAutomataGenerator) (i j : Int)
    (map : Map) (oldCells : CellArray) : Bool :=
  let basic := g.basicEvaluation i j map oldCells
  let numWalls := CellAutomataGenerator.countNeighbourhood i j map oldCells 2
    g.config.includeSelf
  basic || decide (numWalls ≤ 1)

/-- Calling `config.checkFunction`: the bound rule runs on the generator that
owns the configuration; an unbound function has no defined result. -/
def CellAutomataGenerator.checkFunction (g : CellAutomataGenerator) (i j : Int)
    (map : Map) (oldCells : CellArray) : Option Bool :=
  match g.config.checkFunction with
  | some CellEvaluationFunction.basicEvaluation => some (g.basicEvaluation i j map oldCells)
  | some CellEvaluationFunction.basicEvaluationClosed =>
      some (g.basicEvaluationClosed i j map oldCells)
  | none => none

/-- `CellAutomataGenerator::noise`; the engine is local to the call. -/
def CellAutomataGenerator.noise (g : CellAutomataGenerator) (map : Map)
    (engine : Engine) : Option (Map × Engine) :=
  forGrid 0 map.rows 0 map.cols
    (fun i j (s : Map × Engine) =>
      let corner : Bool := decide (j = 0) || decide (j = (map.cols : Int) - 1) ||
        decide (i = 0) || decide (i = (map.rows : Int) - 1)
      if !g.config.useCorners && corner then
        (s.1.set i j CellType.Wall).map (fun m => (m, s.2))
      else
        let d := uniformReal s.2
        (s.1.set i j (if d.1 ≤ g.config.wallProbability then CellType.Wall
          else CellType.Empty)).map (fun m => (m, d.2)))
    (map, engine)

/-- `CellAutomataGenerator::start`. -/
def CellAutomataGenerator.start (g : CellAutomataGenerator) (map : Map)
    (engine : Engine) : Option (Map × Engine) :=
  g.noise map engine

/-- `CellAutomataGenerator::step`. -/
def CellAutomataGenerator.step (g : CellAutomataGenerator) (map : Map) : Option Map :=
  let copy : CellArray := map.cells
  let startRow : Int := if g.config.useCorners then 0 else 1
  let endRow : Int := if g.config.useCorners then map.rows else (map.rows : Int) - 1
  let startCol : Int := if g.config.useCorners then 0 else 1
  let endCol : Int := if g.config.useCorners then map.cols else (map.cols : Int) - 1
  forGrid startRow endRow startCol endCol
    (fun i j (m : Map) =>
      match g.checkFunction i j m copy with
      | some b => m.set i j (if b then CellType.Wall else CellType.Empty)
      | none => none)
    map

/-- `CellAutomataGenerator::generate`: one smoothing pass. -/
def CellAutomataGenerator.generate (g : CellAutomataGenerator) (map : Map) : Option Map :=
  g.step map

/-! ## Drunkard walk -/

/-- Configuration of the drunkard walk (`DrunkardWalkConfig`). -/
structure DrunkardWalkConfig where
  expectedRatio : ℚ

/-- The drunkard walk generator: configuration, current position and engine. -/
structure DrunkardWalkGenerator where
  config : DrunkardWalkConfig
  row : Int
  col : Int
  engine : Engine

/-- The table `rowIndexes` of `DrunkardWalkGenerator::step`. -/
def rowIndexes : List Int := [0, 0, 1, -1]

/-- The table `colIndexes` of `DrunkardWalkGenerator::step`. -/
def colIndexes : List Int := [1, -1, 0, 0]

/-- Reading `table[dir]`; the loop of step only reads at 0..3. -/
def tableAt (table : List Int) (dir : Int) : Int := table.getD dir.toNat 0

/-- `DrunkardWalkGenerator::start`. -/
def DrunkardWalkGenerator.start (g : DrunkardWalkGenerator) (map : Map) :
    Option (DrunkardWalkGenerator × Map) :=
  match forGrid 0 map.rows 0 map.cols (fun i j m => m.set i j CellType.Wall) map with
  | none => none
  | some m1 =>
    match uniformInt 0 ((map.rows : Int) - 1) g.engine with
    | none => none
    | some rowDraw =>
      match uniformInt 0 ((map.cols : Int) - 1) rowDraw.2 with
      | none => none
      | some colDraw =>
        match m1.set rowDraw.1 colDraw.1 CellType.Empty with
        | none => none
        | some m2 =>
          some ({ g with row := rowDraw.1, col := colDraw.1, engine := colDraw.2 }, m2)

/-- The rejection loop `do dir = direction(engine); while (dir < 0 || !validCoords ...)`
of `DrunkardWalkGenerator::step`; the fuel bounds the number of draws. -/
def DrunkardWalkGenerator.pickDirection (map : Map) (row col : Int) :
    Nat → Engine → Option (Int × Engine)
  | 0, _ => none
  | fuel + 1, engine =>
    match uniformInt 0 3 engine with
    | none => none
    | some draw =>
      if decide (draw.1 < 0) ||
          !map.validCoords (row + tableAt rowIndexes draw.1) (col + tableAt colIndexes draw.1)
      then DrunkardWalkGenerator.pickDirection map row col fuel draw.2
      else some draw

/-- `DrunkardWalkGenerator::step`; the fuel bounds the draws of the rejection
loop. -/
def DrunkardWalkGenerator.step (g : DrunkardWalkGenerator) (fuel : Nat) (map : Map) :
    Option (DrunkardWalkGenerator × Map) :=
  match DrunkardWalkGenerator.pickDirection map g.row g.col fuel g.engine with
  | none => none
  | some draw =>
    match map.set (g.row + tableAt rowIndexes draw.1) (g.col + tableAt colIndexes draw.1)
        CellType.Empty with
    | none => none
    | some m' =>
      let row := g.row + tableAt rowIndexes draw.1
      let col := g.col + tableAt colIndexes draw.1
      some ({ g with row := row, col := col, engine := draw.2 }, m')

/-- Modelled from the spec: `std::count` of Empty over the cell array of the
grid, which holds the cells of all valid coordinates. -/
def Map.countEmpty (m : Map) : Int :=
  (((gridCells 0 m.rows 0 m.cols).countP (fun p => decide (m.cells p = CellType.Empty)) : Nat) :
    Int)

/-- `DrunkardWalkGenerator::generate`; `loopFuel` bounds the iterations of the
while loop and `stepFuel` the draws of each step. -/
def DrunkardWalkGenerator.generate (stepFuel : Nat) :
    Nat → DrunkardWalkGenerator → Map → Option (DrunkardWalkGenerator × Map)
  | loopFuel, g, map =>
    if quotientLt map.countEmpty map.numCells g.config.expectedRatio then
      match loopFuel with
      | 0 => none
      | n + 1 =>
        match g.step stepFuel map with
        | none => none
        | some s => DrunkardWalkGenerator.generate stepFuel n s.1 s.2
    else some (g, map)

/-- A sequence of step calls, one fuel value per call. -/
def DrunkardWalkGenerator.steps :
    List Nat → DrunkardWalkGenerator → Map → Option (DrunkardWalkGenerator × Map)
  | [], g, map => some (g, map)
  | fuel :: rest, g, map =>
    match g.step fuel map with
    | none => none
    | some s => DrunkardWalkGenerator.steps rest s.1 s.2

/-! ## Binary space partition -/

/-- Configuration of the BSP generator (`BSPConfig`). -/
structure BSPConfig where
  maxDivisions : Int
  splitHRatio : ℚ
  splitVRatio : ℚ
  horizSplitProbability : ℚ
  emptyRoomProbability : ℚ
  minWidth : Int
  minRoomWidth : Int
  maxRoomWidth : Int
  minHeight : Int
  minRoomHeight : Int
  maxRoomHeight : Int

/-- An axis-aligned rectangle (`BSPRect`). -/
structure BSPRect where
  x : Int
  y : Int
  w : Int
  h : Int
deriving DecidableEq, Repr

/-- A pointer to a partition tree node (`BSPTree*`): null, or a node with its
area, its room pointer and its two child pointers.  The configuration and the
engine a node points to are those of the generator and are passed as arguments. -/
inductive BSPTree where
  | null : BSPTree
  | node (area : BSPRect) (room : Option BSPRect) (left right : BSPTree) : BSPTree
deriving DecidableEq, Repr

/-- Test `ptr == nullptr`. -/
def BSPTree.isNull : BSPTree → Bool
  | BSPTree.null => true
  | BSPTree.node _ _ _ _ => false

/-- The field `area` of a node. -/
def BSPTree.area : BSPTree → BSPRect
  | BSPTree.null => { x := 0, y := 0, w := 0, h := 0 }
  | BSPTree.node area _ _ _ => area

/-- The field `room` of a node (none for a null room pointer). -/
def BSPTree.room : BSPTree → Option BSPRect
  | BSPTree.null => none
  | BSPTree.node _ room _ _ => room

/-- `BSPTree::getLeaves`; a call through a null pointer has no defined result. -/
def BSPTree.getLeaves : BSPTree → Option (List BSPTree)
  | BSPTree.null => none
  | BSPTree.node area room BSPTree.null BSPTree.null =>
      some [BSPTree.node area room BSPTree.null BSPTree.null]
  | BSPTree.node _ _ left right =>
    match left.getLeaves with
    | none => none
    | some ls =>
      match right.getLeaves with
      | none => none
      | some rs => some (ls ++ rs)

/-- `BSPTree::getRoom`.  The result is a node pointer, null when the subtree
holds no room; on a null pointer the caller skips the call, which leaves its
result null. -/
def BSPTree.getRoom : BSPTree → Engine → BSPTree × Engine
  | BSPTree.null, engine => (BSPTree.null, engine)
  | BSPTree.node area (some room) left right, engine =>
      (BSPTree.node area (some room) left right, engine)
  | BSPTree.node _ none left right, engine =>
    let leftRoom := left.getRoom engine
    let rightRoom := right.getRoom leftRoom.2
    if leftRoom.1.isNull && rightRoom.1.isNull then (BSPTree.null, rightRoom.2)
    else if leftRoom.1.isNull then (rightRoom.1, rightRoom.2)
    else if rightRoom.1.isNull then (leftRoom.1, rightRoom.2)
    else
      let d := uniformReal rightRoom.2
      (if d.1 < 1 / 2 then leftRoom.1 else rightRoom.1, d.2)

/-- `BSPTree::split` on a node; the fuel bounds the depth of the recursion.  The
boolean result of the C++ function is never read and is left out. -/
def BSPTree.split (config : BSPConfig) : Nat → BSPTree → Engine → Option (BSPTree × Engine)
  | 0, _, _ => none
  | _ + 1, BSPTree.null, _ => none
  | fuel + 1, BSPTree.node area room left right, engine =>
    let d := uniformReal engine
    let isHSplit : Bool :=
      if quotientGe area.w area.h config.splitVRatio then false
      else if quotientGt area.h area.w config.splitHRatio then true
      else decide (d.1 < config.horizSplitProbability)
    let maxSize : Int := if isHSplit then area.h - config.minHeight else area.w - config.minWidth
    let minSize : Int := if isHSplit then config.minHeight else config.minWidth
    if maxSize ≤ minSize then some (BSPTree.node area room left right, d.2)
    else
      match uniformInt minSize maxSize d.2 with
      | none => none
      | some draw =>
        let splitValue := draw.1
        let leftArea : BSPRect :=
          if isHSplit then { x := area.x, y := area.y, w := area.w, h := splitValue }
          else { x := area.x, y := area.y, w := splitValue, h := area.h }
        let rightArea : BSPRect :=
          if isHSplit then
            { x := area.x, y := area.y + splitValue, w := area.w, h := area.h - splitValue }
          else { x := area.x + splitValue, y := area.y, w := area.w - splitValue, h := area.h }
        match BSPTree.split config fuel
            (BSPTree.node leftArea none BSPTree.null BSPTree.null) draw.2 with
        | none => none
        | some l =>
          match BSPTree.split config fuel
              (BSPTree.node rightArea none BSPTree.null BSPTree.null) l.2 with
          | none => none
          | some r => some (BSPTree.node area room l.1 r.1, r.2)

/-- The BSP generator: configuration, partition tree and engine. -/
structure BSPGenerator where
  config : BSPConfig
  generatedTree : BSPTree
  splitEngine : Engine

/-- `BSPGenerator::start`. -/
def BSPGenerator.start (g : BSPGenerator) (map : Map) : Option (BSPGenerator × Map) :=
  match forGrid 0 map.rows 0 map.cols (fun i j m => m.set i j CellType.Wall) map with
  | none => none
  | some m1 =>
    let root : BSPRect := { x := 0, y := 0, w := map.cols, h := map.rows }
    some ({ g with generatedTree := BSPTree.node root none BSPTree.null BSPTree.null }, m1)

/-- `carveHall`: both loops run up to and including the far bound. -/
def carveHall (coords : BSPRect) (map : Map) : Option Map :=
  forGrid coords.y (coords.y + coords.h + 1) coords.x (coords.x + coords.w + 1)
    (fun r c m => m.set r c CellType.Empty) map

/-- Two carveHall calls in a row. -/
def carveHalls (first second : BSPRect) (map : Map) : Option Map :=
  match carveHall first map with
  | none => none
  | some m1 => carveHall second m1

/-- The routing part of `findHall`, after the two points (r1, c1) and (r2, c2)
have been drawn. -/
def routeHall (engine : Engine) (r1 c1 r2 c2 : Int) (map : Map) : Option (Map × Engine) :=
  let deltaR := r2 - r1
  let deltaC := c2 - c1
  if deltaC < 0 then
    if deltaR > 0 then
      let d := uniformReal engine
      let upCorner : Bool := decide (d.1 < 1 / 2)
      if upCorner then
        (carveHalls { x := c2, y := r1, w := -deltaC, h := 1 }
          { x := c2, y := r1, w := 1, h := deltaR } map).map (fun m => (m, d.2))
      else
        (carveHalls { x := c1, y := r1, w := 1, h := deltaR }
          { x := c2, y := r2, w := -deltaC, h := 1 } map).map (fun m => (m, d.2))
    else if deltaR < 0 then
      let d := uniformReal engine
      let upCorner : Bool := decide (d.1 < 1 / 2)
      if upCorner then
        (carveHalls { x := c1, y := r2, w := 1, h := -deltaR }
          { x := c2, y := r2, w := -deltaC, h := 1 } map).map (fun m => (m, d.2))
      else
        (carveHalls { x := c2, y := r1, w := -deltaC, h := 1 }
          { x := c2, y := r2, w := 1, h := -deltaR } map).map (fun m => (m, d.2))
    else
      (carveHall { x := c2, y := r2, w := -deltaC, h := 1 } map).map (fun m => (m, engine))
  else if deltaC > 0 then
    if deltaR > 0 then
      let d := uniformReal engine
      let upCorner : Bool := decide (d.1 < 1 / 2)
      if upCorner then
        (carveHalls { x := c2, y := r1, w := 1, h := deltaR }
          { x := c1, y := r1, w := deltaC, h := 1 } map).map (fun m => (m, d.2))
      else
        (carveHalls { x := c1, y := r2, w := deltaC, h := 1 }
          { x := c1, y := r1, w := 1, h := deltaR } map).map (fun m => (m, d.2))
    else if deltaR < 0 then
      let d := uniformReal engine
      let upCorner : Bool := decide (d.1 < 1 / 2)
      if upCorner then
        (carveHalls { x := c1, y := r2, w := 1, h := -deltaR }
          { x := c1, y := r2, w := deltaC, h := 1 } map).map (fun m => (m, d.2))
      else
        (carveHalls { x := c1, y := r1, w := deltaC, h := 1 }
          { x := c2, y := r2, w := 1, h := -deltaR } map).map (fun m => (m, d.2))
    else
      (carveHall { x := c1, y := r1, w := deltaC, h := 1 } map).map (fun m => (m, engine))
  else
    if deltaR > 0 then
      (carveHall { x := c1, y := r1, w := 1, h := deltaR } map).map (fun m => (m, engine))
    else if deltaR < 0 then
      (carveHall { x := c1, y := r2, w := 1, h := -deltaR } map).map (fun m => (m, engine))
    else some (map, engine)

/-- The four draws of `findHall`: c1, r1 in the first rectangle, then c2, r2 in
the second. -/
def drawHallPoints (engine : Engine) (rect1 rect2 : BSPRect) :
    Option ((Int × Int × Int × Int) × Engine) :=
  match uniformInt (rect1.x + 1) (rect1.x + rect1.w - 1) engine with
  | none => none
  | some c1 =>
    match uniformInt (rect1.y + 1) (rect1.y + rect1.h - 1) c1.2 with
    | none => none
    | some r1 =>
      match uniformInt (rect2.x + 1) (rect2.x + rect2.w - 1) r1.2 with
      | none => none
      | some c2 =>
        match uniformInt (rect2.y + 1) (rect2.y + rect2.h - 1) c2.2 with
        | none => none
        | some r2 => some ((r1.1, c1.1, r2.1, c2.1), r2.2)

/-- `findHall`: draw a point in each rectangle, then carve the corridor. -/
def findHall (engine : Engine) (rect1 rect2 : BSPRect) (map : Map) : Option (Map × Engine) :=
  match drawHallPoints engine rect1 rect2 with
  | none => none
  | some pts => routeHall pts.2 pts.1.1 pts.1.2.1 pts.1.2.2.1 pts.1.2.2.2 map

/-- `createHalls`. -/
def createHalls : BSPTree → Engine → Map → Option (Map × Engine)
  | BSPTree.null, _, _ => none
  | BSPTree.node _ _ left right, engine, map =>
    if !left.isNull || !right.isNull then
      match (if !left.isNull then createHalls left engine map else some (map, engine)) with
      | none => none
      | some s1 =>
        match (if !right.isNull then createHalls right s1.2 s1.1 else some s1) with
        | none => none
        | some s2 =>
          if !left.isNull && !right.isNull then
            let lRoom := left.getRoom s2.2
            let rRoom := right.getRoom lRoom.2
            if !lRoom.1.isNull && !rRoom.1.isNull then
              match lRoom.1.room, rRoom.1.room with
              | some room1, some room2 => findHall rRoom.2 room1 room2 s2.1
              | _, _ => none
            else some (s2.1, rRoom.2)
          else some s2
    else some (map, engine)

/-- The body of the populate loop of `BSPGenerator::generate` for one leaf. -/
def populateLeaf (config : BSPConfig) (leaf : BSPTree) (map : Map) (engine : Engine) :
    Option (BSPTree × Map × Engine) :=
  match leaf with
  | BSPTree.null => none
  | BSPTree.node area room left right =>
    let d := uniformReal engine
    let willSkip : Bool := decide (d.1 < config.emptyRoomProbability)
    if willSkip then some (BSPTree.node area room left right, map, d.2)
    else
      match uniformInt config.minRoomHeight config.maxRoomHeight d.2 with
      | none => none
      | some h =>
        match uniformInt config.minRoomWidth config.maxRoomWidth h.2 with
        | none => none
        | some w =>
          match uniformInt 1 (area.w - w.1 - 1) w.2 with
          | none => none
          | some dx =>
            match uniformInt 1 (area.h - h.1 - 1) dx.2 with
            | none => none
            | some dy =>
              let x := area.x + dx.1
              let y := area.y + dy.1
              match forGrid y (y + h.1 + 1) x (x + w.1 + 1)
                  (fun posY posX m => m.set posY posX CellType.Empty) map with
              | none => none
              | some m' =>
                some (BSPTree.node area (some { x := x, y := y, w := w.1, h := h.1 })
                  left right, m', dy.2)

/-- The populate loop of `BSPGenerator::generate` as written in the source: the
body runs on each element of the vector of leaves in turn; the result lists the
leaves as the loop leaves them. -/
def populateLoop (config : BSPConfig) :
    List BSPTree → Map → Engine → Option (List BSPTree × Map × Engine)
  | [], map, engine => some ([], map, engine)
  | leaf :: rest, map, engine =>
    match populateLeaf config leaf map engine with
    | none => none
    | some r =>
      match populateLoop config rest r.2.1 r.2.2 with
      | none => none
      | some rs => some (r.1 :: rs.1, rs.2.1, rs.2.2)

/-- The populate phase of `BSPGenerator::generate`: the loop over the leaves that
getLeaves collects, left to right; each leaf is updated in place. -/
def populate (config : BSPConfig) : BSPTree → Map → Engine →
    Option (BSPTree × Map × Engine)
  | BSPTree.null, _, _ => none
  | BSPTree.node area room BSPTree.null BSPTree.null, map, engine =>
      populateLeaf config (BSPTree.node area room BSPTree.null BSPTree.null) map engine
  | BSPTree.node area room left right, map, engine =>
    match populate config left map engine with
    | none => none
    | some l =>
      match populate config right l.2.1 l.2.2 with
      | none => none
      | some r => some (BSPTree.node area room l.1 r.1, r.2.1, r.2.2)

/-- `BSPGenerator::generate`: split, populate, connect.  The fuel bounds the
depth of the split recursion. -/
def BSPGenerator.generate (g : BSPGenerator) (fuel : Nat) (map : Map) :
    Option (BSPGenerator × Map) :=
  match g.generatedTree.split g.config fuel g.splitEngine with
  | none => none
  | some s =>
    match populate g.config s.1 map s.2 with
    | none => none
    | some p =>
      match createHalls p.1 p.2.2 p.2.1 with
      | none => none
      | some h => some ({ g with generatedTree := p.1, splitEngine := h.2 }, h.1)

/-! ## Reference notions: grids and boxes -/

/-- Same number of rows and columns. -/
def Map.SameDims (a b : Map) : Prop := a.rows = b.rows ∧ a.cols = b.cols

/-- The cells of rows r0 .. r1 - 1 and columns c0 .. c1 - 1. -/
@[reducible] def inBox (r0 r1 c0 c1 : Int) (q : Int × Int) : Prop :=
  (r0 ≤ q.1 ∧ q.1 < r1) ∧ (c0 ≤ q.2 ∧ q.2 < c1)

/-- The rectangle lies inside the grid when read as an area. -/
def Map.holds (m : Map) (rect : BSPRect) : Prop :=
  (0 ≤ rect.x ∧ rect.x + rect.w ≤ (m.cols : Int)) ∧
    (0 ≤ rect.y ∧ rect.y + rect.h ≤ (m.rows : Int))

/-- Whether (row, col) is a cell of the outer ring of the grid: row 0, the last
row, column 0 or the last column. -/
def Map.outerRing (m : Map) (row col : Int) : Bool :=
  m.validCoords row col &&
    (decide (row = 0) || decide (row = (m.rows : Int) - 1) ||
      decide (col = 0) || decide (col = (m.cols : Int) - 1))

/-- The cell p is a cell of the grid and Empty. -/
def Map.isEmptyCell (m : Map) (p : Int × Int) : Prop :=
  m.validCoords p.1 p.2 = true ∧ m.cells p = CellType.Empty

/-! ## Reference notions for the cellular automata rules -/

/-- Offsets of the 8 cells that surround a cell (its Moore neighbourhood). -/
def mooreOffsets : List (Int × Int) :=
  [(-1, -1), (-1, 0), (-1, 1), (0, -1), (0, 1), (1, -1), (1, 0), (1, 1)]

/-- Whether (row, col) is inside the grid and Wall in the snapshot. -/
def wallInBounds (map : Map) (snapshot : CellArray) (row col : Int) : Bool :=
  map.validCoords row col && decide (snapshot (row, col) = CellType.Wall)

/-- Number of in-bounds Wall cells among the 8 Moore neighbours of (i, j), plus
the cell itself when asked for. -/
def mooreWallCount (map : Map) (snapshot : CellArray) (i j : Int) (includeSelf : Bool) :
    Int :=
  ((mooreOffsets.countP (fun d => wallInBounds map snapshot (i + d.1) (j + d.2)) : Nat) : Int)
    + (if includeSelf && wallInBounds map snapshot i j then 1 else 0)

/-- What one visited offset adds to the wall count at distance 1. -/
def contribution (i j : Int) (map : Map) (oldCells : CellArray) (countSelf : Bool)
    (deltaRow deltaCol : Int) : Int :=
  if map.validCoords (i + deltaRow) (j + deltaCol) = true ∧
      ¬ (deltaRow = 0 ∧ deltaCol = 0 ∧ countSelf = false) ∧
      oldCells (i + deltaRow, j + deltaCol) = CellType.Wall then 1 else 0

/-- The cells a smoothing step updates: all cells when border simulation is
enabled, the cells off the outer ring otherwise. -/
def CellAutomataGenerator.updates (g : CellAutomataGenerator) (m : Map) (row col : Int) :
    Bool :=
  m.validCoords row col && (g.config.useCorners || !m.outerRing row col)

/-- The four corner offsets of the 5 x 5 neighbourhood. -/
def cornerOffsets : List (Int × Int) := [(-2, -2), (-2, 2), (2, -2), (2, 2)]

/-- The offsets of the 5 x 5 neighbourhood without its four corners and without
the centre. -/
def closedOffsets : List (Int × Int) :=
  (gridCells (-2) 3 (-2) 3).filter (fun d => decide (d ∉ cornerOffsets) && decide (d ≠ (0, 0)))

/-- Number of in-bounds Wall cells in the 5 x 5 neighbourhood of (i, j) without
the four corner offsets, plus the cell itself when asked for: the wider count as
the extended rule is described. -/
def closedWallCount (map : Map) (snapshot : CellArray) (i j : Int) (includeSelf : Bool) :
    Int :=
  ((closedOffsets.countP (fun d => wallInBounds map snapshot (i + d.1) (j + d.2)) : Nat) : Int)
    + (if includeSelf && wallInBounds map snapshot i j then 1 else 0)

/-! ## Reference notions for connectivity -/

/-- Two cells are 4-adjacent: same row and neighbouring columns, or same column
and neighbouring rows. -/
def adjacent4 (p q : Int × Int) : Prop :=
  (p.1 = q.1 ∧ (p.2 = q.2 + 1 ∨ q.2 = p.2 + 1)) ∨
    (p.2 = q.2 ∧ (p.1 = q.1 + 1 ∨ q.1 = p.1 + 1))

/-- The cells p and q are joined by a 4-connected path all of whose cells are
in the set S (p = q is joined by the path of length zero). -/
def Reach (S : Int × Int → Prop) (p q : Int × Int) : Prop :=
  Relation.ReflTransGen (fun a b => adjacent4 a b ∧ S a ∧ S b) p q

/-- The set S is 4-connected: any two of its cells are joined inside S. -/
def Connected4 (S : Int × Int → Prop) : Prop :=
  ∀ p q, S p → S q → Reach S p q

/-- The set `hall` is a corridor from p to q in the grid: all its cells are cells
of the grid, it is connected, it contains p and q unless it is empty, and p and q
are joined by a path inside it. -/
def Corridor (m : Map) (hall : Int × Int → Prop) (p q : Int × Int) : Prop :=
  (∀ x, hall x → m.validCoords x.1 x.2 = true) ∧
  Connected4 hall ∧ (∀ x, hall x → hall p ∧ hall q) ∧
  Reach hall p q

/-- The grid `after` is the grid `before` with exactly the cells of `hall` set to
Empty. -/
def Carves (before after : Map) (hall : Int × Int → Prop) : Prop :=
  after.SameDims before ∧
  (∀ x, hall x → after.cells x = CellType.Empty) ∧
  (∀ x, ¬ hall x → after.cells x = before.cells x)

/-! ## Reference notions for the partition tree and its rooms -/

/-- The cells of a rectangle read as an area: columns x .. x + w - 1 and rows
y .. y + h - 1.  A cell is a (row, col) pair. -/
def BSPRect.covers (rect : BSPRect) (p : Int × Int) : Prop :=
  (rect.x ≤ p.2 ∧ p.2 < rect.x + rect.w) ∧ (rect.y ≤ p.1 ∧ p.1 < rect.y + rect.h)

/-- The rectangle `inner` lies inside the rectangle `outer`. -/
def BSPRect.within (inner outer : BSPRect) : Prop :=
  (outer.x ≤ inner.x ∧ inner.x + inner.w ≤ outer.x + outer.w) ∧
    (outer.y ≤ inner.y ∧ inner.y + inner.h ≤ outer.y + outer.h)

/-- The two child rectangles exactly tile the parent: both lie inside it, they
share no cell, every cell of the parent is in one of them, and they are the
parent cut at splitValue along the height (left is the top part) or along the
width (left is the left part). -/
def childrenTile (parent left right : BSPRect) : Prop :=
  (∀ p, left.covers p → parent.covers p) ∧
  (∀ p, right.covers p → parent.covers p) ∧
  (∀ p, parent.covers p → left.covers p ∨ right.covers p) ∧
  (∀ p, ¬ (left.covers p ∧ right.covers p)) ∧
  ((∃ splitValue : Int, 0 ≤ splitValue ∧ splitValue ≤ parent.h ∧
      left = { x := parent.x, y := parent.y, w := parent.w, h := splitValue } ∧
      right = { x := parent.x, y := parent.y + splitValue, w := parent.w,
                h := parent.h - splitValue }) ∨
   (∃ splitValue : Int, 0 ≤ splitValue ∧ splitValue ≤ parent.w ∧
      left = { x := parent.x, y := parent.y, w := splitValue, h := parent.h } ∧
      right = { x := parent.x + splitValue, y := parent.y, w := parent.w - splitValue,
                h := parent.h }))

/-- The area of the first child of a split at splitValue. -/
def leftAreaOf (isHSplit : Bool) (area : BSPRect) (splitValue : Int) : BSPRect :=
  if isHSplit then { x := area.x, y := area.y, w := area.w, h := splitValue }
  else { x := area.x, y := area.y, w := splitValue, h := area.h }

/-- The area of the second child of a split at splitValue. -/
def rightAreaOf (isHSplit : Bool) (area : BSPRect) (splitValue : Int) : BSPRect :=
  if isHSplit then
    { x := area.x, y := area.y + splitValue, w := area.w, h := area.h - splitValue }
  else { x := area.x + splitValue, y := area.y, w := area.w - splitValue, h := area.h }

/-- A tree in which every node has no child or two, and every leaf satisfies P. -/
def BSPTree.AllLeaves (P : BSPTree → Prop) : BSPTree → Prop
  | BSPTree.null => False
  | BSPTree.node area room left right =>
    (left.isNull = true ∧ right.isNull = true ∧ P (BSPTree.node area room left right)) ∨
    (left.isNull = false ∧ right.isNull = false ∧ left.AllLeaves P ∧ right.AllLeaves P)

/-- A tree in which the children of every node that has children tile it. -/
def BSPTree.Tiled : BSPTree → Prop
  | BSPTree.null => True
  | BSPTree.node area _ left right =>
    (left.isNull = true ∧ right.isNull = true) ∨
    (left.isNull = false ∧ right.isNull = false ∧
      childrenTile area left.area right.area ∧ left.Tiled ∧ right.Tiled)

/-- A tree in which every node has no child or two, every inner node has no room
and every leaf satisfies P (on its area and room pointer). -/
def BSPTree.Partition (P : BSPRect → Option BSPRect → Prop) : BSPTree → Prop
  | BSPTree.null => False
  | BSPTree.node area room left right =>
    (left.isNull = true ∧ right.isNull = true ∧ P area room) ∨
    (left.isNull = false ∧ right.isNull = false ∧ room = none ∧
      left.Partition P ∧ right.Partition P)

/-- The room rectangle keeps a margin of one cell to every side of the area. -/
def roomMargin (area rect : BSPRect) : Prop :=
  area.x + 1 ≤ rect.x ∧ rect.x + rect.w ≤ area.x + area.w - 1 ∧
    area.y + 1 ≤ rect.y ∧ rect.y + rect.h ≤ area.y + area.h - 1

/-- The cells `carveHall` visits for a rectangle, which are also the cells the
populate loop sets for a room: rows y .. y + h and columns x .. x + w. -/
@[reducible] def hallBox (rect : BSPRect) (q : Int × Int) : Prop :=
  inBox rect.y (rect.y + rect.h + 1) rect.x (rect.x + rect.w + 1) q

/-- The cells of the rooms recorded in a tree, as the populate loop sets them. -/
def BSPTree.roomCells : BSPTree → Int × Int → Prop
  | BSPTree.null, _ => False
  | BSPTree.node _ room left right, q =>
    (∃ rect, room = some rect ∧ hallBox rect q) ∨ left.roomCells q ∨ right.roomCells q

/-- The rectangle can serve findHall on the grid: it has an interior to draw a
point from and all its cells, far bounds included, are cells of the grid. -/
def Map.fitsRoom (m : Map) (rect : BSPRect) : Prop :=
  2 ≤ rect.w ∧ 2 ≤ rect.h ∧ ∀ q, hallBox rect q → m.validCoords q.1 q.2 = true

/-- The grid holds a room at the rectangle: the rectangle has an interior to
draw a point from, and every cell the populate loop sets for it is a cell of the
grid and Empty. -/
def Map.hasRoom (m : Map) (rect : BSPRect) : Prop :=
  2 ≤ rect.w ∧ 2 ≤ rect.h ∧ ∀ q, hallBox rect q → m.isEmptyCell q

/-! ## Reference notions for the later properties -/

/-- Manhattan distance between two cells. -/
def manhattan (p q : Int × Int) : Int := |p.1 - q.1| + |p.2 - q.2|

/-- The cell reached from (row, col) by the direction `dir` of the tables of
`DrunkardWalkGenerator::step`. -/
def neighbourAt (row col dir : Int) : Int × Int :=
  (row + tableAt rowIndexes dir, col + tableAt colIndexes dir)

/-- The engine whose raw outcomes are all equal to n. -/
def constantEngine (n : Nat) : Engine := { raw := fun _ => n }

/-- The engine whose raw outcomes are the entries of a list, followed by zeros. -/
def listEngine (xs : List Nat) : Engine := { raw := fun n => xs.getD n 0 }

/-- The field `left` of a node. -/
def BSPTree.left : BSPTree → BSPTree
  | BSPTree.null => BSPTree.null
  | BSPTree.node _ _ left _ => left

/-- The field `right` of a node. -/
def BSPTree.right : BSPTree → BSPTree
  | BSPTree.null => BSPTree.null
  | BSPTree.node _ _ _ right => right

/-- The nodes of the subtree rooted at a node, the node itself first. -/
def BSPTree.nodes : BSPTree → List BSPTree
  | BSPTree.null => []
  | BSPTree.node area room left right =>
    BSPTree.node area room left right :: (left.nodes ++ right.nodes)

/-- Some node of the subtree holds a room. -/
def BSPTree.containsRoom (t : BSPTree) : Prop :=
  ∃ n, n ∈ t.nodes ∧ n.room.isSome = true

/-- The orientation `isHSplit` that `BSPTree::split` settles on for a node area,
given the sample drawn for it: the two aspect-ratio tests come first, the
comparison of the sample with horizSplitProbability last. -/
def splitOrientation (config : BSPConfig) (area : BSPRect) (sample : ℚ) : Bool :=
  if quotientGe area.w area.h config.splitVRatio then false
  else if quotientGt area.h area.w config.splitHRatio then true
  else decide (sample < config.horizSplitProbability)

/-- The child rectangle is strictly smaller than the parent along the split axis
(the height for a horizontal split, the width for a vertical one), still of
positive size there, and as large as the parent along the other axis. -/
def shrinksAlong (isHSplit : Bool) (parent child : BSPRect) : Prop :=
  if isHSplit then child.w = parent.w ∧ 0 < child.h ∧ child.h < parent.h
  else child.h = parent.h ∧ 0 < child.w ∧ child.w < parent.w

/-- A tree in which both children of every node that has children are strictly
smaller than the node along one common axis. -/
def BSPTree.Shrinking : BSPTree → Prop
  | BSPTree.null => True
  | BSPTree.node area _ left right =>
    (left.isNull = true ∧ right.isNull = true) ∨
    (left.isNull = false ∧ right.isNull = false ∧
      (∃ isHSplit : Bool, shrinksAlong isHSplit area left.area ∧
        shrinksAlong isHSplit area right.area) ∧
      left.Shrinking ∧ right.Shrinking)

/-- The number of nodes on the longest path from a node down to a leaf. -/
def BSPTree.depth : BSPTree → Nat
  | BSPTree.null => 0
  | BSPTree.node _ _ left right => 1 + max left.depth right.depth

/-- The function `route` carves the corridor `hall` between p and q: `hall` is
connected, it holds p and q when they differ and is empty when they coincide, p
and q are joined inside it, `route` returns exactly on the grids that hold all
cells of `hall`, and a grid it returns is the grid it got with exactly the cells
of `hall` set to Empty. -/
def Routes (route : Map → Option (Map × Engine)) (hall : Int × Int → Prop)
    (p q : Int × Int) : Prop :=
  Connected4 hall ∧ (p ≠ q → hall p ∧ hall q) ∧ (p = q → ∀ x, ¬ hall x) ∧ Reach hall p q ∧
  ∀ m : Map,
    ((∃ res, route m = some res) ↔ ∀ x, hall x → m.validCoords x.1 x.2 = true) ∧
    ∀ res, route m = some res → Carves m res.1 hall

/-! ## Sample inputs -/

/-- The engine whose raw outcomes are all zero. -/
def zeroEngine : Engine := { raw := fun _ => 0 }

/-- The engine whose first two raw outcomes are 1 and whose other outcomes are 0. -/
def oneOneEngine : Engine := { raw := fun n => if n < 2 then 1 else 0 }

/-- A 3 x 4 grid filled with Wall. -/
def sampleMap : Map := { rows := 3, cols := 4, cells := fun _ => CellType.Wall }

/-- A 6 x 6 grid whose cells are all Empty. -/
def openMap : Map := { rows := 6, cols := 6, cells := fun _ => CellType.Empty }

/-- A 40 x 40 grid. -/
def scenarioMap : Map := { rows := 40, cols := 40, cells := fun _ => CellType.Wall }

/-- A cellular automata generator with the default configuration values, as
initialised by init. -/
def sampleAutomaton : CellAutomataGenerator :=
  CellAutomataGenerator.init
    { useSeed := false, seed := 0, useCorners := false, wallProbability := 45 / 100,
      minSurroundingWallsForNextIter := 5, includeSelf := true, functionIndex := 0,
      checkFunction := none }

/-- A drunkard walk generator with the default target ratio. -/
def sampleWalker : DrunkardWalkGenerator :=
  { config := { expectedRatio := 55 / 100 }, row := 0, col := 0, engine := zeroEngine }

/-- A configuration with minimum leaf size 1 x 1 and rooms of size 1. -/
def unitConfig : BSPConfig :=
  { maxDivisions := -1, splitHRatio := 3 / 10, splitVRatio := 1 / 2,
    horizSplitProbability := 1 / 2, emptyRoomProbability := 0, minWidth := 1,
    minRoomWidth := 1, maxRoomWidth := 1, minHeight := 1, minRoomHeight := 1,
    maxRoomHeight := 1 }

/-- A configuration with a negative minimum width. -/
def negativeWidthConfig : BSPConfig :=
  { maxDivisions := -1, splitHRatio := 1, splitVRatio := 1, horizSplitProbability := 1 / 2,
    emptyRoomProbability := 0, minWidth := -1, minRoomWidth := 1, maxRoomWidth := 1,
    minHeight := 1, minRoomHeight := 1, maxRoomHeight := 1 }

/-- The configuration of the end-to-end scenario: minimum leaf 10 x 10, rooms
from 4 to 8 cells, no leaf left without a room. -/
def scenarioConfig : BSPConfig :=
  { maxDivisions := -1, splitHRatio := 3 / 10, splitVRatio := 1 / 2,
    horizSplitProbability := 1 / 2, emptyRoomProbability := 0, minWidth := 10,
    minRoomWidth := 4, maxRoomWidth := 8, minHeight := 10, minRoomHeight := 4,
    maxRoomHeight := 8 }

/-- A BSP generator with the scenario configuration, before start. -/
def scenarioGenerator : BSPGenerator :=
  { config := scenarioConfig, generatedTree := BSPTree.null, splitEngine := zeroEngine }

/-- The state after one step of the sample walker on the sample grid: the walker
has moved east to (0, 1), which is now Empty. -/
def sampleWalkerMoved : DrunkardWalkGenerator × Map :=
  ({ config := { expectedRatio := 55 / 100 }, row := 0, col := 1,
     engine := (zeroEngine.pop).2 },
   sampleMap.write (0, 1) CellType.Empty)

/-- A 1 x 1 grid. -/
def singleCellMap : Map := { rows := 1, cols := 1, cells := fun _ => CellType.Wall }

/-- A node without a room whose left child holds a room and whose right child
holds none. -/
def oneRoomTree : BSPTree :=
  BSPTree.node { x := 0, y := 0, w := 20, h := 10 } none
    (BSPTree.node { x := 0, y := 0, w := 10, h := 10 } (some { x := 1, y := 1, w := 4, h := 4 })
      BSPTree.null BSPTree.null)
    (BSPTree.node { x := 10, y := 0, w := 10, h := 10 } none BSPTree.null BSPTree.null)

/-- A configuration with minimum leaf size 2 x 1 and the ratios 3/10 and 1/2. -/
def orientationConfig : BSPConfig :=
  { maxDivisions := -1, splitHRatio := 3 / 10, splitVRatio := 1 / 2,
    horizSplitProbability := 1 / 2, emptyRoomProbability := 0, minWidth := 2,
    minRoomWidth := 1, maxRoomWidth := 1, minHeight := 1, minRoomHeight := 1,
    maxRoomHeight := 1 }

/-- A room rectangle at columns 1 .. 2 and rows 1 .. 2. -/
def westRoom : BSPRect := { x := 1, y := 1, w := 2, h := 2 }

/-- A room rectangle at columns 6 .. 7 and rows 1 .. 2, level with westRoom. -/
def eastRoom : BSPRect := { x := 6, y := 1, w := 2, h := 2 }

/-- A 5 x 10 grid on which the populate loop has carved westRoom and eastRoom:
rows 1 .. 3 of the columns 1 .. 3 and 6 .. 8 are Empty, all other cells Wall. -/
def twoRoomsMap : Map :=
  { rows := 5, cols := 10,
    cells := fun q =>
      if (1 ≤ q.1 ∧ q.1 ≤ 3) ∧ ((1 ≤ q.2 ∧ q.2 ≤ 3) ∨ (6 ≤ q.2 ∧ q.2 ≤ 8)) then CellType.Empty
      else CellType.Wall }

/-- A configuration with minimum leaf size 10 x 10 and rooms of 8 x 8, the
largest size that leaves the margin: maxRoom = min leaf - 2. -/
def tightConfig : BSPConfig :=
  { maxDivisions := -1, splitHRatio := 3 / 10, splitVRatio := 1 / 2,
    horizSplitProbability := 1 / 2, emptyRoomProbability := 0, minWidth := 10,
    minRoomWidth := 8, maxRoomWidth := 8, minHeight := 10, minRoomHeight := 8,
    maxRoomHeight := 8 }

/-- A 10 x 10 grid, all Wall. -/
def tenMap : Map := { rows := 10, cols := 10, cells := fun _ => CellType.Wall }

/-- A BSP generator with the tight configuration and a given engine, before
start. -/
def tightGenerator (engine : Engine) : BSPGenerator :=
  { config := tightConfig, generatedTree := BSPTree.null, splitEngine := engine }

/-- A 5 x 5 grid whose only Wall cells are the corners (0, 0) and (4, 4). -/
def cornerMap : Map :=
  { rows := 5, cols := 5,
    cells := fun q => if q = (0, 0) ∨ q = (4, 4) then CellType.Wall else CellType.Empty }

/-- The scenario configuration with every second leaf left without a room on
average: emptyRoomProbability = 1/2. -/
def skippingConfig : BSPConfig := { scenarioConfig with emptyRoomProbability := 1 / 2 }

/-- Raw outcomes for a run with a skipped leaf: twelve zeros for split, then for
the three leaves in turn a sample of 1/2 and four zeros (a room), a sample of 0
(no room), and again a sample of 1/2 and four zeros (a room). -/
def skipDraws : List Nat :=
  [0, 0, 0, 0, 0, 0, 0, 0, 0, 0, 0, 0, 1, 1, 0, 0, 0, 0, 0, 0, 1, 1, 0, 0, 0, 0]

/-- A BSP generator with the skipping configuration, before start. -/
def skippingGenerator : BSPGenerator :=
  { config := skippingConfig, generatedTree := BSPTree.null,
    splitEngine := listEngine skipDraws }

/-- A grid of 10 rows and 40 columns, all Wall. -/
def wideMap : Map := { rows := 10, cols := 40, cells := fun _ => CellType.Wall }

/-- The tree of the skipping generator on the 10 x 40 grid before the rooms are
placed: three leaves of 10, 10 and 20 columns. -/
def threeLeafTree : BSPTree :=
  BSPTree.node { x := 0, y := 0, w := 40, h := 10 } none
    (BSPTree.node { x := 0, y := 0, w := 10, h := 10 } none BSPTree.null BSPTree.null)
    (BSPTree.node { x := 10, y := 0, w := 30, h := 10 } none
      (BSPTree.node { x := 10, y := 0, w := 10, h := 10 } none BSPTree.null BSPTree.null)
      (BSPTree.node { x := 20, y := 0, w := 20, h := 10 } none BSPTree.null BSPTree.null))

/-- The tree of the skipping generator on the 10 x 40 grid after generate: the
first and the third leaf hold a room, the second was skipped. -/
def skippedTree : BSPTree :=
  BSPTree.node { x := 0, y := 0, w := 40, h := 10 } none
    (BSPTree.node { x := 0, y := 0, w := 10, h := 10 } (some { x := 1, y := 1, w := 4, h := 4 })
      BSPTree.null BSPTree.null)
    (BSPTree.node { x := 10, y := 0, w := 30, h := 10 } none
      (BSPTree.node { x := 10, y := 0, w := 10, h := 10 } none BSPTree.null BSPTree.null)
      (BSPTree.node { x := 20, y := 0, w := 20, h := 10 }
        (some { x := 21, y := 1, w := 4, h := 4 }) BSPTree.null BSPTree.null))

/-- A configuration whose splitHRatio is the `float` 0.2f = 3355443 / 2^24: for a
node 5 wide and 6 high the quotient 6 / 5 and the sum 1 + splitHRatio round to
the same `float`. -/
def tieConfig : BSPConfig :=
  { maxDivisions := -1, splitHRatio := 3355443 / 16777216, splitVRatio := 1 / 2,
    horizSplitProbability := 1 / 2, emptyRoomProbability := 0, minWidth := 2,
    minRoomWidth := 1, maxRoomWidth := 1, minHeight := 1, minRoomHeight := 1,
    maxRoomHeight := 1 }

/-- A 3 x 6 grid, all Wall. -/
def lowMap : Map := { rows := 3, cols := 6, cells := fun _ => CellType.Wall }

/-- A configuration whose splitVRatio is the `float` -16777215 / 2^25, just above
-1/2: the sum 1 + splitVRatio rounds down to 1/2. -/
def roundingConfig : BSPConfig :=
  { maxDivisions := -1, splitHRatio := 3 / 10, splitVRatio := -16777215 / 33554432,
    horizSplitProbability := 1 / 2, emptyRoomProbability := 0, minWidth := 2,
    minRoomWidth := 1, maxRoomWidth := 1, minHeight := 1, minRoomHeight := 1,
    maxRoomHeight := 1 }

/-! ## Loop lemmas -/

theorem mem_intRange {lo hi v : Int} : v ∈ intRange lo hi ↔ lo ≤ v ∧ v < hi := by
  unfold intRange
  rw [List.mem_map]
  constructor
  · rintro ⟨k, hk, rfl⟩
    rw [List.mem_range] at hk
    constructor <;> omega
  · rintro ⟨h1, h2⟩
    refine ⟨(v - lo).toNat, ?_, ?_⟩
    · rw [List.mem_range]
      omega
    · show lo + ((v - lo).toNat : Int) = v
      omega

theorem mem_gridCells {r0 r1 c0 c1 : Int} {p : Int × Int} :
    p ∈ gridCells r0 r1 c0 c1 ↔ (r0 ≤ p.1 ∧ p.1 < r1) ∧ (c0 ≤ p.2 ∧ p.2 < c1) := by
  unfold gridCells
  simp only [List.mem_flatMap, List.mem_map, mem_intRange]
  constructor
  · rintro ⟨r, hr, c, hc, rfl⟩
    exact ⟨hr, hc⟩
  · rintro ⟨hr, hc⟩
    exact ⟨p.1, hr, p.2, hc, rfl⟩

theorem nested_foldlM_eq {σ : Type} (body : Int → Int → σ → Option σ) (cs : List Int) :
    ∀ (rs : List Int) (init : σ),
      rs.foldlM (fun s r => cs.foldlM (fun s c => body r c s) s) init =
      (rs.flatMap (fun r => cs.map (fun c => (r, c)))).foldlM
        (fun s (p : Int × Int) => body p.1 p.2 s) init := by
  intro rs
  induction rs with
  | nil => intro init; rfl
  | cons r rs ih =>
    intro init
    simp only [List.foldlM_cons, List.flatMap_cons, List.foldlM_append, List.foldlM_map]
    cases h : cs.foldlM (fun s c => body r c s) init with
    | none => rfl
    | some s => simpa using ih s

theorem forGrid_eq {σ : Type} (r0 r1 c0 c1 : Int) (body : Int → Int → σ → Option σ)
    (init : σ) :
    forGrid r0 r1 c0 c1 body init =
      (gridCells r0 r1 c0 c1).foldlM (fun s (p : Int × Int) => body p.1 p.2 s) init :=
  nested_foldlM_eq body _ _ init

theorem Map.SameDims.refl (a : Map) : a.SameDims a := ⟨rfl, rfl⟩

theorem Map.SameDims.trans {a b c : Map} (h1 : a.SameDims b) (h2 : b.SameDims c) :
    a.SameDims c := ⟨h1.1.trans h2.1, h1.2.trans h2.2⟩

theorem Map.SameDims.symm {a b : Map} (h : a.SameDims b) : b.SameDims a :=
  ⟨h.1.symm, h.2.symm⟩

theorem Map.validCoords_iff (m : Map) (r c : Int) :
    m.validCoords r c = true ↔ (0 ≤ r ∧ r < (m.rows : Int)) ∧ (0 ≤ c ∧ c < (m.cols : Int)) := by
  unfold Map.validCoords
  simp only [Bool.and_eq_true, decide_eq_true_eq]
  tauto

theorem Map.validCoords_congr {a b : Map} (h : a.SameDims b) (r c : Int) :
    a.validCoords r c = b.validCoords r c := by
  unfold Map.validCoords
  rw [h.1, h.2]

theorem Map.set_eq_some {m : Map} {r c : Int} (v : CellType) (h : m.validCoords r c = true) :
    m.set r c v = some (m.write (r, c) v) := by
  unfold Map.set Map.asIndex
  rw [if_pos h]

theorem Map.set_some_valid {m m' : Map} {r c : Int} {v : CellType}
    (h : m.set r c v = some m') : m.validCoords r c = true := by
  unfold Map.set at h
  by_contra hc
  rw [if_neg hc] at h
  cases h

/-- Summary of a loop over cells whose body writes exactly the visited cell: every
visited cell holds a value allowed for it, every other cell is unchanged. -/
theorem foldlM_writes {σ : Type} (mp : σ → Map) (body : Int × Int → σ → Option σ)
    (Q : Int × Int → CellType → Prop) (m0 : Map)
    (hbody : ∀ p s, (mp s).SameDims m0 → m0.validCoords p.1 p.2 = true →
      ∃ s' v, body p s = some s' ∧ (mp s').SameDims m0 ∧ Q p v ∧
        (mp s').cells = fun q => if q = p then v else (mp s).cells q) :
    ∀ (l : List (Int × Int)) (s : σ), (mp s).SameDims m0 →
      (∀ p ∈ l, m0.validCoords p.1 p.2 = true) →
      ∃ sf, l.foldlM (fun s p => body p s) s = some sf ∧ (mp sf).SameDims m0 ∧
        (∀ q, q ∉ l → (mp sf).cells q = (mp s).cells q) ∧
        (∀ q, q ∈ l → Q q ((mp sf).cells q)) := by
  intro l
  induction l with
  | nil =>
    intro s hs _
    exact ⟨s, rfl, hs, fun _ _ => rfl, fun q hq => absurd hq (List.not_mem_nil q)⟩
  | cons p l ih =>
    intro s hs hl
    obtain ⟨s', v, hb, hd, hq, hc⟩ := hbody p s hs (hl p (List.mem_cons_self p l))
    obtain ⟨sf, hf, hfd, hout, hin⟩ := ih s' hd (fun q hq => hl q (List.mem_cons_of_mem p hq))
    refine ⟨sf, ?_, hfd, ?_, ?_⟩
    · rw [List.foldlM_cons, hb]
      exact hf
    · intro q hq
      rw [List.mem_cons, not_or] at hq
      rw [hout q hq.2, hc]
      exact if_neg hq.1
    · intro q hq
      by_cases hql : q ∈ l
      · exact hin q hql
      · have hqp : q = p := by
          rcases List.mem_cons.mp hq with h | h
          · exact h
          · exact absurd h hql
        rw [hout q hql, hc]
        show Q q (if q = p then v else (mp s).cells q)
        rw [if_pos hqp, hqp]
        assumption


/-! ## Single-precision arithmetic: evaluation -/

theorem roundHalfEven_down (s : ℚ) (f : Int) (h1 : (f : ℚ) ≤ s) (h2 : s - f < 1 / 2) :
    roundHalfEven s = f := by
  have hf : ⌊s⌋ = f := Int.floor_eq_iff.mpr ⟨h1, by linarith⟩
  unfold roundHalfEven
  rw [hf, if_pos h2]

theorem roundHalfEven_up (s : ℚ) (f : Int) (h1 : 1 / 2 < s - f) (h2 : s < f + 1) :
    roundHalfEven s = f + 1 := by
  have hf : ⌊s⌋ = f := Int.floor_eq_iff.mpr ⟨by linarith, h2⟩
  unfold roundHalfEven
  rw [hf, if_neg (by linarith), if_pos h1]

theorem roundHalfEven_tie_even (s : ℚ) (f : Int) (h1 : s - f = 1 / 2) (h2 : f % 2 = 0) :
    roundHalfEven s = f := by
  have hf : ⌊s⌋ = f := Int.floor_eq_iff.mpr ⟨by linarith, by linarith⟩
  unfold roundHalfEven
  rw [hf, if_neg (by linarith), if_neg (by linarith), if_pos h2]

theorem roundHalfEven_tie_odd (s : ℚ) (f : Int) (h1 : s - f = 1 / 2) (h2 : f % 2 = 1) :
    roundHalfEven s = f + 1 := by
  have hf : ⌊s⌋ = f := Int.floor_eq_iff.mpr ⟨by linarith, by linarith⟩
  unfold roundHalfEven
  rw [hf, if_neg (by linarith), if_neg (by linarith), if_neg (by omega)]

theorem log_two_eq {q : ℚ} (e : Int) (hq : 0 < q) (hlo : (2 : ℚ) ^ e ≤ q)
    (hhi : q < (2 : ℚ) ^ (e + 1)) : Int.log 2 q = e := by
  have h1 : e ≤ Int.log 2 q :=
    (Int.zpow_le_iff_le_log (by norm_num) hq).mp (by exact_mod_cast hlo)
  have h2 : Int.log 2 q < e + 1 :=
    (Int.lt_zpow_iff_log_lt (by norm_num) hq).mp (by exact_mod_cast hhi)
  omega

/-- Evaluating f32 at a value whose binade and rounded significand are known. -/
theorem f32_eval {q : ℚ} (e n : Int) (hq : q ≠ 0) (hlo : (2 : ℚ) ^ e ≤ |q|)
    (hhi : |q| < (2 : ℚ) ^ (e + 1)) (hn : roundHalfEven (q / (2 : ℚ) ^ (e - 23)) = n) :
    f32 q = (n : ℚ) * (2 : ℚ) ^ (e - 23) := by
  unfold f32
  rw [if_neg hq, log_two_eq e (abs_pos.mpr hq) hlo hhi, hn]

theorem f32_int_2 : f32 (2) = 2 := by
  rw [f32_eval 1 8388608 (by norm_num) (by norm_num [abs_of_pos]) (by norm_num [abs_of_pos])
    (roundHalfEven_down _ 8388608 (by norm_num) (by norm_num))]
  norm_num

theorem f32_quot_2_by_2 : f32 (2 / 2) = 1 := by
  rw [f32_eval 0 8388608 (by norm_num) (by norm_num [abs_of_pos]) (by norm_num [abs_of_pos])
    (roundHalfEven_down _ 8388608 (by norm_num) (by norm_num))]
  norm_num

theorem floatQuotient_2_by_2 : floatQuotient 2 2 = 1 := by
  unfold floatQuotient
  simp only [Int.cast_ofNat, Int.cast_neg, Int.cast_one]
  rw [f32_int_2, f32_quot_2_by_2]

theorem f32_int_n1 : f32 (-1) = (-1) := by
  rw [f32_eval 0 (-8388608) (by norm_num) (by norm_num [abs_of_neg]) (by norm_num [abs_of_neg])
    (roundHalfEven_down _ (-8388608) (by norm_num) (by norm_num))]
  norm_num

theorem f32_quot_n1_by_2 : f32 (-1 / 2) = -1 / 2 := by
  rw [f32_eval (-1) (-8388608) (by norm_num) (by norm_num [abs_of_neg]) (by norm_num [abs_of_neg])
    (roundHalfEven_down _ (-8388608) (by norm_num) (by norm_num))]
  norm_num

theorem floatQuotient_n1_by_2 : floatQuotient (-1) 2 = -1 / 2 := by
  unfold floatQuotient
  simp only [Int.cast_ofNat, Int.cast_neg, Int.cast_one]
  rw [f32_int_n1, f32_int_2, f32_quot_n1_by_2]

theorem f32_quot_2_by_n1 : f32 (2 / -1) = (-2) := by
  rw [f32_eval 1 (-8388608) (by norm_num) (by norm_num [abs_of_neg]) (by norm_num [abs_of_neg])
    (roundHalfEven_down _ (-8388608) (by norm_num) (by norm_num))]
  norm_num

theorem floatQuotient_2_by_n1 : floatQuotient 2 (-1) = (-2) := by
  unfold floatQuotient
  simp only [Int.cast_ofNat, Int.cast_neg, Int.cast_one]
  rw [f32_int_2, f32_int_n1, f32_quot_2_by_n1]

theorem f32_int_3 : f32 (3) = 3 := by
  rw [f32_eval 1 12582912 (by norm_num) (by norm_num [abs_of_pos]) (by norm_num [abs_of_pos])
    (roundHalfEven_down _ 12582912 (by norm_num) (by norm_num))]
  norm_num

theorem f32_quot_3_by_2 : f32 (3 / 2) = 3 / 2 := by
  rw [f32_eval 0 12582912 (by norm_num) (by norm_num [abs_of_pos]) (by norm_num [abs_of_pos])
    (roundHalfEven_down _ 12582912 (by norm_num) (by norm_num))]
  norm_num

theorem floatQuotient_3_by_2 : floatQuotient 3 2 = 3 / 2 := by
  unfold floatQuotient
  simp only [Int.cast_ofNat, Int.cast_neg, Int.cast_one]
  rw [f32_int_3, f32_int_2, f32_quot_3_by_2]

theorem f32_quot_2_by_3 : f32 (2 / 3) = 11184811 / 16777216 := by
  rw [f32_eval (-1) 11184811 (by norm_num) (by norm_num [abs_of_pos]) (by norm_num [abs_of_pos])
    (roundHalfEven_up _ 11184810 (by norm_num) (by norm_num))]
  norm_num

theorem floatQuotient_2_by_3 : floatQuotient 2 3 = 11184811 / 16777216 := by
  unfold floatQuotient
  simp only [Int.cast_ofNat, Int.cast_neg, Int.cast_one]
  rw [f32_int_2, f32_int_3, f32_quot_2_by_3]

theorem f32_int_1 : f32 (1) = 1 := by
  rw [f32_eval 0 8388608 (by norm_num) (by norm_num [abs_of_pos]) (by norm_num [abs_of_pos])
    (roundHalfEven_down _ 8388608 (by norm_num) (by norm_num))]
  norm_num

theorem f32_quot_3_by_1 : f32 (3 / 1) = 3 := by
  rw [f32_eval 1 12582912 (by norm_num) (by norm_num [abs_of_pos]) (by norm_num [abs_of_pos])
    (roundHalfEven_down _ 12582912 (by norm_num) (by norm_num))]
  norm_num

theorem floatQuotient_3_by_1 : floatQuotient 3 1 = 3 := by
  unfold floatQuotient
  simp only [Int.cast_ofNat, Int.cast_neg, Int.cast_one]
  rw [f32_int_3, f32_int_1, f32_quot_3_by_1]

theorem f32_quot_1_by_3 : f32 (1 / 3) = 11184811 / 33554432 := by
  rw [f32_eval (-2) 11184811 (by norm_num) (by norm_num [abs_of_pos]) (by norm_num [abs_of_pos])
    (roundHalfEven_up _ 11184810 (by norm_num) (by norm_num))]
  norm_num

theorem floatQuotient_1_by_3 : floatQuotient 1 3 = 11184811 / 33554432 := by
  unfold floatQuotient
  simp only [Int.cast_ofNat, Int.cast_neg, Int.cast_one]
  rw [f32_int_1, f32_int_3, f32_quot_1_by_3]

theorem f32_quot_1_by_1 : f32 (1 / 1) = 1 := by
  rw [f32_eval 0 8388608 (by norm_num) (by norm_num [abs_of_pos]) (by norm_num [abs_of_pos])
    (roundHalfEven_down _ 8388608 (by norm_num) (by norm_num))]
  norm_num

theorem floatQuotient_1_by_1 : floatQuotient 1 1 = 1 := by
  unfold floatQuotient
  simp only [Int.cast_ofNat, Int.cast_neg, Int.cast_one]
  rw [f32_int_1, f32_quot_1_by_1]

theorem f32_quot_2_by_1 : f32 (2 / 1) = 2 := by
  rw [f32_eval 1 8388608 (by norm_num) (by norm_num [abs_of_pos]) (by norm_num [abs_of_pos])
    (roundHalfEven_down _ 8388608 (by norm_num) (by norm_num))]
  norm_num

theorem floatQuotient_2_by_1 : floatQuotient 2 1 = 2 := by
  unfold floatQuotient
  simp only [Int.cast_ofNat, Int.cast_neg, Int.cast_one]
  rw [f32_int_2, f32_int_1, f32_quot_2_by_1]

theorem f32_quot_1_by_2 : f32 (1 / 2) = 1 / 2 := by
  rw [f32_eval (-1) 8388608 (by norm_num) (by norm_num [abs_of_pos]) (by norm_num [abs_of_pos])
    (roundHalfEven_down _ 8388608 (by norm_num) (by norm_num))]
  norm_num

theorem floatQuotient_1_by_2 : floatQuotient 1 2 = 1 / 2 := by
  unfold floatQuotient
  simp only [Int.cast_ofNat, Int.cast_neg, Int.cast_one]
  rw [f32_int_1, f32_int_2, f32_quot_1_by_2]

theorem f32_quot_3_by_3 : f32 (3 / 3) = 1 := by
  rw [f32_eval 0 8388608 (by norm_num) (by norm_num [abs_of_pos]) (by norm_num [abs_of_pos])
    (roundHalfEven_down _ 8388608 (by norm_num) (by norm_num))]
  norm_num

theorem floatQuotient_3_by_3 : floatQuotient 3 3 = 1 := by
  unfold floatQuotient
  simp only [Int.cast_ofNat, Int.cast_neg, Int.cast_one]
  rw [f32_int_3, f32_quot_3_by_3]

theorem f32_int_5 : f32 (5) = 5 := by
  rw [f32_eval 2 10485760 (by norm_num) (by norm_num [abs_of_pos]) (by norm_num [abs_of_pos])
    (roundHalfEven_down _ 10485760 (by norm_num) (by norm_num))]
  norm_num

theorem f32_quot_5_by_2 : f32 (5 / 2) = 5 / 2 := by
  rw [f32_eval 1 10485760 (by norm_num) (by norm_num [abs_of_pos]) (by norm_num [abs_of_pos])
    (roundHalfEven_down _ 10485760 (by norm_num) (by norm_num))]
  norm_num

theorem floatQuotient_5_by_2 : floatQuotient 5 2 = 5 / 2 := by
  unfold floatQuotient
  simp only [Int.cast_ofNat, Int.cast_neg, Int.cast_one]
  rw [f32_int_5, f32_int_2, f32_quot_5_by_2]

theorem f32_quot_2_by_5 : f32 (2 / 5) = 13421773 / 33554432 := by
  rw [f32_eval (-2) 13421773 (by norm_num) (by norm_num [abs_of_pos]) (by norm_num [abs_of_pos])
    (roundHalfEven_up _ 13421772 (by norm_num) (by norm_num))]
  norm_num

theorem floatQuotient_2_by_5 : floatQuotient 2 5 = 13421773 / 33554432 := by
  unfold floatQuotient
  simp only [Int.cast_ofNat, Int.cast_neg, Int.cast_one]
  rw [f32_int_2, f32_int_5, f32_quot_2_by_5]

theorem f32_int_6 : f32 (6) = 6 := by
  rw [f32_eval 2 12582912 (by norm_num) (by norm_num [abs_of_pos]) (by norm_num [abs_of_pos])
    (roundHalfEven_down _ 12582912 (by norm_num) (by norm_num))]
  norm_num

theorem f32_quot_5_by_6 : f32 (5 / 6) = 13981013 / 16777216 := by
  rw [f32_eval (-1) 13981013 (by norm_num) (by norm_num [abs_of_pos]) (by norm_num [abs_of_pos])
    (roundHalfEven_down _ 13981013 (by norm_num) (by norm_num))]
  norm_num

theorem floatQuotient_5_by_6 : floatQuotient 5 6 = 13981013 / 16777216 := by
  unfold floatQuotient
  simp only [Int.cast_ofNat, Int.cast_neg, Int.cast_one]
  rw [f32_int_5, f32_int_6, f32_quot_5_by_6]

theorem f32_quot_6_by_5 : f32 (6 / 5) = 5033165 / 4194304 := by
  rw [f32_eval 0 10066330 (by norm_num) (by norm_num [abs_of_pos]) (by norm_num [abs_of_pos])
    (roundHalfEven_up _ 10066329 (by norm_num) (by norm_num))]
  norm_num

theorem floatQuotient_6_by_5 : floatQuotient 6 5 = 5033165 / 4194304 := by
  unfold floatQuotient
  simp only [Int.cast_ofNat, Int.cast_neg, Int.cast_one]
  rw [f32_int_6, f32_int_5, f32_quot_6_by_5]

theorem f32_int_40 : f32 (40) = 40 := by
  rw [f32_eval 5 10485760 (by norm_num) (by norm_num [abs_of_pos]) (by norm_num [abs_of_pos])
    (roundHalfEven_down _ 10485760 (by norm_num) (by norm_num))]
  norm_num

theorem f32_int_10 : f32 (10) = 10 := by
  rw [f32_eval 3 10485760 (by norm_num) (by norm_num [abs_of_pos]) (by norm_num [abs_of_pos])
    (roundHalfEven_down _ 10485760 (by norm_num) (by norm_num))]
  norm_num

theorem f32_quot_40_by_10 : f32 (40 / 10) = 4 := by
  rw [f32_eval 2 8388608 (by norm_num) (by norm_num [abs_of_pos]) (by norm_num [abs_of_pos])
    (roundHalfEven_down _ 8388608 (by norm_num) (by norm_num))]
  norm_num

theorem floatQuotient_40_by_10 : floatQuotient 40 10 = 4 := by
  unfold floatQuotient
  simp only [Int.cast_ofNat, Int.cast_neg, Int.cast_one]
  rw [f32_int_40, f32_int_10, f32_quot_40_by_10]

theorem f32_int_30 : f32 (30) = 30 := by
  rw [f32_eval 4 15728640 (by norm_num) (by norm_num [abs_of_pos]) (by norm_num [abs_of_pos])
    (roundHalfEven_down _ 15728640 (by norm_num) (by norm_num))]
  norm_num

theorem f32_quot_30_by_10 : f32 (30 / 10) = 3 := by
  rw [f32_eval 1 12582912 (by norm_num) (by norm_num [abs_of_pos]) (by norm_num [abs_of_pos])
    (roundHalfEven_down _ 12582912 (by norm_num) (by norm_num))]
  norm_num

theorem floatQuotient_30_by_10 : floatQuotient 30 10 = 3 := by
  unfold floatQuotient
  simp only [Int.cast_ofNat, Int.cast_neg, Int.cast_one]
  rw [f32_int_30, f32_int_10, f32_quot_30_by_10]

theorem f32_val_1 : f32 (1) = 1 := by
  rw [f32_eval 0 8388608 (by norm_num) (by norm_num [abs_of_pos]) (by norm_num [abs_of_pos])
    (roundHalfEven_down _ 8388608 (by norm_num) (by norm_num))]
  norm_num

theorem f32_one_plus_1 : f32 (1 + 1) = 2 := by
  rw [f32_eval 1 8388608 (by norm_num) (by norm_num [abs_of_pos]) (by norm_num [abs_of_pos])
    (roundHalfEven_down _ 8388608 (by norm_num) (by norm_num))]
  norm_num

theorem floatOnePlus_1 : floatOnePlus (1) = 2 := by
  unfold floatOnePlus
  rw [f32_val_1, f32_one_plus_1]

theorem f32_val_1_2 : f32 (1 / 2) = 1 / 2 := by
  rw [f32_eval (-1) 8388608 (by norm_num) (by norm_num [abs_of_pos]) (by norm_num [abs_of_pos])
    (roundHalfEven_down _ 8388608 (by norm_num) (by norm_num))]
  norm_num

theorem f32_one_plus_1_2 : f32 (1 + 1 / 2) = 3 / 2 := by
  rw [f32_eval 0 12582912 (by norm_num) (by norm_num [abs_of_pos]) (by norm_num [abs_of_pos])
    (roundHalfEven_down _ 12582912 (by norm_num) (by norm_num))]
  norm_num

theorem floatOnePlus_1_2 : floatOnePlus (1 / 2) = 3 / 2 := by
  unfold floatOnePlus
  rw [f32_val_1_2, f32_one_plus_1_2]

theorem f32_val_3_10 : f32 (3 / 10) = 5033165 / 16777216 := by
  rw [f32_eval (-2) 10066330 (by norm_num) (by norm_num [abs_of_pos]) (by norm_num [abs_of_pos])
    (roundHalfEven_up _ 10066329 (by norm_num) (by norm_num))]
  norm_num

theorem f32_one_plus_5033165_16777216 : f32 (1 + 5033165 / 16777216) = 5452595 / 4194304 := by
  rw [f32_eval 0 10905190 (by norm_num) (by norm_num [abs_of_pos]) (by norm_num [abs_of_pos])
    (roundHalfEven_tie_even _ 10905190 (by norm_num) (by decide))]
  norm_num

theorem floatOnePlus_3_10 : floatOnePlus (3 / 10) = 5452595 / 4194304 := by
  unfold floatOnePlus
  rw [f32_val_3_10, f32_one_plus_5033165_16777216]

theorem f32_val_3355443_16777216 : f32 (3355443 / 16777216) = 3355443 / 16777216 := by
  rw [f32_eval (-3) 13421772 (by norm_num) (by norm_num [abs_of_pos]) (by norm_num [abs_of_pos])
    (roundHalfEven_down _ 13421772 (by norm_num) (by norm_num))]
  norm_num

theorem f32_one_plus_3355443_16777216 : f32 (1 + 3355443 / 16777216) = 5033165 / 4194304 := by
  rw [f32_eval 0 10066330 (by norm_num) (by norm_num [abs_of_pos]) (by norm_num [abs_of_pos])
    (roundHalfEven_tie_odd _ 10066329 (by norm_num) (by decide))]
  norm_num

theorem floatOnePlus_3355443_16777216 : floatOnePlus (3355443 / 16777216) = 5033165 / 4194304 := by
  unfold floatOnePlus
  rw [f32_val_3355443_16777216, f32_one_plus_3355443_16777216]

theorem f32_val_n16777215_33554432 : f32 (-16777215 / 33554432) = -16777215 / 33554432 := by
  rw [f32_eval (-2) (-16777215) (by norm_num) (by norm_num [abs_of_neg]) (by norm_num [abs_of_neg])
    (roundHalfEven_down _ (-16777215) (by norm_num) (by norm_num))]
  norm_num

theorem f32_one_plus_n16777215_33554432 : f32 (1 + -16777215 / 33554432) = 1 / 2 := by
  rw [f32_eval (-1) 8388608 (by norm_num) (by norm_num [abs_of_pos]) (by norm_num [abs_of_pos])
    (roundHalfEven_tie_even _ 8388608 (by norm_num) (by decide))]
  norm_num

theorem floatOnePlus_n16777215_33554432 : floatOnePlus (-16777215 / 33554432) = 1 / 2 := by
  unfold floatOnePlus
  rw [f32_val_n16777215_33554432, f32_one_plus_n16777215_33554432]


/-! ## BSP: evaluating split -/

/-- One call of split on a node, in terms of the calls on its two children. -/
theorem split_step (config : BSPConfig) (fuel : Nat) (area : BSPRect)
    (room : Option BSPRect) (left right : BSPTree) (engine : Engine) :
    BSPTree.split config (fuel + 1) (BSPTree.node area room left right) engine =
      if (if splitOrientation config area (uniformReal engine).1 then
            area.h - config.minHeight else area.w - config.minWidth) ≤
          (if splitOrientation config area (uniformReal engine).1 then
            config.minHeight else config.minWidth)
      then some (BSPTree.node area room left right, (uniformReal engine).2)
      else
        match uniformInt
            (if splitOrientation config area (uniformReal engine).1 then
              config.minHeight else config.minWidth)
            (if splitOrientation config area (uniformReal engine).1 then
              area.h - config.minHeight else area.w - config.minWidth)
            (uniformReal engine).2 with
        | none => none
        | some draw =>
          match BSPTree.split config fuel
              (BSPTree.node
                (leftAreaOf (splitOrientation config area (uniformReal engine).1) area draw.1)
                none BSPTree.null BSPTree.null) draw.2 with
          | none => none
          | some l =>
            match BSPTree.split config fuel
                (BSPTree.node
                  (rightAreaOf (splitOrientation config area (uniformReal engine).1) area
                    draw.1)
                  none BSPTree.null BSPTree.null) l.2 with
            | none => none
            | some r => some (BSPTree.node area room l.1 r.1, r.2) := by
  rw [BSPTree.split]
  rfl

/-- The orientation is vertical when the first ratio test passes. -/
theorem splitOrientation_vertical (config : BSPConfig) (area : BSPRect) (sample : ℚ)
    (q t : ℚ) (hh : area.h ≠ 0) (hq : floatQuotient area.w area.h = q)
    (ht : floatOnePlus config.splitVRatio = t) (hge : q ≥ t) :
    splitOrientation config area sample = false := by
  unfold splitOrientation quotientGe
  rw [if_neg hh, hq, ht, if_pos (by simpa using hge)]

/-- The orientation is horizontal when the first ratio test fails and the second
one passes. -/
theorem splitOrientation_horizontal (config : BSPConfig) (area : BSPRect) (sample : ℚ)
    (q t q' t' : ℚ) (hh : area.h ≠ 0) (hw : area.w ≠ 0)
    (hq : floatQuotient area.w area.h = q) (ht : floatOnePlus config.splitVRatio = t)
    (hlt : q < t) (hq' : floatQuotient area.h area.w = q')
    (ht' : floatOnePlus config.splitHRatio = t') (hgt : q' > t') :
    splitOrientation config area sample = true := by
  unfold splitOrientation quotientGe quotientGt
  rw [if_neg hh, if_neg hw, hq, ht, hq', ht', if_neg (by simpa using hlt),
    if_pos (by simpa using hgt)]

/-- The orientation follows the draw when both ratio tests fail. -/
theorem splitOrientation_draw (config : BSPConfig) (area : BSPRect) (sample : ℚ)
    (q t q' t' : ℚ) (hh : area.h ≠ 0) (hw : area.w ≠ 0)
    (hq : floatQuotient area.w area.h = q) (ht : floatOnePlus config.splitVRatio = t)
    (hlt : q < t) (hq' : floatQuotient area.h area.w = q')
    (ht' : floatOnePlus config.splitHRatio = t') (hle : q' ≤ t') :
    splitOrientation config area sample = decide (sample < config.horizSplitProbability) := by
  unfold splitOrientation quotientGe quotientGt
  rw [if_neg hh, if_neg hw, hq, ht, hq', ht', if_neg (by simpa using hlt),
    if_neg (by simpa using hle)]

/-- A node that is too small along its orientation stays a leaf. -/
theorem split_leaf (config : BSPConfig) (fuel : Nat) (area : BSPRect)
    (room : Option BSPRect) (left right : BSPTree) (engine : Engine) (o : Bool)
    (ho : splitOrientation config area (uniformReal engine).1 = o)
    (hle : (if o then area.h - config.minHeight else area.w - config.minWidth) ≤
      (if o then config.minHeight else config.minWidth)) :
    BSPTree.split config (fuel + 1) (BSPTree.node area room left right) engine =
      some (BSPTree.node area room left right, (uniformReal engine).2) := by
  rw [split_step, ho, if_pos hle]

/-- A node that is large enough is cut at the drawn value and both children are
split in turn. -/
theorem split_cut (config : BSPConfig) (fuel : Nat) (area : BSPRect)
    (room : Option BSPRect) (left right : BSPTree) (engine : Engine) (o : Bool)
    (splitValue : Int) (e1 : Engine) (l r : BSPTree × Engine)
    (ho : splitOrientation config area (uniformReal engine).1 = o)
    (hgt : ¬ (if o then area.h - config.minHeight else area.w - config.minWidth) ≤
      (if o then config.minHeight else config.minWidth))
    (hdraw : uniformInt (if o then config.minHeight else config.minWidth)
      (if o then area.h - config.minHeight else area.w - config.minWidth)
      (uniformReal engine).2 = some (splitValue, e1))
    (hl : BSPTree.split config fuel
      (BSPTree.node (leftAreaOf o area splitValue) none BSPTree.null BSPTree.null) e1 = some l)
    (hr : BSPTree.split config fuel
      (BSPTree.node (rightAreaOf o area splitValue) none BSPTree.null BSPTree.null) l.2 =
        some r) :
    BSPTree.split config (fuel + 1) (BSPTree.node area room left right) engine =
      some (BSPTree.node area room l.1 r.1, r.2) := by
  rw [split_step, ho, if_neg hgt, hdraw]
  simp only []
  rw [hl]
  simp only []
  rw [hr]

theorem zeroEngine_pop : zeroEngine.pop = (0, zeroEngine) := rfl

theorem uniformReal_zeroEngine : uniformReal zeroEngine = (0, zeroEngine) := by
  refine Prod.ext ?_ rfl
  simp [uniformReal, zeroEngine, Engine.pop]

theorem uniformInt_zeroEngine (a b : Int) (h : a ≤ b) :
    uniformInt a b zeroEngine = some (a, zeroEngine) := by
  unfold uniformInt
  rw [if_pos h, zeroEngine_pop]
  simp

theorem uniformReal_oneOneEngine : uniformReal oneOneEngine = (1 / 2, zeroEngine) := by
  refine Prod.ext ?_ ?_
  · simp [uniformReal, oneOneEngine, Engine.pop]
  · show ({ raw := fun n => if n + 1 + 1 < 2 then 1 else 0 } : Engine) = { raw := fun _ => 0 }
    congr 1
/-- The run of split behind the counterexample to C5: a 2 x 2 root with minimum
width -1 is cut vertically at -1. -/
theorem negativeWidth_run :
    (BSPTree.split negativeWidthConfig 2
      (BSPTree.node { x := 0, y := 0, w := 2, h := 2 } none BSPTree.null BSPTree.null)
      oneOneEngine).map Prod.fst =
    some (BSPTree.node { x := 0, y := 0, w := 2, h := 2 } none
      (BSPTree.node { x := 0, y := 0, w := -1, h := 2 } none BSPTree.null BSPTree.null)
      (BSPTree.node { x := -1, y := 0, w := 3, h := 2 } none BSPTree.null BSPTree.null)) := by
  have hroot : splitOrientation negativeWidthConfig { x := 0, y := 0, w := 2, h := 2 }
      (uniformReal oneOneEngine).1 = false := by
    rw [splitOrientation_draw _ _ _ 1 2 1 2 (by decide) (by decide) floatQuotient_2_by_2
      floatOnePlus_1 (by norm_num) floatQuotient_2_by_2 floatOnePlus_1 (by norm_num),
      uniformReal_oneOneEngine]
    simp [negativeWidthConfig]
  have hleft : splitOrientation negativeWidthConfig { x := 0, y := 0, w := -1, h := 2 }
      (uniformReal zeroEngine).1 = true := by
    rw [splitOrientation_draw _ _ _ (-1 / 2) 2 (-2) 2 (by decide) (by decide)
      floatQuotient_n1_by_2 floatOnePlus_1 (by norm_num) floatQuotient_2_by_n1 floatOnePlus_1
      (by norm_num), uniformReal_zeroEngine]
    simp [negativeWidthConfig]
  have hright : splitOrientation negativeWidthConfig { x := -1, y := 0, w := 3, h := 2 }
      (uniformReal zeroEngine).1 = true := by
    rw [splitOrientation_draw _ _ _ (3 / 2) 2 (11184811 / 16777216) 2 (by decide) (by decide)
      floatQuotient_3_by_2 floatOnePlus_1 (by norm_num) floatQuotient_2_by_3 floatOnePlus_1
      (by norm_num), uniformReal_zeroEngine]
    simp [negativeWidthConfig]
  rw [split_cut negativeWidthConfig 1 _ none _ _ oneOneEngine false (-1) zeroEngine
    (BSPTree.node { x := 0, y := 0, w := -1, h := 2 } none BSPTree.null BSPTree.null, zeroEngine)
    (BSPTree.node { x := -1, y := 0, w := 3, h := 2 } none BSPTree.null BSPTree.null, zeroEngine)
    hroot (by decide)
    (by rw [uniformReal_oneOneEngine]; exact uniformInt_zeroEngine _ _ (by decide))
    (by
      have h := split_leaf negativeWidthConfig 0 { x := 0, y := 0, w := -1, h := 2 } none
        BSPTree.null BSPTree.null zeroEngine true hleft (by decide)
      rw [uniformReal_zeroEngine] at h
      exact h)
    (by
      have h := split_leaf negativeWidthConfig 0 { x := -1, y := 0, w := 3, h := 2 } none
        BSPTree.null BSPTree.null zeroEngine true hright (by decide)
      rw [uniformReal_zeroEngine] at h
      exact h)]
  rfl

/-- A run of split with minimum leaf size 1 x 1: a 3 x 1 root is cut vertically
into a 1 x 1 and a 2 x 1 leaf. -/
theorem unit_run :
    (BSPTree.split unitConfig 2
      (BSPTree.node { x := 0, y := 0, w := 3, h := 1 } none BSPTree.null BSPTree.null)
      zeroEngine).map Prod.fst =
    some (BSPTree.node { x := 0, y := 0, w := 3, h := 1 } none
      (BSPTree.node { x := 0, y := 0, w := 1, h := 1 } none BSPTree.null BSPTree.null)
      (BSPTree.node { x := 1, y := 0, w := 2, h := 1 } none BSPTree.null BSPTree.null)) := by
  have hroot : splitOrientation unitConfig { x := 0, y := 0, w := 3, h := 1 }
      (uniformReal zeroEngine).1 = false :=
    splitOrientation_vertical _ _ _ 3 (3 / 2) (by decide) floatQuotient_3_by_1
      floatOnePlus_1_2 (by norm_num)
  have hleft : splitOrientation unitConfig { x := 0, y := 0, w := 1, h := 1 }
      (uniformReal zeroEngine).1 = true := by
    rw [splitOrientation_draw _ _ _ 1 (3 / 2) 1 (5452595 / 4194304) (by decide) (by decide)
      floatQuotient_1_by_1 floatOnePlus_1_2 (by norm_num) floatQuotient_1_by_1
      floatOnePlus_3_10 (by norm_num), uniformReal_zeroEngine]
    simp [unitConfig]
  have hright : splitOrientation unitConfig { x := 1, y := 0, w := 2, h := 1 }
      (uniformReal zeroEngine).1 = false :=
    splitOrientation_vertical _ _ _ 2 (3 / 2) (by decide) floatQuotient_2_by_1
      floatOnePlus_1_2 (by norm_num)
  rw [split_cut unitConfig 1 _ none _ _ zeroEngine false 1 zeroEngine
    (BSPTree.node { x := 0, y := 0, w := 1, h := 1 } none BSPTree.null BSPTree.null, zeroEngine)
    (BSPTree.node { x := 1, y := 0, w := 2, h := 1 } none BSPTree.null BSPTree.null, zeroEngine)
    hroot (by decide)
    (by rw [uniformReal_zeroEngine]; exact uniformInt_zeroEngine _ _ (by decide))
    (by
      have h := split_leaf unitConfig 0 { x := 0, y := 0, w := 1, h := 1 } none
        BSPTree.null BSPTree.null zeroEngine true hleft (by decide)
      rw [uniformReal_zeroEngine] at h
      exact h)
    (by
      have h := split_leaf unitConfig 0 { x := 1, y := 0, w := 2, h := 1 } none
        BSPTree.null BSPTree.null zeroEngine false hright (by decide)
      rw [uniformReal_zeroEngine] at h
      exact h)]
  rfl

/-- The draw from a range with a single value. -/
theorem uniformInt_single (a : Int) (e : Engine) : uniformInt a a e = some (a, (e.pop).2) := by
  unfold uniformInt
  rw [if_pos (le_refl a)]
  simp


/-! ## Cellular automata: the basic rule -/

theorem foldl_add_eq_sum (g : Int → Int) :
    ∀ (l : List Int) (n : Int), l.foldl (fun acc d => acc + g d) n = n + (l.map g).sum := by
  intro l
  induction l with
  | nil => intro n; simp
  | cons a l ih =>
    intro n
    rw [List.foldl_cons, ih, List.map_cons, List.sum_cons]
    ring

theorem intRange_neg_one_two : intRange (-1) (1 + 1) = [-1, 0, 1] := by decide

theorem countNeighbourhood_one_sum (i j : Int) (map : Map) (oldCells : CellArray)
    (countSelf : Bool) :
    CellAutomataGenerator.countNeighbourhood i j map oldCells 1 countSelf =
      (([-1, 0, 1] : List Int).map (fun dr =>
        (([-1, 0, 1] : List Int).map (contribution i j map oldCells countSelf dr)).sum)).sum := by
  unfold CellAutomataGenerator.countNeighbourhood
  rw [intRange_neg_one_two]
  have hbody : ∀ deltaRow : Int,
      (fun (numWalls : Int) (deltaCol : Int) =>
          if (1 : Int) = 2 ∧ (|i - deltaRow| = 2 ∧ |j - deltaCol| = 2) then numWalls
          else if ¬ map.validCoords (i + deltaRow) (j + deltaCol) then numWalls
          else if deltaRow = 0 ∧ deltaCol = 0 ∧ ¬ countSelf then numWalls
          else if oldCells (map.asIndex (i + deltaRow) (j + deltaCol)) = CellType.Wall
            then numWalls + 1
          else numWalls) =
      (fun numWalls deltaCol =>
          numWalls + contribution i j map oldCells countSelf deltaRow deltaCol) := by
    intro deltaRow
    funext numWalls deltaCol
    unfold contribution Map.asIndex
    have h12 : ¬ ((1 : Int) = 2 ∧ (|i - deltaRow| = 2 ∧ |j - deltaCol| = 2)) := by
      intro h
      exact absurd h.1 (by decide)
    rw [if_neg h12]
    by_cases hv : map.validCoords (i + deltaRow) (j + deltaCol) = true
    · by_cases hs : deltaRow = 0 ∧ deltaCol = 0 ∧ ¬ (countSelf = true)
      · have hs' : deltaRow = 0 ∧ deltaCol = 0 ∧ countSelf = false := by
          simpa using hs
        simp [hv, hs']
      · have hs' : ¬ (deltaRow = 0 ∧ deltaCol = 0 ∧ countSelf = false) := by
          simpa using hs
        by_cases hw : oldCells (i + deltaRow, j + deltaCol) = CellType.Wall
        · rw [if_neg (by simp [hv]), if_neg hs, if_pos hw, if_pos ⟨hv, hs', hw⟩]
        · rw [if_neg (by simp [hv]), if_neg hs, if_neg hw, if_neg (fun h => hw h.2.2)]
          simp
    · rw [if_pos hv, if_neg (fun h => hv h.1)]
      simp
  simp only [hbody]
  have hrow : ∀ (n : Int) (deltaRow : Int),
      List.foldl (fun numWalls deltaCol =>
          numWalls + contribution i j map oldCells countSelf deltaRow deltaCol) n [-1, 0, 1] =
        n + (([-1, 0, 1] : List Int).map (contribution i j map oldCells countSelf deltaRow)).sum :=
    fun n deltaRow => foldl_add_eq_sum _ _ n
  simp only [hrow]
  rw [foldl_add_eq_sum]
  simp

theorem contribution_neighbour (i j : Int) (map : Map) (oldCells : CellArray)
    (countSelf : Bool) (dr dc : Int) (h : ¬ (dr = 0 ∧ dc = 0)) :
    contribution i j map oldCells countSelf dr dc =
      if wallInBounds map oldCells (i + dr) (j + dc) = true then 1 else 0 := by
  unfold contribution wallInBounds
  have h' : ¬ (dr = 0 ∧ dc = 0 ∧ countSelf = false) := fun hh => h ⟨hh.1, hh.2.1⟩
  simp [h']

theorem contribution_self (i j : Int) (map : Map) (oldCells : CellArray)
    (countSelf : Bool) :
    contribution i j map oldCells countSelf 0 0 =
      if (countSelf && wallInBounds map oldCells i j) = true then 1 else 0 := by
  unfold contribution wallInBounds
  cases countSelf <;> simp

theorem countNeighbourhood_one (i j : Int) (map : Map) (oldCells : CellArray)
    (countSelf : Bool) :
    CellAutomataGenerator.countNeighbourhood i j map oldCells 1 countSelf =
      mooreWallCount map oldCells i j countSelf := by
  rw [countNeighbourhood_one_sum]
  unfold mooreWallCount mooreOffsets
  simp only [List.map_cons, List.map_nil, List.sum_cons, List.sum_nil, List.countP_cons,
    List.countP_nil]
  rw [contribution_self]
  rw [contribution_neighbour _ _ _ _ _ (-1) (-1) (by decide),
    contribution_neighbour _ _ _ _ _ (-1) 0 (by decide),
    contribution_neighbour _ _ _ _ _ (-1) 1 (by decide),
    contribution_neighbour _ _ _ _ _ 0 (-1) (by decide),
    contribution_neighbour _ _ _ _ _ 0 1 (by decide),
    contribution_neighbour _ _ _ _ _ 1 (-1) (by decide),
    contribution_neighbour _ _ _ _ _ 1 0 (by decide),
    contribution_neighbour _ _ _ _ _ 1 1 (by decide)]
  push_cast
  ring


/-- C6. The basic rule answers Wall exactly when the number of in-bounds Wall
cells among the 8 Moore neighbours of (i, j), plus the cell itself when
includeSelf is set, reaches minSurroundingWallsForNextIter; out-of-bounds
neighbours add nothing.  A count equal to the threshold gives Wall, a count one
below the threshold gives Empty. -/
theorem basicEvaluation_iff_mooreWallCount (g : CellAutomataGenerator) (i j : Int)
    (map : Map) (snapshot : CellArray) :
    (g.basicEvaluation i j map snapshot = true ↔
      mooreWallCount map snapshot i j g.config.includeSelf ≥
        g.config.minSurroundingWallsForNextIter) ∧
    (mooreWallCount map snapshot i j g.config.includeSelf =
        g.config.minSurroundingWallsForNextIter →
      g.basicEvaluation i j map snapshot = true) ∧
    (mooreWallCount map snapshot i j g.config.includeSelf =
        g.config.minSurroundingWallsForNextIter - 1 →
      g.basicEvaluation i j map snapshot = false) := by
  have key : g.basicEvaluation i j map snapshot = true ↔
      mooreWallCount map snapshot i j g.config.includeSelf ≥
        g.config.minSurroundingWallsForNextIter := by
    unfold CellAutomataGenerator.basicEvaluation
    simp only [countNeighbourhood_one, decide_eq_true_eq]
  refine ⟨key, ?_, ?_⟩
  · intro h
    exact key.mpr (by omega)
  · intro h
    cases hb : g.basicEvaluation i j map snapshot with
    | false => rfl
    | true =>
      have := key.mp hb
      omega

/-! ## Cellular automata: step and noise -/

theorem countNeighbourhood_congr {a b : Map} (h : a.SameDims b) (i j : Int)
    (oldCells : CellArray) (distance : Int) (countSelf : Bool) :
    CellAutomataGenerator.countNeighbourhood i j a oldCells distance countSelf =
      CellAutomataGenerator.countNeighbourhood i j b oldCells distance countSelf := by
  unfold CellAutomataGenerator.countNeighbourhood
  simp only [Map.validCoords_congr h, Map.asIndex]

theorem checkFunction_congr (g : CellAutomataGenerator) {a b : Map} (h : a.SameDims b)
    (i j : Int) (oldCells : CellArray) :
    g.checkFunction i j a oldCells = g.checkFunction i j b oldCells := by
  unfold CellAutomataGenerator.checkFunction CellAutomataGenerator.basicEvaluationClosed
    CellAutomataGenerator.basicEvaluation
  simp only [countNeighbourhood_congr h]

theorem checkFunction_isSome (g : CellAutomataGenerator)
    (h : g.config.checkFunction.isSome = true) (i j : Int) (m : Map) (oldCells : CellArray) :
    ∃ b, g.checkFunction i j m oldCells = some b := by
  unfold CellAutomataGenerator.checkFunction
  cases hc : g.config.checkFunction with
  | none => rw [hc] at h; cases h
  | some rule =>
    cases rule
    · exact ⟨_, rfl⟩
    · exact ⟨_, rfl⟩

/-- What a smoothing step does: it succeeds, keeps the size of the grid, writes
into the cells of its loop range the verdict of the rule on the snapshot and
leaves all other cells alone. -/
theorem step_summary (g : CellAutomataGenerator)
    (hrule : g.config.checkFunction.isSome = true) (map : Map) :
    ∃ m', g.step map = some m' ∧ m'.SameDims map ∧
      (∀ q, q ∉ gridCells (if g.config.useCorners then 0 else 1)
                (if g.config.useCorners then (map.rows : Int) else (map.rows : Int) - 1)
                (if g.config.useCorners then 0 else 1)
                (if g.config.useCorners then (map.cols : Int) else (map.cols : Int) - 1) →
            m'.cells q = map.cells q) ∧
      (∀ q, q ∈ gridCells (if g.config.useCorners then 0 else 1)
                (if g.config.useCorners then (map.rows : Int) else (map.rows : Int) - 1)
                (if g.config.useCorners then 0 else 1)
                (if g.config.useCorners then (map.cols : Int) else (map.cols : Int) - 1) →
            ∃ b, g.checkFunction q.1 q.2 map map.cells = some b ∧
              m'.cells q = if b then CellType.Wall else CellType.Empty) := by
  unfold CellAutomataGenerator.step
  simp only []
  rw [forGrid_eq]
  refine foldlM_writes (fun m => m)
    (fun p m => match g.checkFunction p.1 p.2 m map.cells with
      | some b => m.set p.1 p.2 (if b then CellType.Wall else CellType.Empty)
      | none => none)
    (fun q v => ∃ b, g.checkFunction q.1 q.2 map map.cells = some b ∧
              v = if b then CellType.Wall else CellType.Empty)
    map ?_ _ map (Map.SameDims.refl map) ?_
  · intro p s hs hv
    obtain ⟨b, hb⟩ := checkFunction_isSome g hrule p.1 p.2 map map.cells
    have hv' : s.validCoords p.1 p.2 = true := by rw [Map.validCoords_congr hs]; exact hv
    refine ⟨s.write (p.1, p.2) (if b then CellType.Wall else CellType.Empty),
      (if b then CellType.Wall else CellType.Empty), ?_, hs, ⟨b, hb, rfl⟩, rfl⟩
    simp only [checkFunction_congr g hs, hb]
    exact Map.set_eq_some _ hv'
  · intro p hp
    rw [mem_gridCells] at hp
    rw [Map.validCoords_iff]
    cases hu : g.config.useCorners <;> simp only [hu] at hp <;>
      simp only [Bool.false_eq_true, if_false, if_true] at hp <;> omega

/-- C7. A smoothing step is a synchronous update: with a rule bound, the step
succeeds, keeps the grid size, and every updated cell (all cells with border
simulation, the cells off the outer ring without) is Wall exactly when the bound
rule holds for it on the cells as they were before the step, and Empty exactly
when the rule fails there. -/
theorem step_is_synchronous (g : CellAutomataGenerator)
    (hrule : g.config.checkFunction.isSome = true) (map : Map) :
    ∃ m', g.step map = some m' ∧ m'.rows = map.rows ∧ m'.cols = map.cols ∧
      ∀ i j, g.updates map i j = true →
        (m'.cells (i, j) = CellType.Wall ↔ g.checkFunction i j map map.cells = some true) ∧
        (m'.cells (i, j) = CellType.Empty ↔
          g.checkFunction i j map map.cells = some false) := by
  obtain ⟨m', hstep, hdims, _, hin⟩ := step_summary g hrule map
  refine ⟨m', hstep, hdims.1, hdims.2, ?_⟩
  intro i j hu
  have hmem : (i, j) ∈ gridCells (if g.config.useCorners then 0 else 1)
                (if g.config.useCorners then (map.rows : Int) else (map.rows : Int) - 1)
                (if g.config.useCorners then 0 else 1)
                (if g.config.useCorners then (map.cols : Int) else (map.cols : Int) - 1) := by
    rw [mem_gridCells]
    unfold CellAutomataGenerator.updates Map.outerRing at hu
    rw [Bool.and_eq_true, Map.validCoords_iff] at hu
    obtain ⟨hv, hr⟩ := hu
    cases hc : g.config.useCorners
    · rw [hc] at hr
      simp only [Bool.false_or, Bool.not_eq_true', Bool.and_eq_false_imp, Bool.or_eq_false_iff,
        decide_eq_false_iff_not, Map.validCoords_iff] at hr
      have := hr hv
      simp only [Bool.false_eq_true, if_false]
      omega
    · simp only [if_true]
      omega
  obtain ⟨b, hb, hcell⟩ := hin (i, j) hmem
  rw [hcell, hb]
  cases b <;> simp

/-- Witness for C7. -/
theorem step_is_synchronous_witness :
    sampleAutomaton.config.checkFunction.isSome = true ∧
    ∃ m', sampleAutomaton.step sampleMap = some m' ∧ m'.rows = sampleMap.rows ∧
      m'.cols = sampleMap.cols ∧
      ∀ i j, sampleAutomaton.updates sampleMap i j = true →
        (m'.cells (i, j) = CellType.Wall ↔
          sampleAutomaton.checkFunction i j sampleMap sampleMap.cells = some true) ∧
        (m'.cells (i, j) = CellType.Empty ↔
          sampleAutomaton.checkFunction i j sampleMap sampleMap.cells = some false) :=
  ⟨by decide, step_is_synchronous sampleAutomaton (by decide) sampleMap⟩

/-- C9. Without border simulation (useCorners = false) and with either rule
bound, a smoothing step succeeds and leaves every cell of the outer ring (row 0,
last row, column 0, last column) exactly as it was. -/
theorem step_keeps_outer_ring (g : CellAutomataGenerator)
    (hrule : g.config.checkFunction.isSome = true)
    (hcorners : g.config.useCorners = false) (map : Map) :
    ∃ m', g.step map = some m' ∧ m'.rows = map.rows ∧ m'.cols = map.cols ∧
      ∀ i j, map.outerRing i j = true → m'.cells (i, j) = map.cells (i, j) := by
  obtain ⟨m', hstep, hdims, hout, _⟩ := step_summary g hrule map
  refine ⟨m', hstep, hdims.1, hdims.2, ?_⟩
  intro i j hring
  apply hout
  rw [mem_gridCells, hcorners]
  unfold Map.outerRing at hring
  simp only [Bool.and_eq_true, Bool.or_eq_true, decide_eq_true_eq] at hring
  simp only [Bool.false_eq_true, if_false]
  omega

/-- Witness for C9. -/
theorem step_keeps_outer_ring_witness :
    sampleAutomaton.config.checkFunction.isSome = true ∧
    sampleAutomaton.config.useCorners = false ∧
    ∃ m', sampleAutomaton.step sampleMap = some m' ∧ m'.rows = sampleMap.rows ∧
      m'.cols = sampleMap.cols ∧
      ∀ i j, sampleMap.outerRing i j = true → m'.cells (i, j) = sampleMap.cells (i, j) :=
  ⟨by decide, by decide, step_keeps_outer_ring sampleAutomaton (by decide) (by decide) sampleMap⟩

/-- C8. Without border simulation (useCorners = false), for every grid, wall
probability and random outcome, start succeeds, keeps the grid size and leaves
every cell of the outer ring Wall. -/
theorem start_outer_ring_is_wall (g : CellAutomataGenerator)
    (hcorners : g.config.useCorners = false) (map : Map) (engine : Engine) :
    ∃ m' e', g.start map engine = some (m', e') ∧ m'.rows = map.rows ∧
      m'.cols = map.cols ∧
      ∀ i j, map.outerRing i j = true → m'.cells (i, j) = CellType.Wall := by
  unfold CellAutomataGenerator.start CellAutomataGenerator.noise
  rw [forGrid_eq]
  have hbody : ∀ (p : Int × Int) (s : Map × Engine), s.1.SameDims map →
      map.validCoords p.1 p.2 = true →
      ∃ s' v, (fun (p : Int × Int) (s : Map × Engine) =>
          let corner : Bool := decide (p.2 = 0) || decide (p.2 = (map.cols : Int) - 1) ||
            decide (p.1 = 0) || decide (p.1 = (map.rows : Int) - 1)
          if !g.config.useCorners && corner then
            (s.1.set p.1 p.2 CellType.Wall).map (fun m => (m, s.2))
          else
            let d := uniformReal s.2
            (s.1.set p.1 p.2 (if d.1 ≤ g.config.wallProbability then CellType.Wall
              else CellType.Empty)).map (fun m => (m, d.2))) p s = some s' ∧
        s'.1.SameDims map ∧ (map.outerRing p.1 p.2 = true → v = CellType.Wall) ∧
        s'.1.cells = fun q => if q = p then v else s.1.cells q := by
    intro p s hs hv
    have hv' : s.1.validCoords p.1 p.2 = true := by rw [Map.validCoords_congr hs]; exact hv
    simp only [hcorners, Bool.not_false, Bool.true_and]
    split
    · rename_i hcorner
      refine ⟨(s.1.write (p.1, p.2) CellType.Wall, s.2), CellType.Wall, ?_, hs,
        fun _ => rfl, rfl⟩
      rw [Map.set_eq_some _ hv']
      rfl
    · rename_i hcorner
      refine ⟨(s.1.write (p.1, p.2)
          (if (uniformReal s.2).1 ≤ g.config.wallProbability then CellType.Wall
            else CellType.Empty), (uniformReal s.2).2),
        (if (uniformReal s.2).1 ≤ g.config.wallProbability then CellType.Wall
            else CellType.Empty), ?_, hs, ?_, rfl⟩
      · rw [Map.set_eq_some _ hv']
        rfl
      · intro hring
        exfalso
        apply hcorner
        unfold Map.outerRing at hring
        simp only [Bool.and_eq_true, Bool.or_eq_true, decide_eq_true_eq] at hring
        simp only [Bool.or_eq_true, decide_eq_true_eq]
        omega
  have hvalid : ∀ p ∈ gridCells 0 map.rows 0 map.cols, map.validCoords p.1 p.2 = true := by
    intro p hp
    rw [mem_gridCells] at hp
    rw [Map.validCoords_iff]
    exact hp
  obtain ⟨sf, hf, hd, _, hin⟩ := foldlM_writes (fun (s : Map × Engine) => s.1) _
    (fun q v => map.outerRing q.1 q.2 = true → v = CellType.Wall)
    map hbody (gridCells 0 map.rows 0 map.cols) (map, engine) (Map.SameDims.refl map) hvalid
  refine ⟨sf.1, sf.2, hf, hd.1, hd.2, ?_⟩
  intro i j hring
  apply hin (i, j) _ hring
  rw [mem_gridCells]
  unfold Map.outerRing at hring
  rw [Bool.and_eq_true, Map.validCoords_iff] at hring
  exact hring.1

/-- Witness for C8. -/
theorem start_outer_ring_is_wall_witness :
    sampleAutomaton.config.useCorners = false ∧
    ∃ m' e', sampleAutomaton.start sampleMap zeroEngine = some (m', e') ∧
      m'.rows = sampleMap.rows ∧ m'.cols = sampleMap.cols ∧
      ∀ i j, sampleMap.outerRing i j = true → m'.cells (i, j) = CellType.Wall :=
  ⟨by decide, start_outer_ring_is_wall sampleAutomaton (by decide) sampleMap zeroEngine⟩

/-! ## BSP: splitting -/

theorem uniformInt_some {a b : Int} {e : Engine} {r : Int × Engine}
    (h : uniformInt a b e = some r) : a ≤ r.1 ∧ r.1 ≤ b := by
  unfold uniformInt at h
  split at h
  · rename_i hab
    cases h
    have hlt := Nat.mod_lt (e.pop).1 (Nat.succ_pos (b - a).toNat)
    show a ≤ a + (((e.pop).1 % ((b - a).toNat + 1) : Nat) : Int) ∧
      a + (((e.pop).1 % ((b - a).toNat + 1) : Nat) : Int) ≤ b
    generalize (e.pop).1 % ((b - a).toNat + 1) = k at hlt
    omega
  · cases h

theorem uniformInt_defined {a b : Int} (e : Engine) (h : a ≤ b) :
    ∃ r, uniformInt a b e = some r := by
  unfold uniformInt
  rw [if_pos h]
  exact ⟨_, rfl⟩

/-- One call of split on a node: it either leaves the node as it is, or cuts it at
a value drawn between the minimum size and the size minus the minimum size and
splits the two fresh children. -/
theorem split_cases (config : BSPConfig) (fuel : Nat) (area : BSPRect)
    (room : Option BSPRect) (left right : BSPTree) (engine : Engine)
    (res : BSPTree × Engine)
    (h : BSPTree.split config (fuel + 1) (BSPTree.node area room left right) engine =
      some res) :
    res.1 = BSPTree.node area room left right ∨
    ∃ (isHSplit : Bool) (splitValue : Int) (e1 : Engine) (l r : BSPTree × Engine),
      isHSplit = (if quotientGe area.w area.h config.splitVRatio = true then false
        else if quotientGt area.h area.w config.splitHRatio = true then true
        else decide ((uniformReal engine).1 < config.horizSplitProbability)) ∧
      (if isHSplit then config.minHeight else config.minWidth) <
        (if isHSplit then area.h - config.minHeight else area.w - config.minWidth) ∧
      (if isHSplit then config.minHeight else config.minWidth) ≤ splitValue ∧
      splitValue ≤ (if isHSplit then area.h - config.minHeight
        else area.w - config.minWidth) ∧
      BSPTree.split config fuel
        (BSPTree.node (leftAreaOf isHSplit area splitValue) none BSPTree.null BSPTree.null)
        e1 = some l ∧
      BSPTree.split config fuel
        (BSPTree.node (rightAreaOf isHSplit area splitValue) none BSPTree.null BSPTree.null)
        l.2 = some r ∧
      res = (BSPTree.node area room l.1 r.1, r.2) := by
  unfold BSPTree.split at h
  simp only [] at h
  generalize hisH : (if quotientGe area.w area.h config.splitVRatio = true then false
      else if quotientGt area.h area.w config.splitHRatio = true then true
      else decide ((uniformReal engine).1 < config.horizSplitProbability)) = isHSplit at h
  by_cases hle : (if isHSplit = true then area.h - config.minHeight
      else area.w - config.minWidth) ≤
      (if isHSplit = true then config.minHeight else config.minWidth)
  · left
    rw [if_pos hle] at h
    cases h
    rfl
  · right
    rw [if_neg hle] at h
    cases hdraw : uniformInt (if isHSplit = true then config.minHeight else config.minWidth)
        (if isHSplit = true then area.h - config.minHeight else area.w - config.minWidth)
        (uniformReal engine).2 with
    | none =>
      rw [hdraw] at h
      cases h
    | some draw =>
      rw [hdraw] at h
      simp only [] at h
      have hrange := uniformInt_some hdraw
      cases hl : BSPTree.split config fuel
          (BSPTree.node (leftAreaOf isHSplit area draw.1) none BSPTree.null BSPTree.null)
          draw.2 with
      | none =>
        unfold leftAreaOf at hl
        rw [hl] at h
        cases h
      | some l =>
        have hl2 := hl
        unfold leftAreaOf at hl2
        rw [hl2] at h
        simp only [] at h
        cases hr : BSPTree.split config fuel
            (BSPTree.node (rightAreaOf isHSplit area draw.1) none BSPTree.null BSPTree.null)
            l.2 with
        | none =>
          unfold rightAreaOf at hr
          rw [hr] at h
          cases h
        | some r =>
          have hr2 := hr
          unfold rightAreaOf at hr2
          rw [hr2] at h
          simp only [] at h
          cases h
          exact ⟨isHSplit, draw.1, draw.2, l, r, rfl, lt_of_not_le hle, hrange.1, hrange.2,
            hl, hr, rfl⟩

/-- With minimum sizes of at least 1, split returns as soon as the fuel exceeds
width plus height: every cut makes both children smaller along the cut axis. -/
theorem split_defined (config : BSPConfig) (hminW : 1 ≤ config.minWidth)
    (hminH : 1 ≤ config.minHeight) :
    ∀ (fuel : Nat) (area : BSPRect) (room : Option BSPRect) (left right : BSPTree)
      (engine : Engine), area.w.toNat + area.h.toNat < fuel →
      ∃ res, BSPTree.split config fuel (BSPTree.node area room left right) engine =
        some res := by
  intro fuel
  induction fuel with
  | zero =>
    intro area room left right engine hfuel
    omega
  | succ fuel ih =>
    intro area room left right engine hfuel
    unfold BSPTree.split
    simp only []
    generalize (if quotientGe area.w area.h config.splitVRatio = true then false
      else if quotientGt area.h area.w config.splitHRatio = true then true
      else decide ((uniformReal engine).1 < config.horizSplitProbability)) = isHSplit
    by_cases hle : (if isHSplit = true then area.h - config.minHeight
        else area.w - config.minWidth) ≤
        (if isHSplit = true then config.minHeight else config.minWidth)
    · rw [if_pos hle]
      exact ⟨_, rfl⟩
    · rw [if_neg hle]
      obtain ⟨draw, hdraw⟩ := uniformInt_defined (uniformReal engine).2
        (le_of_lt (lt_of_not_le hle))
      have hrange := uniformInt_some hdraw
      rw [hdraw]
      simp only []
      have hsmallL : (if isHSplit = true then
            ({ x := area.x, y := area.y, w := area.w, h := draw.1 } : BSPRect)
          else { x := area.x, y := area.y, w := draw.1, h := area.h }).w.toNat +
          (if isHSplit = true then
            ({ x := area.x, y := area.y, w := area.w, h := draw.1 } : BSPRect)
          else { x := area.x, y := area.y, w := draw.1, h := area.h }).h.toNat < fuel := by
        cases isHSplit
        · simp only [Bool.false_eq_true, if_false] at hrange hle ⊢
          omega
        · simp only [if_true] at hrange hle ⊢
          omega
      obtain ⟨l, hl⟩ := ih _ none BSPTree.null BSPTree.null draw.2 hsmallL
      rw [hl]
      simp only []
      have hsmallR : (if isHSplit = true then
            ({ x := area.x, y := area.y + draw.1, w := area.w, h := area.h - draw.1 } : BSPRect)
          else { x := area.x + draw.1, y := area.y, w := area.w - draw.1, h := area.h }).w.toNat +
          (if isHSplit = true then
            ({ x := area.x, y := area.y + draw.1, w := area.w, h := area.h - draw.1 } : BSPRect)
          else { x := area.x + draw.1, y := area.y, w := area.w - draw.1, h := area.h }).h.toNat
            < fuel := by
        cases isHSplit
        · simp only [Bool.false_eq_true, if_false] at hrange hle ⊢
          omega
        · simp only [if_true] at hrange hle ⊢
          omega
      obtain ⟨r, hr⟩ := ih _ none BSPTree.null BSPTree.null l.2 hsmallR
      rw [hr]
      exact ⟨_, rfl⟩

theorem split_root (config : BSPConfig) (fuel : Nat) (area : BSPRect)
    (room : Option BSPRect) (left right : BSPTree) (engine : Engine)
    (res : BSPTree × Engine)
    (h : BSPTree.split config fuel (BSPTree.node area room left right) engine = some res) :
    ∃ l r, res.1 = BSPTree.node area room l r := by
  cases fuel with
  | zero =>
    unfold BSPTree.split at h
    cases h
  | succ fuel =>
    rcases split_cases config fuel area room left right engine res h with h1 | h1
    · exact ⟨left, right, h1⟩
    · obtain ⟨_, _, _, l, r, _, _, _, _, _, _, hres⟩ := h1
      exact ⟨l.1, r.1, by rw [hres]⟩

theorem split_area (config : BSPConfig) (fuel : Nat) (area : BSPRect)
    (room : Option BSPRect) (left right : BSPTree) (engine : Engine)
    (res : BSPTree × Engine)
    (h : BSPTree.split config fuel (BSPTree.node area room left right) engine = some res) :
    res.1.area = area ∧ res.1.isNull = false := by
  obtain ⟨l, r, hres⟩ := split_root config fuel area room left right engine res h
  rw [hres]
  exact ⟨rfl, rfl⟩

theorem within_refl (a : BSPRect) : a.within a :=
  ⟨⟨le_refl _, le_refl _⟩, ⟨le_refl _, le_refl _⟩⟩

theorem within_trans {a b c : BSPRect} (h1 : a.within b) (h2 : b.within c) : a.within c := by
  unfold BSPRect.within at *
  omega

theorem leftAreaOf_within (isHSplit : Bool) (area : BSPRect) (splitValue : Int)
    (_h0 : 0 ≤ splitValue) (h1 : splitValue ≤ (if isHSplit then area.h else area.w)) :
    (leftAreaOf isHSplit area splitValue).within area := by
  unfold BSPRect.within leftAreaOf
  cases isHSplit
  · simp only [Bool.false_eq_true, if_false] at h1 ⊢
    omega
  · simp only [if_true] at h1 ⊢
    omega

theorem rightAreaOf_within (isHSplit : Bool) (area : BSPRect) (splitValue : Int)
    (h0 : 0 ≤ splitValue) (_h1 : splitValue ≤ (if isHSplit then area.h else area.w)) :
    (rightAreaOf isHSplit area splitValue).within area := by
  unfold BSPRect.within rightAreaOf
  cases isHSplit
  · simp only [Bool.false_eq_true, if_false]
    omega
  · simp only [if_true]
    omega

theorem children_tile (isHSplit : Bool) (area : BSPRect) (splitValue : Int)
    (h0 : 0 ≤ splitValue) (h1 : splitValue ≤ (if isHSplit then area.h else area.w)) :
    childrenTile area (leftAreaOf isHSplit area splitValue)
      (rightAreaOf isHSplit area splitValue) := by
  unfold childrenTile leftAreaOf rightAreaOf BSPRect.covers
  cases isHSplit
  · simp only [Bool.false_eq_true, if_false] at h1 ⊢
    refine ⟨?_, ?_, ?_, ?_, Or.inr ⟨splitValue, h0, h1, rfl, rfl⟩⟩
    · intro p hp; omega
    · intro p hp; omega
    · intro p hp; omega
    · intro p hp; omega
  · simp only [if_true] at h1 ⊢
    refine ⟨?_, ?_, ?_, ?_, Or.inl ⟨splitValue, h0, h1, rfl, rfl⟩⟩
    · intro p hp; omega
    · intro p hp; omega
    · intro p hp; omega
    · intro p hp; omega

theorem allLeaves_mono {P Q : BSPTree → Prop} (h : ∀ t, P t → Q t) :
    ∀ t : BSPTree, t.AllLeaves P → t.AllLeaves Q := by
  intro t
  induction t with
  | null => intro ht; exact ht
  | node area room left right ihl ihr =>
    intro ht
    unfold BSPTree.AllLeaves at ht ⊢
    rcases ht with ⟨hl, hr, hp⟩ | ⟨hl, hr, hal, har⟩
    · exact Or.inl ⟨hl, hr, h _ hp⟩
    · exact Or.inr ⟨hl, hr, ihl hal, ihr har⟩

theorem partition_mono {P Q : BSPRect → Option BSPRect → Prop} (h : ∀ a r, P a r → Q a r) :
    ∀ t : BSPTree, t.Partition P → t.Partition Q := by
  intro t
  induction t with
  | null => intro ht; exact ht
  | node area room left right ihl ihr =>
    intro ht
    unfold BSPTree.Partition at ht ⊢
    rcases ht with ⟨hl, hr, hp⟩ | ⟨hl, hr, hroom, hal, har⟩
    · exact Or.inl ⟨hl, hr, h _ _ hp⟩
    · exact Or.inr ⟨hl, hr, hroom, ihl hal, ihr har⟩

/-- The leaves of the tree split builds from a leaf node: each keeps the minimum
width and height and lies inside the root area; inner nodes are tiled by their
children; with a roomless root no node of the tree has a room. -/
theorem split_tree (config : BSPConfig) (h0W : 0 ≤ config.minWidth)
    (h0H : 0 ≤ config.minHeight) :
    ∀ (fuel : Nat) (area : BSPRect) (room : Option BSPRect) (engine : Engine)
      (res : BSPTree × Engine),
      config.minWidth ≤ area.w → config.minHeight ≤ area.h →
      BSPTree.split config fuel (BSPTree.node area room BSPTree.null BSPTree.null) engine =
        some res →
      res.1.AllLeaves (fun leaf => config.minWidth ≤ leaf.area.w ∧
        config.minHeight ≤ leaf.area.h ∧ leaf.area.within area) ∧
      (room = none → res.1.Partition (fun a r => r = none ∧ config.minWidth ≤ a.w ∧
        config.minHeight ≤ a.h ∧ a.within area)) := by
  intro fuel
  induction fuel with
  | zero =>
    intro area room engine res _ _ h
    unfold BSPTree.split at h
    cases h
  | succ fuel ih =>
    intro area room engine res hw hh h
    rcases split_cases config fuel area room _ _ engine res h with h1 | h1
    · rw [h1]
      unfold BSPTree.AllLeaves BSPTree.Partition
      exact ⟨Or.inl ⟨rfl, rfl, hw, hh, within_refl area⟩,
        fun hroom => Or.inl ⟨rfl, rfl, hroom, hw, hh, within_refl area⟩⟩
    · obtain ⟨isHSplit, sv, e1, l, r, _, _, hlo, hhi, hl, hr, hres⟩ := h1
      have hsv0 : 0 ≤ sv := by
        cases isHSplit
        · simp only [Bool.false_eq_true, if_false] at hlo; omega
        · simp only [if_true] at hlo; omega
      have hsv1 : sv ≤ (if isHSplit then area.h else area.w) := by
        cases isHSplit
        · simp only [Bool.false_eq_true, if_false] at hhi ⊢; omega
        · simp only [if_true] at hhi ⊢; omega
      have hwl : config.minWidth ≤ (leftAreaOf isHSplit area sv).w ∧
          config.minHeight ≤ (leftAreaOf isHSplit area sv).h := by
        unfold leftAreaOf
        cases isHSplit
        · simp only [Bool.false_eq_true, if_false] at hlo hhi ⊢; omega
        · simp only [if_true] at hlo hhi ⊢; omega
      have hwr : config.minWidth ≤ (rightAreaOf isHSplit area sv).w ∧
          config.minHeight ≤ (rightAreaOf isHSplit area sv).h := by
        unfold rightAreaOf
        cases isHSplit
        · simp only [Bool.false_eq_true, if_false] at hlo hhi ⊢; omega
        · simp only [if_true] at hlo hhi ⊢; omega
      have hL := ih _ none e1 l hwl.1 hwl.2 hl
      have hR := ih _ none l.2 r hwr.1 hwr.2 hr
      have hnl := (split_area config fuel _ _ _ _ _ _ hl).2
      have hnr := (split_area config fuel _ _ _ _ _ _ hr).2
      have hinL := leftAreaOf_within isHSplit area sv hsv0 hsv1
      have hinR := rightAreaOf_within isHSplit area sv hsv0 hsv1
      rw [hres]
      unfold BSPTree.AllLeaves BSPTree.Partition
      refine ⟨Or.inr ⟨hnl, hnr, ?_, ?_⟩, fun hroom => Or.inr ⟨hnl, hnr, hroom, ?_, ?_⟩⟩
      · exact allLeaves_mono (fun t ht => ⟨ht.1, ht.2.1, within_trans ht.2.2 hinL⟩) _ hL.1
      · exact allLeaves_mono (fun t ht => ⟨ht.1, ht.2.1, within_trans ht.2.2 hinR⟩) _ hR.1
      · exact partition_mono
          (fun a r ht => ⟨ht.1, ht.2.1, ht.2.2.1, within_trans ht.2.2.2 hinL⟩) _ (hL.2 rfl)
      · exact partition_mono
          (fun a r ht => ⟨ht.1, ht.2.1, ht.2.2.1, within_trans ht.2.2.2 hinR⟩) _ (hR.2 rfl)

theorem split_tiled (config : BSPConfig) (h0W : 0 ≤ config.minWidth)
    (h0H : 0 ≤ config.minHeight) :
    ∀ (fuel : Nat) (area : BSPRect) (room : Option BSPRect) (engine : Engine)
      (res : BSPTree × Engine),
      BSPTree.split config fuel (BSPTree.node area room BSPTree.null BSPTree.null) engine =
        some res →
      res.1.Tiled := by
  intro fuel
  induction fuel with
  | zero =>
    intro area room engine res h
    unfold BSPTree.split at h
    cases h
  | succ fuel ih =>
    intro area room engine res h
    rcases split_cases config fuel area room _ _ engine res h with h1 | h1
    · rw [h1]
      unfold BSPTree.Tiled
      exact Or.inl ⟨rfl, rfl⟩
    · obtain ⟨isHSplit, sv, e1, l, r, _, _, hlo, hhi, hl, hr, hres⟩ := h1
      have hsv0 : 0 ≤ sv := by
        cases isHSplit
        · simp only [Bool.false_eq_true, if_false] at hlo; omega
        · simp only [if_true] at hlo; omega
      have hsv1 : sv ≤ (if isHSplit then area.h else area.w) := by
        cases isHSplit
        · simp only [Bool.false_eq_true, if_false] at hhi ⊢; omega
        · simp only [if_true] at hhi ⊢; omega
      have hal := split_area config fuel _ _ _ _ _ _ hl
      have har := split_area config fuel _ _ _ _ _ _ hr
      rw [hres]
      unfold BSPTree.Tiled
      refine Or.inr ⟨hal.2, har.2, ?_, ih _ _ _ _ hl, ih _ _ _ _ hr⟩
      rw [hal.1, har.1]
      exact children_tile isHSplit area sv hsv0 hsv1

theorem getLeaves_inner (area : BSPRect) (room : Option BSPRect) (left right : BSPTree)
    (hl : left.isNull = false) (hr : right.isNull = false) :
    (BSPTree.node area room left right).getLeaves =
      match left.getLeaves with
      | none => none
      | some ls =>
        match right.getLeaves with
        | none => none
        | some rs => some (ls ++ rs) := by
  cases left with
  | null => cases hl
  | node la lroom ll lr =>
    cases right with
    | null => cases hr
    | node ra rroom rl rr =>
      rw [BSPTree.getLeaves]
      intro hnull
      cases hnull

theorem getLeaves_leaf (area : BSPRect) (room : Option BSPRect) (left right : BSPTree)
    (hl : left.isNull = true) (hr : right.isNull = true) :
    (BSPTree.node area room left right).getLeaves =
      some [BSPTree.node area room left right] := by
  cases left with
  | node la lroom ll lr => cases hl
  | null =>
    cases right with
    | node ra rroom rl rr => cases hr
    | null => rfl

/-- In a tree whose leaves all satisfy P, getLeaves returns a non-empty list of
nodes that satisfy P. -/
theorem getLeaves_of_allLeaves {P : BSPTree → Prop} :
    ∀ t : BSPTree, t.AllLeaves P →
      ∃ leaves, t.getLeaves = some leaves ∧ leaves ≠ [] ∧ ∀ leaf ∈ leaves, P leaf := by
  intro t
  induction t with
  | null => intro ht; exact absurd ht id
  | node area room left right ihl ihr =>
    intro ht
    unfold BSPTree.AllLeaves at ht
    rcases ht with ⟨hl, hr, hp⟩ | ⟨hl, hr, hal, har⟩
    · refine ⟨[BSPTree.node area room left right], getLeaves_leaf area room left right hl hr,
        List.cons_ne_nil _ _, ?_⟩
      intro leaf hleaf
      rw [List.mem_singleton] at hleaf
      rw [hleaf]
      exact hp
    · obtain ⟨ls, hls, hne, hpl⟩ := ihl hal
      obtain ⟨rs, hrs, _, hpr⟩ := ihr har
      refine ⟨ls ++ rs, ?_, ?_, ?_⟩
      · rw [getLeaves_inner area room left right hl hr, hls, hrs]
      · intro happ
        exact hne (List.append_eq_nil.mp happ).1
      · intro leaf hleaf
        rcases List.mem_append.mp hleaf with h | h
        · exact hpl leaf h
        · exact hpr leaf h

/-- C3. With minimum sizes of at least 1 and a root rectangle of at least the
minimum width and height, split returns for every engine once the fuel exceeds
width plus height, and whenever it returns every leaf of the tree it built has
width >= minWidth and height >= minHeight. -/
theorem split_leaves_keep_minimum (config : BSPConfig) (hminW : 1 ≤ config.minWidth)
    (hminH : 1 ≤ config.minHeight) (area : BSPRect) (hw : config.minWidth ≤ area.w)
    (hh : config.minHeight ≤ area.h) (room : Option BSPRect) (engine : Engine) :
    (∀ fuel : Nat, area.w.toNat + area.h.toNat < fuel →
      ∃ res, BSPTree.split config fuel
        (BSPTree.node area room BSPTree.null BSPTree.null) engine = some res) ∧
    (∀ (fuel : Nat) (res : BSPTree × Engine),
      BSPTree.split config fuel (BSPTree.node area room BSPTree.null BSPTree.null) engine =
        some res →
      ∃ leaves, res.1.getLeaves = some leaves ∧ leaves ≠ [] ∧
        ∀ leaf ∈ leaves, config.minWidth ≤ leaf.area.w ∧ config.minHeight ≤ leaf.area.h) := by
  constructor
  · intro fuel hfuel
    exact split_defined config hminW hminH fuel area room _ _ engine hfuel
  · intro fuel res hres
    have h := (split_tree config (by omega) (by omega) fuel area room engine res hw hh hres).1
    obtain ⟨leaves, hl, hne, hp⟩ := getLeaves_of_allLeaves res.1 h
    exact ⟨leaves, hl, hne, fun leaf hleaf => ⟨(hp leaf hleaf).1, (hp leaf hleaf).2.1⟩⟩

/-- Witness for C3: a 3 x 1 root with minimum sizes 1. -/
theorem split_leaves_keep_minimum_witness :
    (1 : Int) ≤ unitConfig.minWidth ∧ (1 : Int) ≤ unitConfig.minHeight ∧
    unitConfig.minWidth ≤ (3 : Int) ∧ unitConfig.minHeight ≤ (1 : Int) ∧
    ((∀ fuel : Nat, (3 : Int).toNat + (1 : Int).toNat < fuel →
      ∃ res, BSPTree.split unitConfig fuel
        (BSPTree.node { x := 0, y := 0, w := 3, h := 1 } none BSPTree.null BSPTree.null)
        zeroEngine = some res) ∧
    (∀ (fuel : Nat) (res : BSPTree × Engine),
      BSPTree.split unitConfig fuel
        (BSPTree.node { x := 0, y := 0, w := 3, h := 1 } none BSPTree.null BSPTree.null)
        zeroEngine = some res →
      ∃ leaves, res.1.getLeaves = some leaves ∧ leaves ≠ [] ∧
        ∀ leaf ∈ leaves, unitConfig.minWidth ≤ leaf.area.w ∧
          unitConfig.minHeight ≤ leaf.area.h)) :=
  ⟨by decide, by decide, by decide, by decide,
    split_leaves_keep_minimum unitConfig (by decide) (by decide)
      { x := 0, y := 0, w := 3, h := 1 } (by decide) (by decide) none zeroEngine⟩

/-- C5 as stated fails: with minWidth = -1 the split of a 2 x 2 root can draw
splitValue = -1, and then the second child, columns -1 .. 1, does not lie
inside the parent, columns 0 .. 1. -/
theorem split_children_leave_parent :
    (BSPTree.split negativeWidthConfig 2
      (BSPTree.node { x := 0, y := 0, w := 2, h := 2 } none BSPTree.null BSPTree.null)
      oneOneEngine).map Prod.fst =
    some (BSPTree.node { x := 0, y := 0, w := 2, h := 2 } none
      (BSPTree.node { x := 0, y := 0, w := -1, h := 2 } none BSPTree.null BSPTree.null)
      (BSPTree.node { x := -1, y := 0, w := 3, h := 2 } none BSPTree.null BSPTree.null)) ∧
    ¬ childrenTile { x := 0, y := 0, w := 2, h := 2 } { x := 0, y := 0, w := -1, h := 2 }
      { x := -1, y := 0, w := 3, h := 2 } ∧
    ({ x := -1, y := 0, w := 3, h := 2 } : BSPRect).covers (0, -1) ∧
    ¬ ({ x := 0, y := 0, w := 2, h := 2 } : BSPRect).covers (0, -1) := by
  refine ⟨?_, ?_, ?_, ?_⟩
  · exact negativeWidth_run
  · intro h
    have := h.2.1 (0, -1)
    unfold BSPRect.covers at this
    simp at this
  · unfold BSPRect.covers
    simp
  · unfold BSPRect.covers
    simp

/-- C5, amended. With minimum sizes that are not negative, in the tree split
builds from a leaf node the two children of every node that got children
exactly tile it: both lie inside the parent, they share no cell, together they
cover the parent, and they are the parent cut at splitValue along one axis. -/
theorem split_children_tile (config : BSPConfig) (h0W : 0 ≤ config.minWidth)
    (h0H : 0 ≤ config.minHeight) (fuel : Nat) (area : BSPRect) (room : Option BSPRect)
    (engine : Engine) (t : BSPTree)
    (h : (BSPTree.split config fuel (BSPTree.node area room BSPTree.null BSPTree.null)
      engine).map Prod.fst = some t) :
    t.Tiled := by
  cases hs : BSPTree.split config fuel (BSPTree.node area room BSPTree.null BSPTree.null)
      engine with
  | none =>
    rw [hs] at h
    cases h
  | some res =>
    rw [hs] at h
    cases h
    exact split_tiled config h0W h0H fuel area room engine res hs

/-- Witness for the amended C5: a 3 x 1 root cut into a 1 x 1 and a 2 x 1 leaf. -/
theorem split_children_tile_witness :
    (0 : Int) ≤ unitConfig.minWidth ∧ (0 : Int) ≤ unitConfig.minHeight ∧
    (BSPTree.split unitConfig 2
      (BSPTree.node { x := 0, y := 0, w := 3, h := 1 } none BSPTree.null BSPTree.null)
      zeroEngine).map Prod.fst =
    some (BSPTree.node { x := 0, y := 0, w := 3, h := 1 } none
      (BSPTree.node { x := 0, y := 0, w := 1, h := 1 } none BSPTree.null BSPTree.null)
      (BSPTree.node { x := 1, y := 0, w := 2, h := 1 } none BSPTree.null BSPTree.null)) ∧
    (BSPTree.node { x := 0, y := 0, w := 3, h := 1 } none
      (BSPTree.node { x := 0, y := 0, w := 1, h := 1 } none BSPTree.null BSPTree.null)
      (BSPTree.node { x := 1, y := 0, w := 2, h := 1 } none BSPTree.null BSPTree.null)).Tiled :=
  have hrun : (BSPTree.split unitConfig 2
      (BSPTree.node { x := 0, y := 0, w := 3, h := 1 } none BSPTree.null BSPTree.null)
      zeroEngine).map Prod.fst =
    some (BSPTree.node { x := 0, y := 0, w := 3, h := 1 } none
      (BSPTree.node { x := 0, y := 0, w := 1, h := 1 } none BSPTree.null BSPTree.null)
      (BSPTree.node { x := 1, y := 0, w := 2, h := 1 } none BSPTree.null BSPTree.null)) :=
    unit_run
  ⟨by decide, by decide, hrun,
    split_children_tile unitConfig (by decide) (by decide) 2
      { x := 0, y := 0, w := 3, h := 1 } none zeroEngine _ hrun⟩

/-! ## Loops that write one value -/

theorem Map.write_sameDims (m : Map) (idx : CellIndex) (v : CellType) :
    (m.write idx v).SameDims m := ⟨rfl, rfl⟩

/-- A loop that writes v to every cell of a list returns exactly when all the
cells are inside the grid; the cells of the list then hold v and no other cell
has changed. -/
theorem setAll_inv (v : CellType) :
    ∀ (l : List (Int × Int)) (m m' : Map),
      l.foldlM (fun (s : Map) (p : Int × Int) => s.set p.1 p.2 v) m = some m' →
      (∀ p ∈ l, m.validCoords p.1 p.2 = true) ∧ m'.SameDims m ∧
        ∀ q, m'.cells q = if q ∈ l then v else m.cells q := by
  intro l
  induction l with
  | nil =>
    intro m m' h
    cases h
    exact ⟨fun _ hp => absurd hp (List.not_mem_nil _), Map.SameDims.refl _, fun q => by simp⟩
  | cons p l ih =>
    intro m m' h
    rw [List.foldlM_cons] at h
    cases hset : m.set p.1 p.2 v with
    | none =>
      rw [hset] at h
      cases h
    | some m1 =>
      rw [hset] at h
      have hv := Map.set_some_valid hset
      rw [Map.set_eq_some v hv] at hset
      cases hset
      obtain ⟨hall, hd, hc⟩ := ih _ _ h
      refine ⟨?_, hd.trans (Map.write_sameDims _ _ _), ?_⟩
      · intro q hq
        rcases List.mem_cons.mp hq with hqp | hql
        · rw [hqp]; exact hv
        · rw [← Map.validCoords_congr (Map.write_sameDims m (p.1, p.2) v)]
          exact hall q hql
      · intro q
        rw [hc q]
        by_cases hql : q ∈ l
        · rw [if_pos hql, if_pos (List.mem_cons_of_mem _ hql)]
        · rw [if_neg hql]
          by_cases hqp : q = p
          · rw [if_pos (by rw [hqp]; exact List.mem_cons_self _ _)]
            show (if q = (p.1, p.2) then v else m.cells q) = v
            rw [if_pos hqp]
          · rw [if_neg (by
              intro hmem
              rcases List.mem_cons.mp hmem with h1 | h1
              · exact hqp h1
              · exact hql h1)]
            show (if q = (p.1, p.2) then v else m.cells q) = m.cells q
            rw [if_neg hqp]

theorem setAll_defined (v : CellType) :
    ∀ (l : List (Int × Int)) (m : Map), (∀ p ∈ l, m.validCoords p.1 p.2 = true) →
      ∃ m', l.foldlM (fun (s : Map) (p : Int × Int) => s.set p.1 p.2 v) m = some m' := by
  intro l
  induction l with
  | nil => intro m _; exact ⟨m, rfl⟩
  | cons p l ih =>
    intro m h
    rw [List.foldlM_cons, Map.set_eq_some v (h p (List.mem_cons_self _ _))]
    apply ih
    intro q hq
    rw [Map.validCoords_congr (Map.write_sameDims m (p.1, p.2) v)]
    exact h q (List.mem_cons_of_mem _ hq)

/-- Filling a box with one value: the loops return exactly when every visited
cell is inside the grid, and then exactly the cells of the box have changed. -/
theorem fillBox_inv (v : CellType) (r0 r1 c0 c1 : Int) (m m' : Map)
    (h : forGrid r0 r1 c0 c1 (fun r c s => s.set r c v) m = some m') :
    (∀ q, inBox r0 r1 c0 c1 q → m.validCoords q.1 q.2 = true) ∧ m'.SameDims m ∧
      ∀ q, m'.cells q = if inBox r0 r1 c0 c1 q then v else m.cells q := by
  rw [forGrid_eq] at h
  obtain ⟨hall, hd, hc⟩ := setAll_inv v _ _ _ h
  refine ⟨fun q hq => hall q (mem_gridCells.mpr hq), hd, ?_⟩
  intro q
  rw [hc q]
  by_cases hq : inBox r0 r1 c0 c1 q
  · rw [if_pos hq, if_pos (mem_gridCells.mpr hq)]
  · rw [if_neg hq, if_neg (fun hmem => hq (mem_gridCells.mp hmem))]

theorem fillBox_defined (v : CellType) (r0 r1 c0 c1 : Int) (m : Map)
    (h : ∀ q, inBox r0 r1 c0 c1 q → m.validCoords q.1 q.2 = true) :
    ∃ m', forGrid r0 r1 c0 c1 (fun r c s => s.set r c v) m = some m' := by
  rw [forGrid_eq]
  exact setAll_defined v _ m (fun p hp => h p (mem_gridCells.mp hp))

/-! ## BSP: placing rooms -/

/-- One pass of the populate loop body on a node: either the leaf is skipped and
nothing changes, or a room of drawn size is recorded at a drawn offset inside
the area and its cells, both far bounds included, are set to Empty. -/
theorem populateLeaf_cases (config : BSPConfig) (area : BSPRect) (room : Option BSPRect)
    (left right : BSPTree) (map : Map) (engine : Engine) (res : BSPTree × Map × Engine)
    (h : populateLeaf config (BSPTree.node area room left right) map engine = some res) :
    ((uniformReal engine).1 < config.emptyRoomProbability ∧
      res = (BSPTree.node area room left right, map, (uniformReal engine).2)) ∨
    (¬ (uniformReal engine).1 < config.emptyRoomProbability ∧
      ∃ (rh rw dx dy : Int),
        (config.minRoomHeight ≤ rh ∧ rh ≤ config.maxRoomHeight) ∧
        (config.minRoomWidth ≤ rw ∧ rw ≤ config.maxRoomWidth) ∧
        (1 ≤ dx ∧ dx ≤ area.w - rw - 1) ∧ (1 ≤ dy ∧ dy ≤ area.h - rh - 1) ∧
        res.1 = BSPTree.node area
          (some { x := area.x + dx, y := area.y + dy, w := rw, h := rh }) left right ∧
        forGrid (area.y + dy) (area.y + dy + rh + 1) (area.x + dx) (area.x + dx + rw + 1)
          (fun posY posX m => m.set posY posX CellType.Empty) map = some res.2.1) := by
  unfold populateLeaf at h
  simp only [] at h
  by_cases hskip : (uniformReal engine).1 < config.emptyRoomProbability
  · left
    rw [if_pos (by simpa using hskip)] at h
    cases h
    exact ⟨hskip, rfl⟩
  · right
    rw [if_neg (by simpa using hskip)] at h
    refine ⟨hskip, ?_⟩
    cases hh : uniformInt config.minRoomHeight config.maxRoomHeight (uniformReal engine).2 with
    | none => rw [hh] at h; cases h
    | some rh =>
      rw [hh] at h
      simp only [] at h
      cases hw : uniformInt config.minRoomWidth config.maxRoomWidth rh.2 with
      | none => rw [hw] at h; cases h
      | some rw' =>
        rw [hw] at h
        simp only [] at h
        cases hx : uniformInt 1 (area.w - rw'.1 - 1) rw'.2 with
        | none => rw [hx] at h; cases h
        | some dx =>
          rw [hx] at h
          simp only [] at h
          cases hy : uniformInt 1 (area.h - rh.1 - 1) dx.2 with
          | none => rw [hy] at h; cases h
          | some dy =>
            rw [hy] at h
            simp only [] at h
            cases hg : forGrid (area.y + dy.1) (area.y + dy.1 + rh.1 + 1) (area.x + dx.1)
                (area.x + dx.1 + rw'.1 + 1)
                (fun posY posX m => m.set posY posX CellType.Empty) map with
            | none => rw [hg] at h; cases h
            | some m' =>
              rw [hg] at h
              cases h
              exact ⟨rh.1, rw'.1, dx.1, dy.1, uniformInt_some hh, uniformInt_some hw,
                uniformInt_some hx, uniformInt_some hy, rfl, hg⟩

/-- The populate loop body returns on a leaf that lies inside the grid when the
room size range is not empty and the largest room leaves a margin of one cell. -/
theorem populateLeaf_defined (config : BSPConfig) (area : BSPRect) (room : Option BSPRect)
    (left right : BSPTree) (map : Map) (engine : Engine)
    (hh : config.minRoomHeight ≤ config.maxRoomHeight)
    (hw : config.minRoomWidth ≤ config.maxRoomWidth)
    (hmw : config.maxRoomWidth ≤ area.w - 2) (hmh : config.maxRoomHeight ≤ area.h - 2)
    (hgrid : map.holds area) :
    ∃ res, populateLeaf config (BSPTree.node area room left right) map engine = some res := by
  unfold populateLeaf
  simp only []
  split
  · exact ⟨_, rfl⟩
  · obtain ⟨rh, hrh⟩ := uniformInt_defined (uniformReal engine).2 hh
    have h1 := uniformInt_some hrh
    rw [hrh]
    simp only []
    obtain ⟨rw', hrw⟩ := uniformInt_defined rh.2 hw
    have h2 := uniformInt_some hrw
    rw [hrw]
    simp only []
    obtain ⟨dx, hdx⟩ := uniformInt_defined (a := 1) (b := area.w - rw'.1 - 1) rw'.2 (by omega)
    have h3 := uniformInt_some hdx
    rw [hdx]
    simp only []
    obtain ⟨dy, hdy⟩ := uniformInt_defined (a := 1) (b := area.h - rh.1 - 1) dx.2 (by omega)
    have h4 := uniformInt_some hdy
    rw [hdy]
    simp only []
    obtain ⟨m', hm'⟩ := fillBox_defined CellType.Empty (area.y + dy.1)
      (area.y + dy.1 + rh.1 + 1) (area.x + dx.1) (area.x + dx.1 + rw'.1 + 1) map (by
        intro q hq
        rw [Map.validCoords_iff]
        unfold Map.holds at hgrid
        omega)
    rw [hm']
    exact ⟨_, rfl⟩

/-- C4. On a roomless leaf, with minRoom <= maxRoom in both directions and
maxRoomWidth <= leaf width - 2, maxRoomHeight <= leaf height - 2: the populate
loop body returns when the leaf lies inside the grid, and whenever it returns
with a room (x, y, w, h) recorded on the leaf, that rectangle keeps a margin of
one cell to every side of the leaf:
leaf.x + 1 <= x, x + w <= leaf.x + leaf.w - 1, leaf.y + 1 <= y,
y + h <= leaf.y + leaf.h - 1. -/
theorem room_inside_leaf (config : BSPConfig) (area : BSPRect) (left right : BSPTree)
    (map : Map) (engine : Engine)
    (hh : config.minRoomHeight ≤ config.maxRoomHeight)
    (hw : config.minRoomWidth ≤ config.maxRoomWidth)
    (hmw : config.maxRoomWidth ≤ area.w - 2) (hmh : config.maxRoomHeight ≤ area.h - 2) :
    (map.holds area →
      ∃ res, populateLeaf config (BSPTree.node area none left right) map engine = some res) ∧
    (∀ (res : BSPTree × Map × Engine) (rect : BSPRect),
      populateLeaf config (BSPTree.node area none left right) map engine = some res →
      res.1.room = some rect →
      area.x + 1 ≤ rect.x ∧ rect.x + rect.w ≤ area.x + area.w - 1 ∧
      area.y + 1 ≤ rect.y ∧ rect.y + rect.h ≤ area.y + area.h - 1) := by
  constructor
  · intro hgrid
    exact populateLeaf_defined config area none left right map engine hh hw hmw hmh hgrid
  · intro res rect hres hroom
    rcases populateLeaf_cases config area none left right map engine res hres with
      ⟨_, hskip⟩ | ⟨_, rh, rw', dx, dy, _, _, hdx, hdy, hnode, _⟩
    · rw [hskip] at hroom
      cases hroom
    · rw [hnode] at hroom
      simp only [BSPTree.room, Option.some.injEq] at hroom
      rw [← hroom]
      simp only []
      omega

/-- Witness for C4: a 10 x 10 leaf of the scenario grid. -/
theorem room_inside_leaf_witness :
    scenarioConfig.minRoomHeight ≤ scenarioConfig.maxRoomHeight ∧
    scenarioConfig.minRoomWidth ≤ scenarioConfig.maxRoomWidth ∧
    scenarioConfig.maxRoomWidth ≤ (10 : Int) - 2 ∧
    scenarioConfig.maxRoomHeight ≤ (10 : Int) - 2 ∧
    ((scenarioMap.holds { x := 0, y := 0, w := 10, h := 10 } →
      ∃ res, populateLeaf scenarioConfig
        (BSPTree.node { x := 0, y := 0, w := 10, h := 10 } none BSPTree.null BSPTree.null)
        scenarioMap zeroEngine = some res) ∧
    (∀ (res : BSPTree × Map × Engine) (rect : BSPRect),
      populateLeaf scenarioConfig
        (BSPTree.node { x := 0, y := 0, w := 10, h := 10 } none BSPTree.null BSPTree.null)
        scenarioMap zeroEngine = some res →
      res.1.room = some rect →
      (0 : Int) + 1 ≤ rect.x ∧ rect.x + rect.w ≤ (0 : Int) + 10 - 1 ∧
      (0 : Int) + 1 ≤ rect.y ∧ rect.y + rect.h ≤ (0 : Int) + 10 - 1)) :=
  ⟨by decide, by decide, by decide, by decide,
    room_inside_leaf scenarioConfig { x := 0, y := 0, w := 10, h := 10 } BSPTree.null
      BSPTree.null scenarioMap zeroEngine (by decide) (by decide) (by decide) (by decide)⟩

/-! ## Connectivity -/

theorem adjacent4_symm {p q : Int × Int} (h : adjacent4 p q) : adjacent4 q p := by
  unfold adjacent4 at *
  omega

theorem reach_refl (S : Int × Int → Prop) (p : Int × Int) : Reach S p p :=
  Relation.ReflTransGen.refl

theorem reach_trans {S : Int × Int → Prop} {p q r : Int × Int} (h1 : Reach S p q)
    (h2 : Reach S q r) : Reach S p r :=
  Relation.ReflTransGen.trans h1 h2

theorem reach_symm {S : Int × Int → Prop} {p q : Int × Int} (h : Reach S p q) :
    Reach S q p := by
  induction h with
  | refl => exact reach_refl S p
  | tail _ hstep ih =>
    exact reach_trans
      (Relation.ReflTransGen.single ⟨adjacent4_symm hstep.1, hstep.2.2, hstep.2.1⟩) ih

theorem reach_mono {S T : Int × Int → Prop} (hST : ∀ q, S q → T q) {p q : Int × Int}
    (h : Reach S p q) : Reach T p q :=
  Relation.ReflTransGen.mono (fun _ _ hab => ⟨hab.1, hST _ hab.2.1, hST _ hab.2.2⟩) h

theorem reach_step {S : Int × Int → Prop} {p q : Int × Int} (hadj : adjacent4 p q)
    (hp : S p) (hq : S q) : Reach S p q :=
  Relation.ReflTransGen.single ⟨hadj, hp, hq⟩

/-- Both ends of a path with distinct ends are cells of the set. -/
theorem reach_ends {S : Int × Int → Prop} {p q : Int × Int} (h : Reach S p q)
    (hne : p ≠ q) : S p ∧ S q := by
  induction h with
  | refl => exact absurd rfl hne
  | @tail b c hpb hstep ih =>
    refine ⟨?_, hstep.2.2⟩
    by_cases hpb' : p = b
    · rw [hpb']; exact hstep.2.1
    · exact (ih hpb').1

theorem connected4_congr {S T : Int × Int → Prop} (h : ∀ q, S q ↔ T q)
    (hS : Connected4 S) : Connected4 T :=
  fun p q hp hq => reach_mono (fun x hx => (h x).mp hx) (hS p q ((h p).mpr hp) ((h q).mpr hq))

/-- The union of two connected sets that share a cell is connected. -/
theorem connected4_union {A B : Int × Int → Prop} (hA : Connected4 A) (hB : Connected4 B)
    (x : Int × Int) (hxA : A x) (hxB : B x) : Connected4 (fun q => A q ∨ B q) := by
  intro p q hp hq
  have toX : ∀ r, (A r ∨ B r) → Reach (fun q => A q ∨ B q) r x := by
    intro r hr
    rcases hr with h | h
    · exact reach_mono (fun _ hq => Or.inl hq) (hA r x h hxA)
    · exact reach_mono (fun _ hq => Or.inr hq) (hB r x h hxB)
  exact reach_trans (toX p hp) (reach_symm (toX q hq))

/-- A vertical run of cells of the set joins its two ends. -/
theorem reach_column (S : Int × Int → Prop) (c r0 : Int) :
    ∀ n : Nat, (∀ r, r0 ≤ r → r ≤ r0 + n → S (r, c)) → Reach S (r0, c) (r0 + n, c) := by
  intro n
  induction n with
  | zero =>
    intro _
    simp only [Nat.cast_zero, add_zero]
    exact reach_refl S _
  | succ n ih =>
    intro h
    refine reach_trans (ih (fun r h1 h2 => h r h1 (by push_cast; omega))) ?_
    refine reach_step ?_ (h _ (by omega) (by push_cast; omega)) (h _ (by push_cast; omega) (le_refl _))
    unfold adjacent4
    right
    push_cast
    simp only [true_and]
    omega

/-- A horizontal run of cells of the set joins its two ends. -/
theorem reach_row (S : Int × Int → Prop) (r c0 : Int) :
    ∀ n : Nat, (∀ c, c0 ≤ c → c ≤ c0 + n → S (r, c)) → Reach S (r, c0) (r, c0 + n) := by
  intro n
  induction n with
  | zero =>
    intro _
    simp only [Nat.cast_zero, add_zero]
    exact reach_refl S _
  | succ n ih =>
    intro h
    refine reach_trans (ih (fun c h1 h2 => h c h1 (by push_cast; omega))) ?_
    refine reach_step ?_ (h _ (by omega) (by push_cast; omega)) (h _ (by push_cast; omega) (le_refl _))
    unfold adjacent4
    left
    push_cast
    simp only [true_and]
    omega

theorem reach_column_between (S : Int × Int → Prop) (c ra rb : Int)
    (h : ∀ r, min ra rb ≤ r → r ≤ max ra rb → S (r, c)) : Reach S (ra, c) (rb, c) := by
  rcases le_total ra rb with hle | hle
  · have := reach_column S c ra (rb - ra).toNat (fun r h1 h2 => h r (by omega) (by omega))
    rwa [show ra + ((rb - ra).toNat : Int) = rb by omega] at this
  · have := reach_column S c rb (ra - rb).toNat (fun r h1 h2 => h r (by omega) (by omega))
    rw [show rb + ((ra - rb).toNat : Int) = ra by omega] at this
    exact reach_symm this

theorem reach_row_between (S : Int × Int → Prop) (r ca cb : Int)
    (h : ∀ c, min ca cb ≤ c → c ≤ max ca cb → S (r, c)) : Reach S (r, ca) (r, cb) := by
  rcases le_total ca cb with hle | hle
  · have := reach_row S r ca (cb - ca).toNat (fun c h1 h2 => h c (by omega) (by omega))
    rwa [show ca + ((cb - ca).toNat : Int) = cb by omega] at this
  · have := reach_row S r cb (ca - cb).toNat (fun c h1 h2 => h c (by omega) (by omega))
    rw [show cb + ((ca - cb).toNat : Int) = ca by omega] at this
    exact reach_symm this

/-- A box of cells is connected. -/
theorem connected4_box (r0 r1 c0 c1 : Int) : Connected4 (inBox r0 r1 c0 c1) := by
  intro p q hp hq
  obtain ⟨pr, pc⟩ := p
  obtain ⟨qr, qc⟩ := q
  unfold inBox at hp hq
  simp only at hp hq
  refine reach_trans (reach_column_between _ pc pr qr ?_) (reach_row_between _ qr pc qc ?_)
  · intro r h1 h2
    show (r0 ≤ r ∧ r < r1) ∧ (c0 ≤ pc ∧ pc < c1)
    omega
  · intro c h1 h2
    show (r0 ≤ qr ∧ qr < r1) ∧ (c0 ≤ c ∧ c < c1)
    omega

/-! ## BSP: corridors -/

theorem carveHall_inv (rect : BSPRect) (m m' : Map) (h : carveHall rect m = some m') :
    (∀ q, hallBox rect q → m.validCoords q.1 q.2 = true) ∧ m'.SameDims m ∧
      ∀ q, m'.cells q = if hallBox rect q then CellType.Empty else m.cells q :=
  fillBox_inv CellType.Empty _ _ _ _ m m' h

theorem carveHall_defined (rect : BSPRect) (m : Map)
    (h : ∀ q, hallBox rect q → m.validCoords q.1 q.2 = true) :
    ∃ m', carveHall rect m = some m' :=
  fillBox_defined CellType.Empty _ _ _ _ m h

/-- One corridor segment whose cells are in the grid: its cells form a corridor
between any two of them, and carveHall sets exactly these cells on every grid of
that size. -/
theorem carveHall_path (rect : BSPRect) (m0 : Map) (p q : Int × Int)
    (hvalid : ∀ x, hallBox rect x → m0.validCoords x.1 x.2 = true)
    (hp : hallBox rect p) (hq : hallBox rect q) :
    Corridor m0 (hallBox rect) p q ∧
    ∀ m : Map, m.SameDims m0 →
      ∃ m', carveHall rect m = some m' ∧ Carves m m' (hallBox rect) := by
  refine ⟨⟨hvalid, connected4_box _ _ _ _, fun _ _ => ⟨hp, hq⟩,
    connected4_box _ _ _ _ p q hp hq⟩, ?_⟩
  intro m hm
  have hvalid' : ∀ x, hallBox rect x → m.validCoords x.1 x.2 = true := fun x hx => by
    rw [Map.validCoords_congr hm]; exact hvalid x hx
  obtain ⟨m', hm'⟩ := carveHall_defined rect m hvalid'
  obtain ⟨_, hd, hc⟩ := carveHall_inv rect m m' hm'
  refine ⟨m', hm', hd, ?_, ?_⟩
  · intro x hx
    rw [hc x, if_pos hx]
  · intro x hx
    rw [hc x, if_neg hx]

/-- Two corridor segments that share a cell and whose cells are in the grid:
their cells form a corridor from any cell of the first to any cell of the
second, and carveHalls sets exactly these cells on every grid of that size. -/
theorem carveHalls_path (a b : BSPRect) (m0 : Map) (p q x : Int × Int)
    (hva : ∀ y, hallBox a y → m0.validCoords y.1 y.2 = true)
    (hvb : ∀ y, hallBox b y → m0.validCoords y.1 y.2 = true)
    (hp : hallBox a p ∨ hallBox b p) (hq : hallBox a q ∨ hallBox b q)
    (hxa : hallBox a x) (hxb : hallBox b x) :
    Corridor m0 (fun y => hallBox a y ∨ hallBox b y) p q ∧
    ∀ m : Map, m.SameDims m0 →
      ∃ m', carveHalls a b m = some m' ∧ Carves m m' (fun y => hallBox a y ∨ hallBox b y) := by
  have hconn : Connected4 (fun y => hallBox a y ∨ hallBox b y) :=
    connected4_union (connected4_box _ _ _ _) (connected4_box _ _ _ _) x hxa hxb
  refine ⟨⟨?_, hconn, fun _ _ => ⟨hp, hq⟩, hconn p q hp hq⟩, ?_⟩
  · intro y hy
    rcases hy with h | h
    · exact hva y h
    · exact hvb y h
  intro m hm
  obtain ⟨m1, hm1⟩ := carveHall_defined a m (fun y hy => by
    rw [Map.validCoords_congr hm]; exact hva y hy)
  obtain ⟨_, hd1, hc1⟩ := carveHall_inv a m m1 hm1
  obtain ⟨m2, hm2⟩ := carveHall_defined b m1 (fun y hy => by
    rw [Map.validCoords_congr (hd1.trans hm)]; exact hvb y hy)
  obtain ⟨_, hd2, hc2⟩ := carveHall_inv b m1 m2 hm2
  refine ⟨m2, ?_, hd2.trans hd1, ?_, ?_⟩
  · unfold carveHalls
    rw [hm1]
    exact hm2
  · intro y hy
    rw [hc2 y]
    by_cases hb : hallBox b y
    · rw [if_pos hb]
    · rw [if_neg hb, hc1 y]
      rcases hy with h | h
      · rw [if_pos h]
      · exact absurd h hb
  · intro y hy
    rw [hc2 y, if_neg (fun h => hy (Or.inr h)), hc1 y, if_neg (fun h => hy (Or.inl h))]


/-- The routing between two drawn points whose right and lower neighbours are
still in the grid: the cells routeHall sets depend on the points and on the
corner choice only, they form a corridor between the two points, and routeHall
returns on every grid of that size with exactly these cells set to Empty. -/
theorem routeHall_path (engine : Engine) (r1 c1 r2 c2 : Int) (m0 : Map)
    (h1 : (0 ≤ r1 ∧ r1 + 1 < (m0.rows : Int)) ∧ (0 ≤ c1 ∧ c1 + 1 < (m0.cols : Int)))
    (h2 : (0 ≤ r2 ∧ r2 + 1 < (m0.rows : Int)) ∧ (0 ≤ c2 ∧ c2 + 1 < (m0.cols : Int))) :
    ∃ hall : Int × Int → Prop, Corridor m0 hall (r1, c1) (r2, c2) ∧
      ∀ m : Map, m.SameDims m0 →
        ∃ res, routeHall engine r1 c1 r2 c2 m = some res ∧ Carves m res.1 hall := by
  have hv : ∀ (rect : BSPRect),
      (min r1 r2 ≤ rect.y ∧ rect.y + rect.h ≤ max r1 r2 + 1) →
      (min c1 c2 ≤ rect.x ∧ rect.x + rect.w ≤ max c1 c2 + 1) →
      ∀ y, hallBox rect y → m0.validCoords y.1 y.2 = true := by
    intro rect hr hc y hy
    rw [Map.validCoords_iff]
    unfold hallBox inBox at hy
    omega
  rcases lt_trichotomy (c2 - c1) 0 with hC | hC | hC
  · rcases lt_trichotomy (r2 - r1) 0 with hR | hR | hR
    · by_cases hcoin : (uniformReal engine).1 < 1 / 2
      · have hcoin' : decide ((uniformReal engine).1 < 1 / 2) = true := by simpa using hcoin
        obtain ⟨hcorr, hcarve⟩ := carveHalls_path
              { x := c1, y := r2, w := 1, h := -(r2 - r1) }
              { x := c2, y := r2, w := -(c2 - c1), h := 1 }
              m0 (r1, c1) (r2, c2) (r2, c1)
              (hv _ (by simp only []; omega) (by simp only []; omega))
              (hv _ (by simp only []; omega) (by simp only []; omega))
              (by unfold hallBox inBox; simp only []; omega)
              (by unfold hallBox inBox; simp only []; omega)
              (by unfold hallBox inBox; simp only []; omega)
              (by unfold hallBox inBox; simp only []; omega)
        refine ⟨_, hcorr, ?_⟩
        intro m hm
        obtain ⟨m', hm', hcarved⟩ := hcarve m hm
        refine ⟨(m', (uniformReal engine).2), ?_, hcarved⟩
        unfold routeHall
        simp only []
        rw [if_pos hC, if_neg (by omega : ¬ (r2 - r1 > 0)), if_pos hR, if_pos hcoin', hm']
        rfl
      · have hcoin' : ¬ (decide ((uniformReal engine).1 < 1 / 2) = true) := by simpa using hcoin
        obtain ⟨hcorr, hcarve⟩ := carveHalls_path
              { x := c2, y := r1, w := -(c2 - c1), h := 1 }
              { x := c2, y := r2, w := 1, h := -(r2 - r1) }
              m0 (r1, c1) (r2, c2) (r1, c2)
              (hv _ (by simp only []; omega) (by simp only []; omega))
              (hv _ (by simp only []; omega) (by simp only []; omega))
              (by unfold hallBox inBox; simp only []; omega)
              (by unfold hallBox inBox; simp only []; omega)
              (by unfold hallBox inBox; simp only []; omega)
              (by unfold hallBox inBox; simp only []; omega)
        refine ⟨_, hcorr, ?_⟩
        intro m hm
        obtain ⟨m', hm', hcarved⟩ := hcarve m hm
        refine ⟨(m', (uniformReal engine).2), ?_, hcarved⟩
        unfold routeHall
        simp only []
        rw [if_pos hC, if_neg (by omega : ¬ (r2 - r1 > 0)), if_pos hR, if_neg hcoin', hm']
        rfl
    · obtain ⟨hcorr, hcarve⟩ := carveHall_path
       { x := c2, y := r2, w := -(c2 - c1), h := 1 } m0 (r1, c1) (r2, c2)
            (hv _ (by simp only []; omega) (by simp only []; omega))
            (by unfold hallBox inBox; simp only []; omega)
            (by unfold hallBox inBox; simp only []; omega)
      refine ⟨_, hcorr, ?_⟩
      intro m hm
      obtain ⟨m', hm', hcarved⟩ := hcarve m hm
      refine ⟨(m', engine), ?_, hcarved⟩
      unfold routeHall
      simp only []
      rw [if_pos hC, if_neg (by omega : ¬ (r2 - r1 > 0)), if_neg (by omega : ¬ (r2 - r1 < 0)), hm']
      rfl
    · by_cases hcoin : (uniformReal engine).1 < 1 / 2
      · have hcoin' : decide ((uniformReal engine).1 < 1 / 2) = true := by simpa using hcoin
        obtain ⟨hcorr, hcarve⟩ := carveHalls_path
              { x := c2, y := r1, w := -(c2 - c1), h := 1 }
              { x := c2, y := r1, w := 1, h := r2 - r1 }
              m0 (r1, c1) (r2, c2) (r1, c2)
              (hv _ (by simp only []; omega) (by simp only []; omega))
              (hv _ (by simp only []; omega) (by simp only []; omega))
              (by unfold hallBox inBox; simp only []; omega)
              (by unfold hallBox inBox; simp only []; omega)
              (by unfold hallBox inBox; simp only []; omega)
              (by unfold hallBox inBox; simp only []; omega)
        refine ⟨_, hcorr, ?_⟩
        intro m hm
        obtain ⟨m', hm', hcarved⟩ := hcarve m hm
        refine ⟨(m', (uniformReal engine).2), ?_, hcarved⟩
        unfold routeHall
        simp only []
        rw [if_pos hC, if_pos (by omega : r2 - r1 > 0), if_pos hcoin', hm']
        rfl
      · have hcoin' : ¬ (decide ((uniformReal engine).1 < 1 / 2) = true) := by simpa using hcoin
        obtain ⟨hcorr, hcarve⟩ := carveHalls_path
              { x := c1, y := r1, w := 1, h := r2 - r1 }
              { x := c2, y := r2, w := -(c2 - c1), h := 1 }
              m0 (r1, c1) (r2, c2) (r2, c1)
              (hv _ (by simp only []; omega) (by simp only []; omega))
              (hv _ (by simp only []; omega) (by simp only []; omega))
              (by unfold hallBox inBox; simp only []; omega)
              (by unfold hallBox inBox; simp only []; omega)
              (by unfold hallBox inBox; simp only []; omega)
              (by unfold hallBox inBox; simp only []; omega)
        refine ⟨_, hcorr, ?_⟩
        intro m hm
        obtain ⟨m', hm', hcarved⟩ := hcarve m hm
        refine ⟨(m', (uniformReal engine).2), ?_, hcarved⟩
        unfold routeHall
        simp only []
        rw [if_pos hC, if_pos (by omega : r2 - r1 > 0), if_neg hcoin', hm']
        rfl
  · rcases lt_trichotomy (r2 - r1) 0 with hR | hR | hR
    · obtain ⟨hcorr, hcarve⟩ := carveHall_path
       { x := c1, y := r2, w := 1, h := -(r2 - r1) } m0 (r1, c1) (r2, c2)
            (hv _ (by simp only []; omega) (by simp only []; omega))
            (by unfold hallBox inBox; simp only []; omega)
            (by unfold hallBox inBox; simp only []; omega)
      refine ⟨_, hcorr, ?_⟩
      intro m hm
      obtain ⟨m', hm', hcarved⟩ := hcarve m hm
      refine ⟨(m', engine), ?_, hcarved⟩
      unfold routeHall
      simp only []
      rw [if_neg (by omega : ¬ (c2 - c1 < 0)), if_neg (by omega : ¬ (c2 - c1 > 0)), if_neg (by omega : ¬ (r2 - r1 > 0)), if_pos hR, hm']
      rfl
    · have hr : r2 = r1 := by omega
      have hc : c2 = c1 := by omega
      subst hr hc
      refine ⟨fun _ => False, ⟨fun x hx => absurd hx id, fun x _ hx => absurd hx id,
        fun x hx => absurd hx id, reach_refl _ _⟩, ?_⟩
      intro m hm
      refine ⟨(m, engine), ?_, Map.SameDims.refl m, fun x hx => absurd hx id, fun x _ => rfl⟩
      unfold routeHall
      simp only []
      rw [if_neg (by omega : ¬ (c2 - c2 < 0)), if_neg (by omega : ¬ (c2 - c2 > 0)),
        if_neg (by omega : ¬ (r2 - r2 > 0)), if_neg (by omega : ¬ (r2 - r2 < 0))]
    · obtain ⟨hcorr, hcarve⟩ := carveHall_path
       { x := c1, y := r1, w := 1, h := r2 - r1 } m0 (r1, c1) (r2, c2)
            (hv _ (by simp only []; omega) (by simp only []; omega))
            (by unfold hallBox inBox; simp only []; omega)
            (by unfold hallBox inBox; simp only []; omega)
      refine ⟨_, hcorr, ?_⟩
      intro m hm
      obtain ⟨m', hm', hcarved⟩ := hcarve m hm
      refine ⟨(m', engine), ?_, hcarved⟩
      unfold routeHall
      simp only []
      rw [if_neg (by omega : ¬ (c2 - c1 < 0)), if_neg (by omega : ¬ (c2 - c1 > 0)), if_pos (by omega : r2 - r1 > 0), hm']
      rfl
  · rcases lt_trichotomy (r2 - r1) 0 with hR | hR | hR
    · by_cases hcoin : (uniformReal engine).1 < 1 / 2
      · have hcoin' : decide ((uniformReal engine).1 < 1 / 2) = true := by simpa using hcoin
        obtain ⟨hcorr, hcarve⟩ := carveHalls_path
              { x := c1, y := r2, w := 1, h := -(r2 - r1) }
              { x := c1, y := r2, w := c2 - c1, h := 1 }
              m0 (r1, c1) (r2, c2) (r2, c1)
              (hv _ (by simp only []; omega) (by simp only []; omega))
              (hv _ (by simp only []; omega) (by simp only []; omega))
              (by unfold hallBox inBox; simp only []; omega)
              (by unfold hallBox inBox; simp only []; omega)
              (by unfold hallBox inBox; simp only []; omega)
              (by unfold hallBox inBox; simp only []; omega)
        refine ⟨_, hcorr, ?_⟩
        intro m hm
        obtain ⟨m', hm', hcarved⟩ := hcarve m hm
        refine ⟨(m', (uniformReal engine).2), ?_, hcarved⟩
        unfold routeHall
        simp only []
        rw [if_neg (by omega : ¬ (c2 - c1 < 0)), if_pos (by omega : c2 - c1 > 0), if_neg (by omega : ¬ (r2 - r1 > 0)), if_pos hR, if_pos hcoin', hm']
        rfl
      · have hcoin' : ¬ (decide ((uniformReal engine).1 < 1 / 2) = true) := by simpa using hcoin
        obtain ⟨hcorr, hcarve⟩ := carveHalls_path
              { x := c1, y := r1, w := c2 - c1, h := 1 }
              { x := c2, y := r2, w := 1, h := -(r2 - r1) }
              m0 (r1, c1) (r2, c2) (r1, c2)
              (hv _ (by simp only []; omega) (by simp only []; omega))
              (hv _ (by simp only []; omega) (by simp only []; omega))
              (by unfold hallBox inBox; simp only []; omega)
              (by unfold hallBox inBox; simp only []; omega)
              (by unfold hallBox inBox; simp only []; omega)
              (by unfold hallBox inBox; simp only []; omega)
        refine ⟨_, hcorr, ?_⟩
        intro m hm
        obtain ⟨m', hm', hcarved⟩ := hcarve m hm
        refine ⟨(m', (uniformReal engine).2), ?_, hcarved⟩
        unfold routeHall
        simp only []
        rw [if_neg (by omega : ¬ (c2 - c1 < 0)), if_pos (by omega : c2 - c1 > 0), if_neg (by omega : ¬ (r2 - r1 > 0)), if_pos hR, if_neg hcoin', hm']
        rfl
    · obtain ⟨hcorr, hcarve⟩ := carveHall_path
       { x := c1, y := r1, w := c2 - c1, h := 1 } m0 (r1, c1) (r2, c2)
            (hv _ (by simp only []; omega) (by simp only []; omega))
            (by unfold hallBox inBox; simp only []; omega)
            (by unfold hallBox inBox; simp only []; omega)
      refine ⟨_, hcorr, ?_⟩
      intro m hm
      obtain ⟨m', hm', hcarved⟩ := hcarve m hm
      refine ⟨(m', engine), ?_, hcarved⟩
      unfold routeHall
      simp only []
      rw [if_neg (by omega : ¬ (c2 - c1 < 0)), if_pos (by omega : c2 - c1 > 0), if_neg (by omega : ¬ (r2 - r1 > 0)), if_neg (by omega : ¬ (r2 - r1 < 0)), hm']
      rfl
    · by_cases hcoin : (uniformReal engine).1 < 1 / 2
      · have hcoin' : decide ((uniformReal engine).1 < 1 / 2) = true := by simpa using hcoin
        obtain ⟨hcorr, hcarve⟩ := carveHalls_path
              { x := c2, y := r1, w := 1, h := r2 - r1 }
              { x := c1, y := r1, w := c2 - c1, h := 1 }
              m0 (r1, c1) (r2, c2) (r1, c2)
              (hv _ (by simp only []; omega) (by simp only []; omega))
              (hv _ (by simp only []; omega) (by simp only []; omega))
              (by unfold hallBox inBox; simp only []; omega)
              (by unfold hallBox inBox; simp only []; omega)
              (by unfold hallBox inBox; simp only []; omega)
              (by unfold hallBox inBox; simp only []; omega)
        refine ⟨_, hcorr, ?_⟩
        intro m hm
        obtain ⟨m', hm', hcarved⟩ := hcarve m hm
        refine ⟨(m', (uniformReal engine).2), ?_, hcarved⟩
        unfold routeHall
        simp only []
        rw [if_neg (by omega : ¬ (c2 - c1 < 0)), if_pos (by omega : c2 - c1 > 0), if_pos (by omega : r2 - r1 > 0), if_pos hcoin', hm']
        rfl
      · have hcoin' : ¬ (decide ((uniformReal engine).1 < 1 / 2) = true) := by simpa using hcoin
        obtain ⟨hcorr, hcarve⟩ := carveHalls_path
              { x := c1, y := r2, w := c2 - c1, h := 1 }
              { x := c1, y := r1, w := 1, h := r2 - r1 }
              m0 (r1, c1) (r2, c2) (r2, c1)
              (hv _ (by simp only []; omega) (by simp only []; omega))
              (hv _ (by simp only []; omega) (by simp only []; omega))
              (by unfold hallBox inBox; simp only []; omega)
              (by unfold hallBox inBox; simp only []; omega)
              (by unfold hallBox inBox; simp only []; omega)
              (by unfold hallBox inBox; simp only []; omega)
        refine ⟨_, hcorr, ?_⟩
        intro m hm
        obtain ⟨m', hm', hcarved⟩ := hcarve m hm
        refine ⟨(m', (uniformReal engine).2), ?_, hcarved⟩
        unfold routeHall
        simp only []
        rw [if_neg (by omega : ¬ (c2 - c1 < 0)), if_pos (by omega : c2 - c1 > 0), if_pos (by omega : r2 - r1 > 0), if_neg hcoin', hm']
        rfl


theorem drawHallPoints_defined (engine : Engine) (rect1 rect2 : BSPRect)
    (hw1 : 2 ≤ rect1.w) (hh1 : 2 ≤ rect1.h) (hw2 : 2 ≤ rect2.w) (hh2 : 2 ≤ rect2.h) :
    ∃ (r1 c1 r2 c2 : Int) (e' : Engine),
      drawHallPoints engine rect1 rect2 = some ((r1, c1, r2, c2), e') ∧
      (rect1.x + 1 ≤ c1 ∧ c1 ≤ rect1.x + rect1.w - 1) ∧
      (rect1.y + 1 ≤ r1 ∧ r1 ≤ rect1.y + rect1.h - 1) ∧
      (rect2.x + 1 ≤ c2 ∧ c2 ≤ rect2.x + rect2.w - 1) ∧
      (rect2.y + 1 ≤ r2 ∧ r2 ≤ rect2.y + rect2.h - 1) := by
  unfold drawHallPoints
  obtain ⟨c1, hc1⟩ := uniformInt_defined (a := rect1.x + 1) (b := rect1.x + rect1.w - 1)
    engine (by omega)
  rw [hc1]
  simp only []
  obtain ⟨r1, hr1⟩ := uniformInt_defined (a := rect1.y + 1) (b := rect1.y + rect1.h - 1)
    c1.2 (by omega)
  rw [hr1]
  simp only []
  obtain ⟨c2, hc2⟩ := uniformInt_defined (a := rect2.x + 1) (b := rect2.x + rect2.w - 1)
    r1.2 (by omega)
  rw [hc2]
  simp only []
  obtain ⟨r2, hr2⟩ := uniformInt_defined (a := rect2.y + 1) (b := rect2.y + rect2.h - 1)
    c2.2 (by omega)
  rw [hr2]
  exact ⟨r1.1, c1.1, r2.1, c2.1, r2.2, rfl, uniformInt_some hc1, uniformInt_some hr1,
    uniformInt_some hc2, uniformInt_some hr2⟩

/-- For two rectangles with an interior whose cells, far bounds included, are in
the grid: findHall draws a point inside each; the cells it sets depend on the
draws only, they form a corridor between the two points, and findHall returns on
every grid of that size with exactly these cells set to Empty. -/
theorem findHall_path (engine : Engine) (rect1 rect2 : BSPRect) (m0 : Map)
    (hfit1 : m0.fitsRoom rect1) (hfit2 : m0.fitsRoom rect2) :
    ∃ (r1 c1 r2 c2 : Int) (e' : Engine) (hall : Int × Int → Prop),
      drawHallPoints engine rect1 rect2 = some ((r1, c1, r2, c2), e') ∧
      ((rect1.x + 1 ≤ c1 ∧ c1 ≤ rect1.x + rect1.w - 1) ∧
        (rect1.y + 1 ≤ r1 ∧ r1 ≤ rect1.y + rect1.h - 1)) ∧
      ((rect2.x + 1 ≤ c2 ∧ c2 ≤ rect2.x + rect2.w - 1) ∧
        (rect2.y + 1 ≤ r2 ∧ r2 ≤ rect2.y + rect2.h - 1)) ∧
      Corridor m0 hall (r1, c1) (r2, c2) ∧
      ∀ m : Map, m.SameDims m0 →
        ∃ res, findHall engine rect1 rect2 m = some res ∧ Carves m res.1 hall := by
  obtain ⟨hw1, hh1, hv1⟩ := hfit1
  obtain ⟨hw2, hh2, hv2⟩ := hfit2
  obtain ⟨r1, c1, r2, c2, e', hdraw, hc1, hr1, hc2, hr2⟩ :=
    drawHallPoints_defined engine rect1 rect2 hw1 hh1 hw2 hh2
  have b1 := (Map.validCoords_iff m0 _ _).mp (hv1 (rect1.y, rect1.x) (by
    unfold hallBox inBox; simp only []; omega))
  have b1' := (Map.validCoords_iff m0 _ _).mp (hv1 (rect1.y + rect1.h, rect1.x + rect1.w) (by
    unfold hallBox inBox; simp only []; omega))
  have b2 := (Map.validCoords_iff m0 _ _).mp (hv2 (rect2.y, rect2.x) (by
    unfold hallBox inBox; simp only []; omega))
  have b2' := (Map.validCoords_iff m0 _ _).mp (hv2 (rect2.y + rect2.h, rect2.x + rect2.w) (by
    unfold hallBox inBox; simp only []; omega))
  obtain ⟨hall, hcorr, hroute⟩ := routeHall_path e' r1 c1 r2 c2 m0 (by omega) (by omega)
  refine ⟨r1, c1, r2, c2, e', hall, hdraw, ⟨hc1, hr1⟩, ⟨hc2, hr2⟩, hcorr, ?_⟩
  intro m hm
  obtain ⟨res, hres, hcarved⟩ := hroute m hm
  refine ⟨res, ?_, hcarved⟩
  unfold findHall
  rw [hdraw]
  exact hres

theorem openMap_fitsRoom (rect : BSPRect) (hw : 2 ≤ rect.w) (hh : 2 ≤ rect.h)
    (hx : 0 ≤ rect.x ∧ rect.x + rect.w < 6) (hy : 0 ≤ rect.y ∧ rect.y + rect.h < 6) :
    openMap.fitsRoom rect := by
  refine ⟨hw, hh, ?_⟩
  intro q hq
  unfold hallBox inBox at hq
  rw [Map.validCoords_iff]
  show (0 ≤ q.1 ∧ q.1 < ((6 : Nat) : Int)) ∧ (0 ≤ q.2 ∧ q.2 < ((6 : Nat) : Int))
  push_cast
  omega

/-! ## BSP: the cells of a corridor, whatever the grid -/

theorem carveHall_returns_iff (rect : BSPRect) (m : Map) :
    (∃ m', carveHall rect m = some m') ↔
      ∀ q, hallBox rect q → m.validCoords q.1 q.2 = true :=
  ⟨fun ⟨m', h⟩ => (carveHall_inv rect m m' h).1, carveHall_defined rect m⟩

theorem carveHall_carves (rect : BSPRect) (m m' : Map) (h : carveHall rect m = some m') :
    Carves m m' (hallBox rect) := by
  obtain ⟨_, hd, hc⟩ := carveHall_inv rect m m' h
  refine ⟨hd, ?_, ?_⟩
  · intro x hx
    rw [hc x, if_pos hx]
  · intro x hx
    rw [hc x, if_neg hx]

theorem carveHalls_returns_iff (a b : BSPRect) (m : Map) :
    (∃ m', carveHalls a b m = some m') ↔
      ∀ q, hallBox a q ∨ hallBox b q → m.validCoords q.1 q.2 = true := by
  constructor
  · rintro ⟨m', h⟩
    unfold carveHalls at h
    cases h1 : carveHall a m with
    | none =>
      rw [h1] at h
      cases h
    | some m1 =>
      rw [h1] at h
      simp only [] at h
      obtain ⟨hva, hd1, _⟩ := carveHall_inv a m m1 h1
      obtain ⟨hvb, _, _⟩ := carveHall_inv b m1 m' h
      rintro q (hq | hq)
      · exact hva q hq
      · rw [← Map.validCoords_congr hd1]
        exact hvb q hq
  · intro hv
    obtain ⟨m1, hm1⟩ := carveHall_defined a m (fun y hy => hv y (Or.inl hy))
    obtain ⟨_, hd1, _⟩ := carveHall_inv a m m1 hm1
    obtain ⟨m2, hm2⟩ := carveHall_defined b m1 (fun y hy => by
      rw [Map.validCoords_congr hd1]; exact hv y (Or.inr hy))
    refine ⟨m2, ?_⟩
    unfold carveHalls
    rw [hm1]
    exact hm2

theorem carveHalls_carves (a b : BSPRect) (m m' : Map) (h : carveHalls a b m = some m') :
    Carves m m' (fun y => hallBox a y ∨ hallBox b y) := by
  unfold carveHalls at h
  cases h1 : carveHall a m with
  | none =>
    rw [h1] at h
    cases h
  | some m1 =>
    rw [h1] at h
    simp only [] at h
    obtain ⟨_, hd1, hc1⟩ := carveHall_inv a m m1 h1
    obtain ⟨_, hd2, hc2⟩ := carveHall_inv b m1 m' h
    refine ⟨hd2.trans hd1, ?_, ?_⟩
    · intro y hy
      rw [hc2 y]
      by_cases hb : hallBox b y
      · rw [if_pos hb]
      · rw [if_neg hb, hc1 y]
        rcases hy with h | h
        · rw [if_pos h]
        · exact absurd h hb
    · intro y hy
      rw [hc2 y, if_neg (fun h => hy (Or.inr h)), hc1 y, if_neg (fun h => hy (Or.inl h))]

theorem map_isSome_iff {α β : Type} (f : α → β) (o : Option α) :
    (∃ res, o.map f = some res) ↔ ∃ a, o = some a := by
  cases o with
  | none =>
    constructor
    · rintro ⟨_, h⟩
      cases h
    · rintro ⟨_, h⟩
      cases h
  | some a => exact ⟨fun _ => ⟨a, rfl⟩, fun _ => ⟨f a, rfl⟩⟩

/-- A route that carves one segment holding both points. -/
theorem route_one (rect : BSPRect) (p q : Int × Int) (e : Engine)
    (route : Map → Option (Map × Engine)) (B : Int × Int → Prop)
    (hb : ∀ y, hallBox rect y → B y) (hp : hallBox rect p) (hq : hallBox rect q)
    (hne : p ≠ q) (hroute : ∀ m, route m = (carveHall rect m).map (fun m' => (m', e))) :
    Routes route (hallBox rect) p q ∧ ∀ y, hallBox rect y → B y := by
  refine ⟨⟨connected4_box _ _ _ _, fun _ => ⟨hp, hq⟩, fun h => absurd h hne,
    connected4_box _ _ _ _ p q hp hq, ?_⟩, hb⟩
  intro m
  rw [hroute m]
  refine ⟨(map_isSome_iff _ _).trans (carveHall_returns_iff rect m), ?_⟩
  intro res hres
  cases hc : carveHall rect m with
  | none =>
    rw [hc] at hres
    cases hres
  | some m' =>
    rw [hc] at hres
    cases hres
    exact carveHall_carves rect m m' hc

/-- A route that carves two segments sharing a cell, which hold both points. -/
theorem route_two (a b : BSPRect) (p q x : Int × Int) (e : Engine)
    (route : Map → Option (Map × Engine)) (B : Int × Int → Prop)
    (hba : ∀ y, hallBox a y → B y) (hbb : ∀ y, hallBox b y → B y)
    (hp : hallBox a p ∨ hallBox b p) (hq : hallBox a q ∨ hallBox b q)
    (hxa : hallBox a x) (hxb : hallBox b x) (hne : p ≠ q)
    (hroute : ∀ m, route m = (carveHalls a b m).map (fun m' => (m', e))) :
    Routes route (fun y => hallBox a y ∨ hallBox b y) p q ∧
      ∀ y, hallBox a y ∨ hallBox b y → B y := by
  have hconn : Connected4 (fun y => hallBox a y ∨ hallBox b y) :=
    connected4_union (connected4_box _ _ _ _) (connected4_box _ _ _ _) x hxa hxb
  refine ⟨⟨hconn, fun _ => ⟨hp, hq⟩, fun h => absurd h hne, hconn p q hp hq, ?_⟩, ?_⟩
  · intro m
    rw [hroute m]
    refine ⟨(map_isSome_iff _ _).trans (carveHalls_returns_iff a b m), ?_⟩
    intro res hres
    cases hc : carveHalls a b m with
    | none =>
      rw [hc] at hres
      cases hres
    | some m' =>
      rw [hc] at hres
      cases hres
      exact carveHalls_carves a b m m' hc
  · rintro y (hy | hy)
    · exact hba y hy
    · exact hbb y hy

/-- A route between two equal points: nothing is carved. -/
theorem route_none (p : Int × Int) (e : Engine) (route : Map → Option (Map × Engine))
    (hroute : ∀ m, route m = some (m, e)) :
    Routes route (fun _ => False) p p := by
  refine ⟨fun x _ hx => absurd hx id, fun h => absurd rfl h, fun _ x hx => hx,
    reach_refl _ _, ?_⟩
  intro m
  rw [hroute m]
  refine ⟨⟨fun _ x hx => absurd hx id, fun _ => ⟨_, rfl⟩⟩, ?_⟩
  intro res hres
  cases hres
  exact ⟨Map.SameDims.refl m, fun x hx => absurd hx id, fun x _ => rfl⟩

/-- The routing between two drawn points, on any grid: the cells routeHall sets
depend on the points and on the corner choice only; they form a corridor between
the two points inside the box of the two points widened by one row and one
column, routeHall returns exactly on the grids that hold all these cells, and
it sets exactly these cells to Empty. -/
theorem routeHall_cells (engine : Engine) (r1 c1 r2 c2 : Int) :
    ∃ hall : Int × Int → Prop,
      Routes (routeHall engine r1 c1 r2 c2) hall (r1, c1) (r2, c2) ∧
      ∀ y, hall y → inBox (min r1 r2) (max r1 r2 + 2) (min c1 c2) (max c1 c2 + 2) y := by
  have hb : ∀ (rect : BSPRect),
      (min r1 r2 ≤ rect.y ∧ rect.y + rect.h ≤ max r1 r2 + 1) →
      (min c1 c2 ≤ rect.x ∧ rect.x + rect.w ≤ max c1 c2 + 1) →
      ∀ y, hallBox rect y →
        inBox (min r1 r2) (max r1 r2 + 2) (min c1 c2) (max c1 c2 + 2) y := by
    intro rect hr hc y hy
    unfold hallBox inBox at hy
    unfold inBox
    omega
  rcases lt_trichotomy (c2 - c1) 0 with hC | hC | hC
  · rcases lt_trichotomy (r2 - r1) 0 with hR | hR | hR
    · by_cases hcoin : (uniformReal engine).1 < 1 / 2
      · have hcoin' : decide ((uniformReal engine).1 < 1 / 2) = true := by simpa using hcoin
        exact ⟨_, route_two
            { x := c1, y := r2, w := 1, h := -(r2 - r1) }
            { x := c2, y := r2, w := -(c2 - c1), h := 1 }
            (r1, c1) (r2, c2) (r2, c1) (uniformReal engine).2 _ _
            (hb _ (by simp only []; omega) (by simp only []; omega))
            (hb _ (by simp only []; omega) (by simp only []; omega))
            (by unfold hallBox inBox; simp only []; omega)
            (by unfold hallBox inBox; simp only []; omega)
            (by unfold hallBox inBox; simp only []; omega)
            (by unfold hallBox inBox; simp only []; omega)
            (by intro h; have h1 := congrArg Prod.fst h; have h2 := congrArg Prod.snd h; simp only [] at h1 h2; omega)
            (fun m => by
              unfold routeHall
              simp only []
              rw [if_pos hC, if_neg (by omega : ¬ (r2 - r1 > 0)), if_pos hR, if_pos hcoin'])⟩
      · have hcoin' : ¬ (decide ((uniformReal engine).1 < 1 / 2) = true) := by simpa using hcoin
        exact ⟨_, route_two
            { x := c2, y := r1, w := -(c2 - c1), h := 1 }
            { x := c2, y := r2, w := 1, h := -(r2 - r1) }
            (r1, c1) (r2, c2) (r1, c2) (uniformReal engine).2 _ _
            (hb _ (by simp only []; omega) (by simp only []; omega))
            (hb _ (by simp only []; omega) (by simp only []; omega))
            (by unfold hallBox inBox; simp only []; omega)
            (by unfold hallBox inBox; simp only []; omega)
            (by unfold hallBox inBox; simp only []; omega)
            (by unfold hallBox inBox; simp only []; omega)
            (by intro h; have h1 := congrArg Prod.fst h; have h2 := congrArg Prod.snd h; simp only [] at h1 h2; omega)
            (fun m => by
              unfold routeHall
              simp only []
              rw [if_pos hC, if_neg (by omega : ¬ (r2 - r1 > 0)), if_pos hR, if_neg hcoin'])⟩
    · exact ⟨_, route_one
          { x := c2, y := r2, w := -(c2 - c1), h := 1 }
          (r1, c1) (r2, c2) engine _ _
          (hb _ (by simp only []; omega) (by simp only []; omega))
          (by unfold hallBox inBox; simp only []; omega)
          (by unfold hallBox inBox; simp only []; omega)
          (by intro h; have h1 := congrArg Prod.fst h; have h2 := congrArg Prod.snd h; simp only [] at h1 h2; omega)
          (fun m => by
            unfold routeHall
            simp only []
            rw [if_pos hC, if_neg (by omega : ¬ (r2 - r1 > 0)), if_neg (by omega : ¬ (r2 - r1 < 0))])⟩
    · by_cases hcoin : (uniformReal engine).1 < 1 / 2
      · have hcoin' : decide ((uniformReal engine).1 < 1 / 2) = true := by simpa using hcoin
        exact ⟨_, route_two
            { x := c2, y := r1, w := -(c2 - c1), h := 1 }
            { x := c2, y := r1, w := 1, h := r2 - r1 }
            (r1, c1) (r2, c2) (r1, c2) (uniformReal engine).2 _ _
            (hb _ (by simp only []; omega) (by simp only []; omega))
            (hb _ (by simp only []; omega) (by simp only []; omega))
            (by unfold hallBox inBox; simp only []; omega)
            (by unfold hallBox inBox; simp only []; omega)
            (by unfold hallBox inBox; simp only []; omega)
            (by unfold hallBox inBox; simp only []; omega)
            (by intro h; have h1 := congrArg Prod.fst h; have h2 := congrArg Prod.snd h; simp only [] at h1 h2; omega)
            (fun m => by
              unfold routeHall
              simp only []
              rw [if_pos hC, if_pos (by omega : r2 - r1 > 0), if_pos hcoin'])⟩
      · have hcoin' : ¬ (decide ((uniformReal engine).1 < 1 / 2) = true) := by simpa using hcoin
        exact ⟨_, route_two
            { x := c1, y := r1, w := 1, h := r2 - r1 }
            { x := c2, y := r2, w := -(c2 - c1), h := 1 }
            (r1, c1) (r2, c2) (r2, c1) (uniformReal engine).2 _ _
            (hb _ (by simp only []; omega) (by simp only []; omega))
            (hb _ (by simp only []; omega) (by simp only []; omega))
            (by unfold hallBox inBox; simp only []; omega)
            (by unfold hallBox inBox; simp only []; omega)
            (by unfold hallBox inBox; simp only []; omega)
            (by unfold hallBox inBox; simp only []; omega)
            (by intro h; have h1 := congrArg Prod.fst h; have h2 := congrArg Prod.snd h; simp only [] at h1 h2; omega)
            (fun m => by
              unfold routeHall
              simp only []
              rw [if_pos hC, if_pos (by omega : r2 - r1 > 0), if_neg hcoin'])⟩
  · rcases lt_trichotomy (r2 - r1) 0 with hR | hR | hR
    · exact ⟨_, route_one
          { x := c1, y := r2, w := 1, h := -(r2 - r1) }
          (r1, c1) (r2, c2) engine _ _
          (hb _ (by simp only []; omega) (by simp only []; omega))
          (by unfold hallBox inBox; simp only []; omega)
          (by unfold hallBox inBox; simp only []; omega)
          (by intro h; have h1 := congrArg Prod.fst h; have h2 := congrArg Prod.snd h; simp only [] at h1 h2; omega)
          (fun m => by
            unfold routeHall
            simp only []
            rw [if_neg (by omega : ¬ (c2 - c1 < 0)), if_neg (by omega : ¬ (c2 - c1 > 0)), if_neg (by omega : ¬ (r2 - r1 > 0)), if_pos hR])⟩
    · have hr : r2 = r1 := by omega
      have hc : c2 = c1 := by omega
      subst hr hc
      exact ⟨fun _ => False, route_none (r2, c2) engine _ (fun m => by
        unfold routeHall
        simp only []
        rw [if_neg (by omega : ¬ (c2 - c2 < 0)), if_neg (by omega : ¬ (c2 - c2 > 0)),
          if_neg (by omega : ¬ (r2 - r2 > 0)), if_neg (by omega : ¬ (r2 - r2 < 0))]),
        fun x hx => absurd hx id⟩
    · exact ⟨_, route_one
          { x := c1, y := r1, w := 1, h := r2 - r1 }
          (r1, c1) (r2, c2) engine _ _
          (hb _ (by simp only []; omega) (by simp only []; omega))
          (by unfold hallBox inBox; simp only []; omega)
          (by unfold hallBox inBox; simp only []; omega)
          (by intro h; have h1 := congrArg Prod.fst h; have h2 := congrArg Prod.snd h; simp only [] at h1 h2; omega)
          (fun m => by
            unfold routeHall
            simp only []
            rw [if_neg (by omega : ¬ (c2 - c1 < 0)), if_neg (by omega : ¬ (c2 - c1 > 0)), if_pos (by omega : r2 - r1 > 0)])⟩
  · rcases lt_trichotomy (r2 - r1) 0 with hR | hR | hR
    · by_cases hcoin : (uniformReal engine).1 < 1 / 2
      · have hcoin' : decide ((uniformReal engine).1 < 1 / 2) = true := by simpa using hcoin
        exact ⟨_, route_two
            { x := c1, y := r2, w := 1, h := -(r2 - r1) }
            { x := c1, y := r2, w := c2 - c1, h := 1 }
            (r1, c1) (r2, c2) (r2, c1) (uniformReal engine).2 _ _
            (hb _ (by simp only []; omega) (by simp only []; omega))
            (hb _ (by simp only []; omega) (by simp only []; omega))
            (by unfold hallBox inBox; simp only []; omega)
            (by unfold hallBox inBox; simp only []; omega)
            (by unfold hallBox inBox; simp only []; omega)
            (by unfold hallBox inBox; simp only []; omega)
            (by intro h; have h1 := congrArg Prod.fst h; have h2 := congrArg Prod.snd h; simp only [] at h1 h2; omega)
            (fun m => by
              unfold routeHall
              simp only []
              rw [if_neg (by omega : ¬ (c2 - c1 < 0)), if_pos (by omega : c2 - c1 > 0), if_neg (by omega : ¬ (r2 - r1 > 0)), if_pos hR, if_pos hcoin'])⟩
      · have hcoin' : ¬ (decide ((uniformReal engine).1 < 1 / 2) = true) := by simpa using hcoin
        exact ⟨_, route_two
            { x := c1, y := r1, w := c2 - c1, h := 1 }
            { x := c2, y := r2, w := 1, h := -(r2 - r1) }
            (r1, c1) (r2, c2) (r1, c2) (uniformReal engine).2 _ _
            (hb _ (by simp only []; omega) (by simp only []; omega))
            (hb _ (by simp only []; omega) (by simp only []; omega))
            (by unfold hallBox inBox; simp only []; omega)
            (by unfold hallBox inBox; simp only []; omega)
            (by unfold hallBox inBox; simp only []; omega)
            (by unfold hallBox inBox; simp only []; omega)
            (by intro h; have h1 := congrArg Prod.fst h; have h2 := congrArg Prod.snd h; simp only [] at h1 h2; omega)
            (fun m => by
              unfold routeHall
              simp only []
              rw [if_neg (by omega : ¬ (c2 - c1 < 0)), if_pos (by omega : c2 - c1 > 0), if_neg (by omega : ¬ (r2 - r1 > 0)), if_pos hR, if_neg hcoin'])⟩
    · exact ⟨_, route_one
          { x := c1, y := r1, w := c2 - c1, h := 1 }
          (r1, c1) (r2, c2) engine _ _
          (hb _ (by simp only []; omega) (by simp only []; omega))
          (by unfold hallBox inBox; simp only []; omega)
          (by unfold hallBox inBox; simp only []; omega)
          (by intro h; have h1 := congrArg Prod.fst h; have h2 := congrArg Prod.snd h; simp only [] at h1 h2; omega)
          (fun m => by
            unfold routeHall
            simp only []
            rw [if_neg (by omega : ¬ (c2 - c1 < 0)), if_pos (by omega : c2 - c1 > 0), if_neg (by omega : ¬ (r2 - r1 > 0)), if_neg (by omega : ¬ (r2 - r1 < 0))])⟩
    · by_cases hcoin : (uniformReal engine).1 < 1 / 2
      · have hcoin' : decide ((uniformReal engine).1 < 1 / 2) = true := by simpa using hcoin
        exact ⟨_, route_two
            { x := c2, y := r1, w := 1, h := r2 - r1 }
            { x := c1, y := r1, w := c2 - c1, h := 1 }
            (r1, c1) (r2, c2) (r1, c2) (uniformReal engine).2 _ _
            (hb _ (by simp only []; omega) (by simp only []; omega))
            (hb _ (by simp only []; omega) (by simp only []; omega))
            (by unfold hallBox inBox; simp only []; omega)
            (by unfold hallBox inBox; simp only []; omega)
            (by unfold hallBox inBox; simp only []; omega)
            (by unfold hallBox inBox; simp only []; omega)
            (by intro h; have h1 := congrArg Prod.fst h; have h2 := congrArg Prod.snd h; simp only [] at h1 h2; omega)
            (fun m => by
              unfold routeHall
              simp only []
              rw [if_neg (by omega : ¬ (c2 - c1 < 0)), if_pos (by omega : c2 - c1 > 0), if_pos (by omega : r2 - r1 > 0), if_pos hcoin'])⟩
      · have hcoin' : ¬ (decide ((uniformReal engine).1 < 1 / 2) = true) := by simpa using hcoin
        exact ⟨_, route_two
            { x := c1, y := r2, w := c2 - c1, h := 1 }
            { x := c1, y := r1, w := 1, h := r2 - r1 }
            (r1, c1) (r2, c2) (r2, c1) (uniformReal engine).2 _ _
            (hb _ (by simp only []; omega) (by simp only []; omega))
            (hb _ (by simp only []; omega) (by simp only []; omega))
            (by unfold hallBox inBox; simp only []; omega)
            (by unfold hallBox inBox; simp only []; omega)
            (by unfold hallBox inBox; simp only []; omega)
            (by unfold hallBox inBox; simp only []; omega)
            (by intro h; have h1 := congrArg Prod.fst h; have h2 := congrArg Prod.snd h; simp only [] at h1 h2; omega)
            (fun m => by
              unfold routeHall
              simp only []
              rw [if_neg (by omega : ¬ (c2 - c1 < 0)), if_pos (by omega : c2 - c1 > 0), if_pos (by omega : r2 - r1 > 0), if_neg hcoin'])⟩



/-! ## BSP: findHall on any grid -/

/-- The draws of findHall for two rectangles with a single interior point each. -/
theorem drawHallPoints_single (engine : Engine) (x1 y1 x2 y2 : Int) :
    drawHallPoints engine { x := x1, y := y1, w := 2, h := 2 }
        { x := x2, y := y2, w := 2, h := 2 } =
      some ((y1 + 1, x1 + 1, y2 + 1, x2 + 1), ((((engine.pop).2.pop).2.pop).2.pop).2) := by
  unfold drawHallPoints
  simp only []
  rw [show x1 + 2 - 1 = x1 + 1 by omega, show y1 + 2 - 1 = y1 + 1 by omega,
    show x2 + 2 - 1 = x2 + 1 by omega, show y2 + 2 - 1 = y2 + 1 by omega]
  simp only [uniformInt_single]

/-- On the open 6 x 6 grid the corridor between the rooms at (0, 0) and (4, 4)
leaves the grid, whichever corner is drawn. -/
theorem findHall_leaves_grid (engine : Engine) :
    findHall engine { x := 0, y := 0, w := 2, h := 2 } { x := 4, y := 4, w := 2, h := 2 }
      openMap = none := by
  unfold findHall
  rw [drawHallPoints_single]
  simp only []
  unfold routeHall
  simp only []
  rw [if_neg (by decide), if_pos (by decide), if_pos (by decide)]
  have hfirst : carveHalls { x := 4 + 1, y := 0 + 1, w := 1, h := 4 + 1 - (0 + 1) }
      { x := 0 + 1, y := 0 + 1, w := 4 + 1 - (0 + 1), h := 1 } openMap = none := by
    cases h : carveHalls { x := 4 + 1, y := 0 + 1, w := 1, h := 4 + 1 - (0 + 1) }
        { x := 0 + 1, y := 0 + 1, w := 4 + 1 - (0 + 1), h := 1 } openMap with
    | none => rfl
    | some m' =>
      have hv := (carveHalls_returns_iff _ _ openMap).mp ⟨m', h⟩ (1, 6)
        (Or.inl (by decide))
      exact absurd hv (by decide)
  have hsecond : carveHalls { x := 0 + 1, y := 4 + 1, w := 4 + 1 - (0 + 1), h := 1 }
      { x := 0 + 1, y := 0 + 1, w := 1, h := 4 + 1 - (0 + 1) } openMap = none := by
    cases h : carveHalls { x := 0 + 1, y := 4 + 1, w := 4 + 1 - (0 + 1), h := 1 }
        { x := 0 + 1, y := 0 + 1, w := 1, h := 4 + 1 - (0 + 1) } openMap with
    | none => rfl
    | some m' =>
      have hv := (carveHalls_returns_iff _ _ openMap).mp ⟨m', h⟩ (6, 1)
        (Or.inl (by decide))
      exact absurd hv (by decide)
  split
  · rw [hfirst]
    rfl
  · rw [hsecond]
    rfl

/-- With both rooms the same rectangle, findHall draws the same point twice and
sets no cell: on the all-Wall 10 x 10 grid the point (2, 2) stays Wall. -/
theorem findHall_same_point (engine : Engine) :
    (findHall engine { x := 1, y := 1, w := 2, h := 2 } { x := 1, y := 1, w := 2, h := 2 }
      tenMap).map (fun res => res.1.cells (2, 2)) = some CellType.Wall := by
  unfold findHall
  rw [drawHallPoints_single]
  simp only []
  unfold routeHall
  simp only []
  rw [if_neg (by decide), if_neg (by decide), if_neg (by decide), if_neg (by decide)]
  rfl

/-- On the 3 x 6 grid findHall returns for the rooms at (0, 0) and (4, 0), whose
points (1, 1) and (1, 5) lie in one row: the segment covers the rows 1 and 2. -/
theorem findHall_lowMap_returns (engine : Engine) :
    ∃ res, findHall engine { x := 0, y := 0, w := 2, h := 2 }
      { x := 4, y := 0, w := 2, h := 2 } lowMap = some res := by
  unfold findHall
  rw [drawHallPoints_single]
  simp only []
  unfold routeHall
  simp only []
  rw [if_neg (by decide), if_pos (by decide), if_neg (by decide), if_neg (by decide)]
  obtain ⟨m', hm'⟩ := carveHall_defined
    { x := 0 + 1, y := 0 + 1, w := 4 + 1 - (0 + 1), h := 1 } lowMap (by
      intro q hq
      rw [Map.validCoords_iff]
      unfold hallBox inBox at hq
      simp only [lowMap] at hq ⊢
      omega)
  rw [hm']
  exact ⟨_, rfl⟩

/-- C10 as stated fails.  The rooms at (0, 0) and (4, 4), both 2 x 2, lie inside
the open 6 x 6 grid, yet for every engine findHall writes outside the grid (the
run has no result): the points are (1, 1) and (5, 5) and either corner puts a
segment on column 6 or row 6.  And when both points coincide, as for the same
2 x 2 rectangle taken twice, findHall sets no cell: on an all-Wall grid the point
(2, 2) is Wall afterwards, not Empty. -/
theorem findHall_leaves_grid_or_keeps_wall :
    (openMap.holds { x := 0, y := 0, w := 2, h := 2 } ∧
      openMap.holds { x := 4, y := 4, w := 2, h := 2 } ∧
      ∀ engine : Engine,
        findHall engine { x := 0, y := 0, w := 2, h := 2 } { x := 4, y := 4, w := 2, h := 2 }
          openMap = none) ∧
    (tenMap.holds { x := 1, y := 1, w := 2, h := 2 } ∧
      ∀ engine : Engine,
        (findHall engine { x := 1, y := 1, w := 2, h := 2 } { x := 1, y := 1, w := 2, h := 2 }
          tenMap).map (fun res => res.1.cells (2, 2)) = some CellType.Wall) :=
  ⟨⟨(by unfold Map.holds; decide), (by unfold Map.holds; decide), findHall_leaves_grid⟩,
    (by unfold Map.holds; decide), findHall_same_point⟩

/-- C10, amended. For two rectangles with an interior to draw from (w, h >= 2)
and every engine, findHall draws (r1, c1) inside the first and (r2, c2) inside
the second.  The set `hall` of cells it sets depends on the draws only and joins
(r1, c1) to (r2, c2) by a 4-connected path inside `hall`; it holds both points
when they differ and is empty when they coincide.  On every grid findHall
returns exactly when all cells of `hall` are cells of the grid, which is the
case when the grid holds each room with the row below it and the column to its
right; the grid it returns has exactly the cells of `hall` set to Empty, and
both points are Empty in it when they differ or were Empty before.  This covers
the nine sign cases of the offsets and both corner choices. -/
theorem findHall_connects (engine : Engine) (rect1 rect2 : BSPRect)
    (hw1 : 2 ≤ rect1.w) (hh1 : 2 ≤ rect1.h) (hw2 : 2 ≤ rect2.w) (hh2 : 2 ≤ rect2.h) :
    ∃ (r1 c1 r2 c2 : Int) (e' : Engine) (hall : Int × Int → Prop),
      drawHallPoints engine rect1 rect2 = some ((r1, c1, r2, c2), e') ∧
      ((rect1.x + 1 ≤ c1 ∧ c1 ≤ rect1.x + rect1.w - 1) ∧
        (rect1.y + 1 ≤ r1 ∧ r1 ≤ rect1.y + rect1.h - 1)) ∧
      ((rect2.x + 1 ≤ c2 ∧ c2 ≤ rect2.x + rect2.w - 1) ∧
        (rect2.y + 1 ≤ r2 ∧ r2 ≤ rect2.y + rect2.h - 1)) ∧
      Reach hall (r1, c1) (r2, c2) ∧
      ((r1, c1) ≠ (r2, c2) → hall (r1, c1) ∧ hall (r2, c2)) ∧
      ((r1, c1) = (r2, c2) → ∀ x, ¬ hall x) ∧
      ∀ m : Map,
        ((∃ res, findHall engine rect1 rect2 m = some res) ↔
          ∀ x, hall x → m.validCoords x.1 x.2 = true) ∧
        (m.fitsRoom rect1 → m.fitsRoom rect2 →
          ∃ res, findHall engine rect1 rect2 m = some res) ∧
        ∀ res, findHall engine rect1 rect2 m = some res →
          Carves m res.1 hall ∧
          ((r1, c1) ≠ (r2, c2) ∨ (m.isEmptyCell (r1, c1) ∧ m.isEmptyCell (r2, c2)) →
            res.1.isEmptyCell (r1, c1) ∧ res.1.isEmptyCell (r2, c2)) := by
  obtain ⟨r1, c1, r2, c2, e', hdraw, hc1, hr1, hc2, hr2⟩ :=
    drawHallPoints_defined engine rect1 rect2 hw1 hh1 hw2 hh2
  obtain ⟨hall, ⟨_, hends, hnone, hreach, hroute⟩, hbox⟩ := routeHall_cells e' r1 c1 r2 c2
  have hfind : ∀ m, findHall engine rect1 rect2 m = routeHall e' r1 c1 r2 c2 m := by
    intro m
    unfold findHall
    rw [hdraw]
  refine ⟨r1, c1, r2, c2, e', hall, hdraw, ⟨hc1, hr1⟩, ⟨hc2, hr2⟩, hreach, hends, hnone, ?_⟩
  intro m
  rw [hfind m]
  obtain ⟨hiff, hcarve⟩ := hroute m
  refine ⟨hiff, ?_, ?_⟩
  · intro hfit1 hfit2
    apply hiff.mpr
    intro x hx
    have hx' := hbox x hx
    obtain ⟨_, _, hv1⟩ := hfit1
    obtain ⟨_, _, hv2⟩ := hfit2
    have b1 := (Map.validCoords_iff m _ _).mp (hv1 (rect1.y, rect1.x) (by
      unfold hallBox inBox; simp only []; omega))
    have b1' := (Map.validCoords_iff m _ _).mp (hv1 (rect1.y + rect1.h, rect1.x + rect1.w) (by
      unfold hallBox inBox; simp only []; omega))
    have b2 := (Map.validCoords_iff m _ _).mp (hv2 (rect2.y, rect2.x) (by
      unfold hallBox inBox; simp only []; omega))
    have b2' := (Map.validCoords_iff m _ _).mp (hv2 (rect2.y + rect2.h, rect2.x + rect2.w) (by
      unfold hallBox inBox; simp only []; omega))
    rw [Map.validCoords_iff]
    unfold inBox at hx'
    omega
  · intro res hres
    obtain ⟨hd, hset, hkeep⟩ := hcarve res hres
    have hvalid := hiff.mp ⟨res, hres⟩
    refine ⟨⟨hd, hset, hkeep⟩, ?_⟩
    have hinside : ∀ x, hall x → res.1.isEmptyCell x := fun x hx =>
      ⟨by rw [Map.validCoords_congr hd]; exact hvalid x hx, hset x hx⟩
    have hstay : ∀ x, m.isEmptyCell x → res.1.isEmptyCell x := by
      intro x hx
      refine ⟨by rw [Map.validCoords_congr hd]; exact hx.1, ?_⟩
      by_cases hh : hall x
      · exact hset x hh
      · rw [hkeep x hh]
        exact hx.2
    rintro (hne | ⟨he1, he2⟩)
    · exact ⟨hinside _ (hends hne).1, hinside _ (hends hne).2⟩
    · exact ⟨hstay _ he1, hstay _ he2⟩

/-- Witness for the amended C10: the rooms at (0, 0) and (4, 0), both 2 x 2; on
the 3 x 6 grid, which holds the row below them but not the column to the right
of the second, findHall returns. -/
theorem findHall_connects_witness :
    (∃ (r1 c1 r2 c2 : Int) (e' : Engine) (hall : Int × Int → Prop),
      drawHallPoints zeroEngine { x := 0, y := 0, w := 2, h := 2 }
        { x := 4, y := 0, w := 2, h := 2 } = some ((r1, c1, r2, c2), e') ∧
      (((0 : Int) + 1 ≤ c1 ∧ c1 ≤ (0 : Int) + 2 - 1) ∧
        ((0 : Int) + 1 ≤ r1 ∧ r1 ≤ (0 : Int) + 2 - 1)) ∧
      (((4 : Int) + 1 ≤ c2 ∧ c2 ≤ (4 : Int) + 2 - 1) ∧
        ((0 : Int) + 1 ≤ r2 ∧ r2 ≤ (0 : Int) + 2 - 1)) ∧
      Reach hall (r1, c1) (r2, c2) ∧
      ((r1, c1) ≠ (r2, c2) → hall (r1, c1) ∧ hall (r2, c2)) ∧
      ((r1, c1) = (r2, c2) → ∀ x, ¬ hall x) ∧
      ∀ m : Map,
        ((∃ res, findHall zeroEngine { x := 0, y := 0, w := 2, h := 2 }
            { x := 4, y := 0, w := 2, h := 2 } m = some res) ↔
          ∀ x, hall x → m.validCoords x.1 x.2 = true) ∧
        (m.fitsRoom { x := 0, y := 0, w := 2, h := 2 } →
          m.fitsRoom { x := 4, y := 0, w := 2, h := 2 } →
          ∃ res, findHall zeroEngine { x := 0, y := 0, w := 2, h := 2 }
            { x := 4, y := 0, w := 2, h := 2 } m = some res) ∧
        ∀ res, findHall zeroEngine { x := 0, y := 0, w := 2, h := 2 }
            { x := 4, y := 0, w := 2, h := 2 } m = some res →
          Carves m res.1 hall ∧
          ((r1, c1) ≠ (r2, c2) ∨ (m.isEmptyCell (r1, c1) ∧ m.isEmptyCell (r2, c2)) →
            res.1.isEmptyCell (r1, c1) ∧ res.1.isEmptyCell (r2, c2))) ∧
    ∃ res, findHall zeroEngine { x := 0, y := 0, w := 2, h := 2 }
      { x := 4, y := 0, w := 2, h := 2 } lowMap = some res :=
  ⟨findHall_connects zeroEngine { x := 0, y := 0, w := 2, h := 2 }
      { x := 4, y := 0, w := 2, h := 2 } (by decide) (by decide) (by decide) (by decide),
    findHall_lowMap_returns zeroEngine⟩

/-! ## Drunkard walk -/

/-- What start does on a grid with at least one cell: it returns, the position is
a cell of the grid, and that cell is the only Empty cell of the grid. -/
theorem drunkard_start_spec (g : DrunkardWalkGenerator) (map : Map) (hrows : 1 ≤ map.rows)
    (hcols : 1 ≤ map.cols) :
    ∃ g0 m0, g.start map = some (g0, m0) ∧ m0.SameDims map ∧
      m0.validCoords g0.row g0.col = true ∧
      ∀ q, m0.isEmptyCell q ↔ q = (g0.row, g0.col) := by
  unfold DrunkardWalkGenerator.start
  obtain ⟨m1, hm1⟩ := fillBox_defined CellType.Wall 0 map.rows 0 map.cols map (by
    intro q hq
    rw [Map.validCoords_iff]
    exact hq)
  obtain ⟨_, hd1, hc1⟩ := fillBox_inv CellType.Wall 0 map.rows 0 map.cols map m1 hm1
  rw [hm1]
  simp only []
  obtain ⟨rowDraw, hrow⟩ := uniformInt_defined (a := 0) (b := (map.rows : Int) - 1) g.engine
    (by omega)
  have hr := uniformInt_some hrow
  rw [hrow]
  simp only []
  obtain ⟨colDraw, hcol⟩ := uniformInt_defined (a := 0) (b := (map.cols : Int) - 1) rowDraw.2
    (by omega)
  have hc := uniformInt_some hcol
  rw [hcol]
  simp only []
  have hvalid : m1.validCoords rowDraw.1 colDraw.1 = true := by
    rw [Map.validCoords_congr hd1, Map.validCoords_iff]
    omega
  rw [Map.set_eq_some _ hvalid]
  refine ⟨_, _, rfl, (Map.write_sameDims _ _ _).trans hd1, ?_, ?_⟩
  · rw [Map.validCoords_congr (Map.write_sameDims _ _ _)]
    exact hvalid
  · intro q
    unfold Map.isEmptyCell
    rw [Map.validCoords_congr (Map.write_sameDims _ _ _)]
    show (m1.validCoords q.1 q.2 = true ∧
      (if q = (rowDraw.1, colDraw.1) then CellType.Empty else m1.cells q) = CellType.Empty) ↔
      q = (rowDraw.1, colDraw.1)
    constructor
    · rintro ⟨hv, hcell⟩
      by_contra hne
      rw [if_neg hne, hc1 q] at hcell
      rw [Map.validCoords_congr hd1, Map.validCoords_iff] at hv
      rw [if_pos hv] at hcell
      cases hcell
    · intro hq
      rw [if_pos hq, hq]
      exact ⟨hvalid, rfl⟩

theorem pickDirection_range (map : Map) (row col : Int) :
    ∀ (fuel : Nat) (engine : Engine) (draw : Int × Engine),
      DrunkardWalkGenerator.pickDirection map row col fuel engine = some draw →
      0 ≤ draw.1 ∧ draw.1 ≤ 3 := by
  intro fuel
  induction fuel with
  | zero =>
    intro engine draw h
    unfold DrunkardWalkGenerator.pickDirection at h
    cases h
  | succ fuel ih =>
    intro engine draw h
    unfold DrunkardWalkGenerator.pickDirection at h
    cases hd : uniformInt 0 3 engine with
    | none => rw [hd] at h; cases h
    | some d =>
      rw [hd] at h
      simp only [] at h
      split at h
      · exact ih _ _ h
      · cases h
        exact uniformInt_some hd

theorem tableAt_adjacent (row col dir : Int) (h0 : 0 ≤ dir) (h3 : dir ≤ 3) :
    adjacent4 (row, col) (row + tableAt rowIndexes dir, col + tableAt colIndexes dir) := by
  have hcases : dir = 0 ∨ dir = 1 ∨ dir = 2 ∨ dir = 3 := by omega
  unfold adjacent4
  rcases hcases with h | h | h | h <;> subst h <;>
    simp [tableAt, rowIndexes, colIndexes]

/-- One step that returns: the new position is a cell of the grid next to the old
one, that cell is set to Empty and nothing else changes. -/
theorem drunkard_step_spec (g : DrunkardWalkGenerator) (fuel : Nat) (map : Map)
    (res : DrunkardWalkGenerator × Map) (h : g.step fuel map = some res) :
    map.validCoords res.1.row res.1.col = true ∧
    adjacent4 (g.row, g.col) (res.1.row, res.1.col) ∧
    res.2 = map.write (res.1.row, res.1.col) CellType.Empty := by
  unfold DrunkardWalkGenerator.step at h
  cases hp : DrunkardWalkGenerator.pickDirection map g.row g.col fuel g.engine with
  | none => rw [hp] at h; cases h
  | some draw =>
    rw [hp] at h
    simp only [] at h
    have hrange := pickDirection_range map g.row g.col fuel g.engine draw hp
    cases hs : map.set (g.row + tableAt rowIndexes draw.1) (g.col + tableAt colIndexes draw.1)
        CellType.Empty with
    | none => rw [hs] at h; cases h
    | some m' =>
      rw [hs] at h
      cases h
      have hv := Map.set_some_valid hs
      rw [Map.set_eq_some _ hv] at hs
      cases hs
      exact ⟨hv, tableAt_adjacent g.row g.col draw.1 hrange.1 hrange.2, rfl⟩

/-- Setting a cell next to an Empty cell to Empty keeps the Empty cells connected. -/
theorem connected_after_write (m : Map) (cur new : Int × Int)
    (hconn : Connected4 m.isEmptyCell) (hcur : m.isEmptyCell cur)
    (hnew : m.validCoords new.1 new.2 = true) (hadj : adjacent4 cur new) :
    Connected4 (m.write new CellType.Empty).isEmptyCell ∧
    (∀ q, m.isEmptyCell q → (m.write new CellType.Empty).isEmptyCell q) ∧
    (m.write new CellType.Empty).isEmptyCell new := by
  have hiff : ∀ q, (m.isEmptyCell q ∨ (q = cur ∨ q = new)) ↔
      (m.write new CellType.Empty).isEmptyCell q := by
    intro q
    unfold Map.isEmptyCell
    rw [Map.validCoords_congr (Map.write_sameDims m new CellType.Empty)]
    show _ ↔ (m.validCoords q.1 q.2 = true ∧
      (if q = new then CellType.Empty else m.cells q) = CellType.Empty)
    constructor
    · rintro (⟨hv, hc⟩ | hq | hq)
      · refine ⟨hv, ?_⟩
        split
        · rfl
        · exact hc
      · rw [hq]
        refine ⟨hcur.1, ?_⟩
        split
        · rfl
        · exact hcur.2
      · rw [hq]
        exact ⟨hnew, if_pos rfl⟩
    · rintro ⟨hv, hc⟩
      by_cases hq : q = new
      · exact Or.inr (Or.inr hq)
      · rw [if_neg hq] at hc
        exact Or.inl ⟨hv, hc⟩
  have hpair : Connected4 (fun q => q = cur ∨ q = new) := by
    intro p q hp hq
    rcases hp with hp | hp <;> rcases hq with hq | hq <;> subst hp <;> subst hq
    · exact reach_refl _ _
    · exact reach_step hadj (Or.inl rfl) (Or.inr rfl)
    · exact reach_step (adjacent4_symm hadj) (Or.inr rfl) (Or.inl rfl)
    · exact reach_refl _ _
  refine ⟨connected4_congr hiff (connected4_union hconn hpair cur hcur (Or.inl rfl)), ?_, ?_⟩
  · intro q hq
    exact (hiff q).mp (Or.inl hq)
  · exact (hiff new).mp (Or.inr (Or.inr rfl))

/-- The invariant of the walk is kept by every sequence of steps that return. -/
theorem drunkard_steps_invariant (start : Int × Int) :
    ∀ (fuels : List Nat) (g : DrunkardWalkGenerator) (m : Map)
      (res : DrunkardWalkGenerator × Map),
      Connected4 m.isEmptyCell → m.isEmptyCell start → m.isEmptyCell (g.row, g.col) →
      DrunkardWalkGenerator.steps fuels g m = some res →
      Connected4 res.2.isEmptyCell ∧ res.2.isEmptyCell start ∧
        res.2.isEmptyCell (res.1.row, res.1.col) := by
  intro fuels
  induction fuels with
  | nil =>
    intro g m res hconn hstart hcur h
    unfold DrunkardWalkGenerator.steps at h
    cases h
    exact ⟨hconn, hstart, hcur⟩
  | cons fuel rest ih =>
    intro g m res hconn hstart hcur h
    unfold DrunkardWalkGenerator.steps at h
    cases hs : g.step fuel m with
    | none => rw [hs] at h; cases h
    | some s =>
      rw [hs] at h
      simp only [] at h
      obtain ⟨hv, hadj, hm⟩ := drunkard_step_spec g fuel m s hs
      obtain ⟨hc', hkeep, hnew⟩ := connected_after_write m (g.row, g.col) (s.1.row, s.1.col)
        hconn hcur hv hadj
      rw [← hm] at hc' hkeep hnew
      exact ih s.1 s.2 res hc' (hkeep start hstart) hnew h

/-- A run of generate that returns is a sequence of steps that return. -/
theorem drunkard_generate_steps (stepFuel : Nat) :
    ∀ (loopFuel : Nat) (g : DrunkardWalkGenerator) (m : Map)
      (res : DrunkardWalkGenerator × Map),
      DrunkardWalkGenerator.generate stepFuel loopFuel g m = some res →
      ∃ fuels, DrunkardWalkGenerator.steps fuels g m = some res := by
  intro loopFuel
  induction loopFuel with
  | zero =>
    intro g m res h
    unfold DrunkardWalkGenerator.generate at h
    split at h
    · cases h
    · exact ⟨[], h⟩
  | succ n ih =>
    intro g m res h
    unfold DrunkardWalkGenerator.generate at h
    split at h
    · simp only [] at h
      cases hs : g.step stepFuel m with
      | none => rw [hs] at h; cases h
      | some s =>
        rw [hs] at h
        simp only [] at h
        obtain ⟨fuels, hf⟩ := ih s.1 s.2 res h
        refine ⟨stepFuel :: fuels, ?_⟩
        unfold DrunkardWalkGenerator.steps
        rw [hs]
        exact hf
    · exact ⟨[], h⟩

/-- C2. On a grid with at least one cell and for every engine, start returns,
and after any sequence of step calls that return (hence whenever generate
returns) the Empty cells of the grid form a single 4-connected region that
contains the start cell and the current position. -/
theorem drunkard_walk_connected (g : DrunkardWalkGenerator) (map : Map)
    (hrows : 1 ≤ map.rows) (hcols : 1 ≤ map.cols) :
    ∃ g0 m0, g.start map = some (g0, m0) ∧
      (∀ (fuels : List Nat) (res : DrunkardWalkGenerator × Map),
        DrunkardWalkGenerator.steps fuels g0 m0 = some res →
        Connected4 res.2.isEmptyCell ∧ res.2.isEmptyCell (g0.row, g0.col) ∧
          res.2.isEmptyCell (res.1.row, res.1.col)) ∧
      (∀ (stepFuel loopFuel : Nat) (res : DrunkardWalkGenerator × Map),
        DrunkardWalkGenerator.generate stepFuel loopFuel g0 m0 = some res →
        Connected4 res.2.isEmptyCell ∧ res.2.isEmptyCell (g0.row, g0.col) ∧
          res.2.isEmptyCell (res.1.row, res.1.col)) := by
  obtain ⟨g0, m0, hstart, _, _, hempty⟩ := drunkard_start_spec g map hrows hcols
  have hconn : Connected4 m0.isEmptyCell := by
    intro p q hp hq
    rw [(hempty p).mp hp, (hempty q).mp hq]
    exact reach_refl _ _
  have hcur : m0.isEmptyCell (g0.row, g0.col) := (hempty _).mpr rfl
  have hsteps : ∀ (fuels : List Nat) (res : DrunkardWalkGenerator × Map),
      DrunkardWalkGenerator.steps fuels g0 m0 = some res →
      Connected4 res.2.isEmptyCell ∧ res.2.isEmptyCell (g0.row, g0.col) ∧
        res.2.isEmptyCell (res.1.row, res.1.col) :=
    fun fuels res h =>
      drunkard_steps_invariant (g0.row, g0.col) fuels g0 m0 res hconn hcur hcur h
  refine ⟨g0, m0, hstart, hsteps, ?_⟩
  intro stepFuel loopFuel res h
  obtain ⟨fuels, hf⟩ := drunkard_generate_steps stepFuel loopFuel g0 m0 res h
  exact hsteps fuels res hf

/-- Witness for C2: the walk on the 3 x 4 sample grid. -/
theorem drunkard_walk_connected_witness :
    1 ≤ sampleMap.rows ∧ 1 ≤ sampleMap.cols ∧
    ∃ g0 m0, sampleWalker.start sampleMap = some (g0, m0) ∧
      (∀ (fuels : List Nat) (res : DrunkardWalkGenerator × Map),
        DrunkardWalkGenerator.steps fuels g0 m0 = some res →
        Connected4 res.2.isEmptyCell ∧ res.2.isEmptyCell (g0.row, g0.col) ∧
          res.2.isEmptyCell (res.1.row, res.1.col)) ∧
      (∀ (stepFuel loopFuel : Nat) (res : DrunkardWalkGenerator × Map),
        DrunkardWalkGenerator.generate stepFuel loopFuel g0 m0 = some res →
        Connected4 res.2.isEmptyCell ∧ res.2.isEmptyCell (g0.row, g0.col) ∧
          res.2.isEmptyCell (res.1.row, res.1.col)) :=
  ⟨by decide, by decide, drunkard_walk_connected sampleWalker sampleMap (by decide) (by decide)⟩

/-- A run of the walk on the 3 x 4 sample grid with the all-zero engine: start
picks cell (0, 0) and three steps move east to (0, 3). -/
theorem drunkard_sample_run :
    ((sampleWalker.start sampleMap).bind
      (fun s => DrunkardWalkGenerator.steps [1, 1, 1] s.1 s.2)).map
        (fun r => (r.1.row, r.1.col, r.2.cells (0, 2), r.2.cells (1, 2))) =
      some (0, 3, CellType.Empty, CellType.Wall) := by
  decide

/-- On the same run a fourth step with fuel 1 does not return: the all-zero
engine keeps drawing east, which leaves the grid. -/
theorem drunkard_sample_run_rejected :
    ((sampleWalker.start sampleMap).bind
      (fun s => DrunkardWalkGenerator.steps [1, 1, 1, 1] s.1 s.2)).isSome = false := by
  decide

/-! ## BSP: rooms of a subtree -/

theorem isNull_eq_true {t : BSPTree} (h : t.isNull = true) : t = BSPTree.null := by
  cases t with
  | null => rfl
  | node _ _ _ _ => cases h

/-- What getRoom returns on a tree whose rooms all satisfy G: null when the tree
records no room cell, and otherwise a node with a room that satisfies G and whose
cells are room cells of the tree. -/
theorem getRoom_spec (G : BSPRect → Prop) :
    ∀ (t : BSPTree), t.Partition (fun _ r => ∀ rect, r = some rect → G rect) →
      ∀ engine : Engine,
        ((t.getRoom engine).1.isNull = true ∧ ∀ q, ¬ t.roomCells q) ∨
        (∃ rect, (t.getRoom engine).1.isNull = false ∧
          (t.getRoom engine).1.room = some rect ∧ G rect ∧
          ∀ q, hallBox rect q → t.roomCells q) := by
  intro t
  induction t with
  | null => intro ht; exact absurd ht id
  | node area room left right ihl ihr =>
    intro ht engine
    unfold BSPTree.Partition at ht
    cases room with
    | some rect =>
      right
      refine ⟨rect, rfl, rfl, ?_, ?_⟩
      · rcases ht with ⟨_, _, hp⟩ | ⟨_, _, hroom, _, _⟩
        · exact hp rect rfl
        · cases hroom
      · intro q hq
        unfold BSPTree.roomCells
        exact Or.inl ⟨rect, rfl, hq⟩
    | none =>
      rcases ht with ⟨hl, hr, _⟩ | ⟨hl, hr, _, hpl, hpr⟩
      · left
        rw [isNull_eq_true hl, isNull_eq_true hr]
        refine ⟨rfl, ?_⟩
        intro q hq
        unfold BSPTree.roomCells at hq
        rcases hq with ⟨rect, hrect, _⟩ | hq | hq
        · cases hrect
        · exact hq
        · exact hq
      · have hL := ihl hpl engine
        have hR := ihr hpr (left.getRoom engine).2
        have hcells : ∀ q, (BSPTree.node area none left right).roomCells q ↔
            left.roomCells q ∨ right.roomCells q := by
          intro q
          constructor
          · intro hq
            unfold BSPTree.roomCells at hq
            rcases hq with ⟨rect, hrect, _⟩ | hq
            · cases hrect
            · exact hq
          · intro hq
            unfold BSPTree.roomCells
            exact Or.inr hq
        rw [BSPTree.getRoom]
        simp only []
        rcases hL with ⟨hln, hlc⟩ | ⟨rectL, hln, hlroom, hlG, hlc⟩
        · rcases hR with ⟨hrn, hrc⟩ | ⟨rectR, hrn, hrroom, hrG, hrc⟩
          · left
            rw [hln, hrn]
            refine ⟨rfl, ?_⟩
            intro q hq
            rcases (hcells q).mp hq with h | h
            · exact hlc q h
            · exact hrc q h
          · right
            rw [hln, hrn]
            exact ⟨rectR, hrn, hrroom, hrG, fun q hq => (hcells q).mpr (Or.inr (hrc q hq))⟩
        · rcases hR with ⟨hrn, hrc⟩ | ⟨rectR, hrn, hrroom, hrG, hrc⟩
          · right
            rw [hln, hrn]
            exact ⟨rectL, hln, hlroom, hlG, fun q hq => (hcells q).mpr (Or.inl (hlc q hq))⟩
          · right
            rw [hln, hrn]
            simp only [Bool.false_and, Bool.false_eq_true, if_false]
            split
            · exact ⟨rectL, hln, hlroom, hlG, fun q hq => (hcells q).mpr (Or.inl (hlc q hq))⟩
            · exact ⟨rectR, hrn, hrroom, hrG, fun q hq => (hcells q).mpr (Or.inr (hrc q hq))⟩

/-! ## BSP: the populate phase -/

theorem uniformReal_nonneg (engine : Engine) : 0 ≤ (uniformReal engine).1 := by
  unfold uniformReal
  simp only []
  exact div_nonneg (Nat.cast_nonneg _) (Nat.cast_nonneg _)

theorem populate_leaf (config : BSPConfig) (area : BSPRect) (room : Option BSPRect)
    (left right : BSPTree) (map : Map) (engine : Engine)
    (hl : left.isNull = true) (hr : right.isNull = true) :
    populate config (BSPTree.node area room left right) map engine =
      populateLeaf config (BSPTree.node area room left right) map engine := by
  rw [isNull_eq_true hl, isNull_eq_true hr]
  rfl

theorem populate_inner (config : BSPConfig) (area : BSPRect) (room : Option BSPRect)
    (left right : BSPTree) (map : Map) (engine : Engine)
    (hl : left.isNull = false) (hr : right.isNull = false) :
    populate config (BSPTree.node area room left right) map engine =
      match populate config left map engine with
      | none => none
      | some l =>
        match populate config right l.2.1 l.2.2 with
        | none => none
        | some r => some (BSPTree.node area room l.1 r.1, r.2.1, r.2.2) := by
  cases left with
  | null => cases hl
  | node la lroom ll lr =>
    cases right with
    | null => cases hr
    | node ra rroom rl rr =>
      rw [populate]
      intro hnull
      cases hnull

theorem fitsRoom_congr {a b : Map} (h : a.SameDims b) (rect : BSPRect)
    (hf : a.fitsRoom rect) : b.fitsRoom rect :=
  ⟨hf.1, hf.2.1, fun q hq => by rw [← Map.validCoords_congr h]; exact hf.2.2 q hq⟩

/-- The populate phase on a tree of roomless leaves that lie inside the grid and
are large enough for the largest room: it returns, every recorded room can serve
findHall and keeps its margin, no leaf is skipped when emptyRoomProbability is
not positive, and exactly the cells of the recorded rooms are set to Empty. -/
theorem populate_spec (config : BSPConfig) (m0 : Map)
    (hh : config.minRoomHeight ≤ config.maxRoomHeight)
    (hw : config.minRoomWidth ≤ config.maxRoomWidth)
    (h2w : 2 ≤ config.minRoomWidth) (h2h : 2 ≤ config.minRoomHeight) :
    ∀ t : BSPTree,
      t.Partition (fun a r => r = none ∧ config.maxRoomWidth ≤ a.w - 2 ∧
        config.maxRoomHeight ≤ a.h - 2 ∧ m0.holds a) →
      ∀ (m : Map) (engine : Engine), m.SameDims m0 →
        ∃ res, populate config t m engine = some res ∧ res.2.1.SameDims m0 ∧
          res.1.Partition (fun a r =>
            (∀ rect, r = some rect → m0.fitsRoom rect ∧ roomMargin a rect) ∧
            (config.emptyRoomProbability ≤ 0 → r ≠ none)) ∧
          (∀ q, res.1.roomCells q → res.2.1.cells q = CellType.Empty) ∧
          (∀ q, ¬ res.1.roomCells q → res.2.1.cells q = m.cells q) := by
  intro t
  induction t with
  | null => intro ht; exact absurd ht id
  | node area room left right ihl ihr =>
    intro ht m engine hm
    unfold BSPTree.Partition at ht
    rcases ht with ⟨hl, hr, hroom, hmw, hmh, hgrid⟩ | ⟨hl, hr, hroom, hpl, hpr⟩
    · have hgrid' : m.holds area := by
        unfold Map.holds at hgrid ⊢
        rw [hm.1, hm.2]
        exact hgrid
      obtain ⟨res, hres⟩ := populateLeaf_defined config area room left right m engine hh hw
        hmw hmh hgrid'
      refine ⟨res, ?_, ?_⟩
      · rw [populate_leaf config area room left right m engine hl hr]
        exact hres
      · rcases populateLeaf_cases config area room left right m engine res hres with
          ⟨hskip, hsame⟩ | ⟨hnoskip, rh, rw', dx, dy, hrh, hrw, hdx, hdy, hnode, hfill⟩
        · rw [hsame]
          have hnocell : ∀ q, ¬ (BSPTree.node area room left right).roomCells q := by
            intro q hq
            unfold BSPTree.roomCells at hq
            rw [hroom, isNull_eq_true hl, isNull_eq_true hr] at hq
            rcases hq with ⟨rect, hrect, _⟩ | hq | hq
            · cases hrect
            · exact hq
            · exact hq
          refine ⟨hm, ?_, fun q hq => absurd hq (hnocell q), fun q _ => rfl⟩
          unfold BSPTree.Partition
          refine Or.inl ⟨hl, hr, ?_, ?_⟩
          · intro rect hrect
            rw [hroom] at hrect
            cases hrect
          · intro hprob
            exfalso
            have := uniformReal_nonneg engine
            exact absurd (lt_of_lt_of_le hskip hprob) (not_lt.mpr this)
        · obtain ⟨hvalid, hd, hc⟩ := fillBox_inv CellType.Empty _ _ _ _ m res.2.1 hfill
          have hcells : ∀ q, res.1.roomCells q ↔
              inBox (area.y + dy) (area.y + dy + rh + 1) (area.x + dx) (area.x + dx + rw' + 1)
                q := by
            intro q
            rw [hnode]
            unfold BSPTree.roomCells
            rw [isNull_eq_true hl, isNull_eq_true hr]
            constructor
            · rintro (⟨rect, hrect, hq⟩ | hq | hq)
              · cases hrect
                exact hq
              · exact absurd hq id
              · exact absurd hq id
            · intro hq
              exact Or.inl ⟨_, rfl, hq⟩
          refine ⟨hd.trans hm, ?_, ?_, ?_⟩
          · rw [hnode]
            unfold BSPTree.Partition
            refine Or.inl ⟨hl, hr, ?_, fun _ hnone => by cases hnone⟩
            intro rect hrect
            cases hrect
            refine ⟨⟨by simp only []; omega, by simp only []; omega, ?_⟩, ?_⟩
            · intro q hq
              rw [← Map.validCoords_congr hm]
              exact hvalid q hq
            · unfold roomMargin
              simp only []
              omega
          · intro q hq
            rw [hc q, if_pos ((hcells q).mp hq)]
          · intro q hq
            rw [hc q, if_neg (fun h => hq ((hcells q).mpr h))]
    · obtain ⟨l, hlres, hld, hlp, hlset, hlkeep⟩ := ihl hpl m engine hm
      obtain ⟨r, hrres, hrd, hrp, hrset, hrkeep⟩ := ihr hpr l.2.1 l.2.2 hld
      have hnl : l.1.isNull = false := by
        cases hl1 : l.1 with
        | null => rw [hl1] at hlp; exact absurd hlp id
        | node _ _ _ _ => rfl
      have hnr : r.1.isNull = false := by
        cases hr1 : r.1 with
        | null => rw [hr1] at hrp; exact absurd hrp id
        | node _ _ _ _ => rfl
      have hcells : ∀ q, (BSPTree.node area room l.1 r.1).roomCells q ↔
          l.1.roomCells q ∨ r.1.roomCells q := by
        intro q
        rw [hroom]
        constructor
        · intro hq
          unfold BSPTree.roomCells at hq
          rcases hq with ⟨rect, hrect, _⟩ | hq
          · cases hrect
          · exact hq
        · intro hq
          unfold BSPTree.roomCells
          exact Or.inr hq
      refine ⟨(BSPTree.node area room l.1 r.1, r.2.1, r.2.2), ?_, hrd, ?_, ?_, ?_⟩
      · rw [populate_inner config area room left right m engine hl hr, hlres]
        simp only []
        rw [hrres]
      · unfold BSPTree.Partition
        exact Or.inr ⟨hnl, hnr, hroom, hlp, hrp⟩
      · intro q hq
        show r.2.1.cells q = CellType.Empty
        by_cases hqr : r.1.roomCells q
        · exact hrset q hqr
        · rw [hrkeep q hqr]
          rcases (hcells q).mp hq with h | h
          · exact hlset q h
          · exact absurd h hqr
      · intro q hq
        show r.2.1.cells q = m.cells q
        rw [hrkeep q (fun h => hq ((hcells q).mpr (Or.inr h))),
          hlkeep q (fun h => hq ((hcells q).mpr (Or.inl h)))]

/-! ## BSP: the connect phase -/

/-- Two connected sets bridged by a connected corridor that starts in the first
and ends in the second form a connected set. -/
theorem connected4_bridge {A B C : Int × Int → Prop} (p1 p2 : Int × Int)
    (hA : Connected4 A) (hB : Connected4 B) (hC : Connected4 C) (hp1 : A p1) (hp2 : B p2)
    (hends : ∀ x, C x → C p1 ∧ C p2) (hreach : Reach C p1 p2) :
    Connected4 (fun q => A q ∨ B q ∨ C q) := by
  by_cases hne : ∃ x, C x
  · obtain ⟨x, hx⟩ := hne
    obtain ⟨hc1, hc2⟩ := hends x hx
    have hAC : Connected4 (fun q => A q ∨ C q) := connected4_union hA hC p1 hp1 hc1
    have hACB : Connected4 (fun q => (A q ∨ C q) ∨ B q) :=
      connected4_union hAC hB p2 (Or.inr hc2) hp2
    exact connected4_congr (fun q => by tauto) hACB
  · have hsame : p1 = p2 := by
      by_contra hdiff
      exact hne ⟨p1, (reach_ends hreach hdiff).1⟩
    have hAB : Connected4 (fun q => A q ∨ B q) :=
      connected4_union hA hB p1 hp1 (by rw [hsame]; exact hp2)
    refine connected4_congr (fun q => ?_) hAB
    constructor
    · rintro (h | h)
      · exact Or.inl h
      · exact Or.inr (Or.inl h)
    · rintro (h | h | h)
      · exact Or.inl h
      · exact Or.inr h
      · exact absurd ⟨q, h⟩ hne

theorem connected4_of_empty {S : Int × Int → Prop} (h : ∀ q, ¬ S q) : Connected4 S :=
  fun p _ hp _ => absurd hp (h p)

theorem partition_not_null {P : BSPRect → Option BSPRect → Prop} {t : BSPTree}
    (h : t.Partition P) : t.isNull = false := by
  cases t with
  | null => exact absurd h id
  | node _ _ _ _ => rfl

theorem roomCells_inner (area : BSPRect) (left right : BSPTree) (q : Int × Int) :
    (BSPTree.node area none left right).roomCells q ↔
      left.roomCells q ∨ right.roomCells q := by
  constructor
  · intro hq
    unfold BSPTree.roomCells at hq
    rcases hq with ⟨rect, hrect, _⟩ | hq
    · cases hrect
    · exact hq
  · intro hq
    unfold BSPTree.roomCells
    exact Or.inr hq

/-- The connect phase on a populated tree whose rooms can all serve findHall: it
returns, it only sets cells of the grid to Empty, the rooms of the tree together
with the cells it has set form a connected set, and it sets no cell when the tree
has no room. -/
theorem createHalls_spec (m0 : Map) :
    ∀ t : BSPTree, t.Partition (fun _ r => ∀ rect, r = some rect → m0.fitsRoom rect) →
      ∀ (m : Map) (engine : Engine), m.SameDims m0 →
        ∃ (res : Map × Engine) (hall : Int × Int → Prop),
          createHalls t engine m = some res ∧ res.1.SameDims m0 ∧
          (∀ x, hall x → m0.validCoords x.1 x.2 = true) ∧
          (∀ x, hall x → res.1.cells x = CellType.Empty) ∧
          (∀ x, ¬ hall x → res.1.cells x = m.cells x) ∧
          Connected4 (fun q => t.roomCells q ∨ hall q) ∧
          (∀ x, hall x → ∃ y, t.roomCells y) := by
  intro t
  induction t with
  | null => intro ht; exact absurd ht id
  | node area room left right ihl ihr =>
    intro ht m engine hm
    unfold BSPTree.Partition at ht
    rcases ht with ⟨hl, hr, _⟩ | ⟨hl, hr, hroom, hpl, hpr⟩
    · refine ⟨(m, engine), fun _ => False, ?_, hm, fun x hx => absurd hx id,
        fun x hx => absurd hx id, fun x _ => rfl, ?_, fun x hx => absurd hx id⟩
      · unfold createHalls
        rw [hl, hr]
        rfl
      · have hbox : Connected4 (BSPTree.node area room left right).roomCells := by
          cases room with
          | none =>
            apply connected4_of_empty
            intro q hq
            rw [roomCells_inner, isNull_eq_true hl, isNull_eq_true hr] at hq
            rcases hq with hq | hq
            · exact hq
            · exact hq
          | some rect =>
            refine connected4_congr (fun q => ?_) (connected4_box rect.y (rect.y + rect.h + 1)
              rect.x (rect.x + rect.w + 1))
            unfold BSPTree.roomCells
            rw [isNull_eq_true hl, isNull_eq_true hr]
            constructor
            · intro hq
              exact Or.inl ⟨rect, rfl, hq⟩
            · rintro (⟨rect', hrect, hq⟩ | hq | hq)
              · cases hrect
                exact hq
              · exact absurd hq id
              · exact absurd hq id
        exact connected4_congr (fun q => ⟨fun h => Or.inl h, fun h => h.elim id (fun f => f.elim)⟩)
          hbox
    · subst hroom
      obtain ⟨s1, hallL, hs1, hd1, hv1, hset1, hkeep1, hconn1, hrooms1⟩ := ihl hpl m engine hm
      obtain ⟨s2, hallR, hs2, hd2, hv2, hset2, hkeep2, hconn2, hrooms2⟩ :=
        ihr hpr s1.1 s1.2 hd1
      have hL := getRoom_spec m0.fitsRoom left hpl s2.2
      have hR := getRoom_spec m0.fitsRoom right hpr (left.getRoom s2.2).2
      have hunfold : createHalls (BSPTree.node area none left right) engine m =
          (if (!(left.getRoom s2.2).1.isNull && !(right.getRoom (left.getRoom s2.2).2).1.isNull)
              = true then
            match (left.getRoom s2.2).1.room, (right.getRoom (left.getRoom s2.2).2).1.room with
            | some room1, some room2 =>
                findHall (right.getRoom (left.getRoom s2.2).2).2 room1 room2 s2.1
            | _, _ => none
          else some (s2.1, (right.getRoom (left.getRoom s2.2).2).2)) := by
        rw [createHalls]
        simp only [hl, hr, Bool.not_false, Bool.or_self, Bool.and_self, if_true, hs1, hs2]
      rw [hunfold]
      have hset12 : ∀ x, hallL x ∨ hallR x → s2.1.cells x = CellType.Empty := by
        intro x hx
        by_cases hxr : hallR x
        · exact hset2 x hxr
        · rw [hkeep2 x hxr]
          rcases hx with h | h
          · exact hset1 x h
          · exact absurd h hxr
      have hkeep12 : ∀ x, ¬ (hallL x ∨ hallR x) → s2.1.cells x = m.cells x := by
        intro x hx
        rw [hkeep2 x (fun h => hx (Or.inr h)), hkeep1 x (fun h => hx (Or.inl h))]
      have hnohall : ∀ (res : Map × Engine), res.1 = s2.1 →
          Connected4 (fun q => (BSPTree.node area none left right).roomCells q ∨
            (hallL q ∨ hallR q)) →
          ∃ (res' : Map × Engine) (hall : Int × Int → Prop),
            some res = some res' ∧ res'.1.SameDims m0 ∧
            (∀ x, hall x → m0.validCoords x.1 x.2 = true) ∧
            (∀ x, hall x → res'.1.cells x = CellType.Empty) ∧
            (∀ x, ¬ hall x → res'.1.cells x = m.cells x) ∧
            Connected4 (fun q => (BSPTree.node area none left right).roomCells q ∨ hall q) ∧
            (∀ x, hall x → ∃ y, (BSPTree.node area none left right).roomCells y) := by
        intro res hres hconn
        refine ⟨res, fun q => hallL q ∨ hallR q, rfl, by rw [hres]; exact hd2, ?_, ?_, ?_,
          hconn, ?_⟩
        · rintro x (h | h)
          · exact hv1 x h
          · exact hv2 x h
        · intro x hx
          rw [hres]
          exact hset12 x hx
        · intro x hx
          rw [hres]
          exact hkeep12 x hx
        · rintro x (h | h)
          · obtain ⟨y, hy⟩ := hrooms1 x h
            exact ⟨y, (roomCells_inner area left right y).mpr (Or.inl hy)⟩
          · obtain ⟨y, hy⟩ := hrooms2 x h
            exact ⟨y, (roomCells_inner area left right y).mpr (Or.inr hy)⟩
      rcases hL with ⟨hln, hlc⟩ | ⟨rectL, hln, hlroom, hlG, hlc⟩
      · rw [hln]
        simp only [Bool.not_true, Bool.false_and, Bool.false_eq_true, if_false]
        refine hnohall (s2.1, (right.getRoom (left.getRoom s2.2).2).2) rfl ?_
        have hemptyL : ∀ q, ¬ (left.roomCells q ∨ hallL q) := by
          rintro q (h | h)
          · exact hlc q h
          · obtain ⟨y, hy⟩ := hrooms1 q h
            exact hlc y hy
        refine connected4_congr (fun q => ?_) hconn2
        rw [roomCells_inner]
        constructor
        · rintro (h | h)
          · exact Or.inl (Or.inr h)
          · exact Or.inr (Or.inr h)
        · rintro ((h | h) | (h | h))
          · exact absurd (Or.inl h) (hemptyL q)
          · exact Or.inl h
          · exact absurd (Or.inr h) (hemptyL q)
          · exact Or.inr h
      · rcases hR with ⟨hrn, hrc⟩ | ⟨rectR, hrn, hrroom, hrG, hrc⟩
        · rw [hln, hrn]
          simp only [Bool.not_true, Bool.and_false, Bool.false_eq_true, if_false]
          refine hnohall (s2.1, (right.getRoom (left.getRoom s2.2).2).2) rfl ?_
          have hemptyR : ∀ q, ¬ (right.roomCells q ∨ hallR q) := by
            rintro q (h | h)
            · exact hrc q h
            · obtain ⟨y, hy⟩ := hrooms2 q h
              exact hrc y hy
          refine connected4_congr (fun q => ?_) hconn1
          rw [roomCells_inner]
          constructor
          · rintro (h | h)
            · exact Or.inl (Or.inl h)
            · exact Or.inr (Or.inl h)
          · rintro ((h | h) | (h | h))
            · exact Or.inl h
            · exact absurd (Or.inl h) (hemptyR q)
            · exact Or.inr h
            · exact absurd (Or.inr h) (hemptyR q)
        · rw [hln, hrn, hlroom, hrroom]
          simp only [Bool.not_false, Bool.and_self, if_true]
          obtain ⟨r1, c1, r2, c2, e', hallC, _, hp1, hp2, ⟨hvC, hconnC, hendsC, hreachC⟩,
            hcarveC⟩ :=
            findHall_path (right.getRoom (left.getRoom s2.2).2).2 rectL rectR m0 hlG hrG
          obtain ⟨res, hfind, hdC, hsetC, hkeepC⟩ := hcarveC s2.1 hd2
          have hin1 : left.roomCells (r1, c1) := by
            apply hlc
            unfold hallBox inBox
            simp only []
            omega
          have hin2 : right.roomCells (r2, c2) := by
            apply hrc
            unfold hallBox inBox
            simp only []
            omega
          refine ⟨res, fun q => hallL q ∨ hallR q ∨ hallC q, hfind, hdC.trans hd2, ?_, ?_, ?_,
            ?_, ?_⟩
          · rintro x (h | h | h)
            · exact hv1 x h
            · exact hv2 x h
            · exact hvC x h
          · intro x hx
            by_cases hxc : hallC x
            · exact hsetC x hxc
            · rw [hkeepC x hxc]
              apply hset12
              rcases hx with h | h | h
              · exact Or.inl h
              · exact Or.inr h
              · exact absurd h hxc
          · intro x hx
            rw [hkeepC x (fun h => hx (Or.inr (Or.inr h)))]
            apply hkeep12
            rintro (h | h)
            · exact hx (Or.inl h)
            · exact hx (Or.inr (Or.inl h))
          · have hbridge := connected4_bridge (r1, c1) (r2, c2) hconn1 hconn2 hconnC
              (Or.inl hin1) (Or.inl hin2) hendsC hreachC
            refine connected4_congr (fun q => ?_) hbridge
            rw [roomCells_inner]
            tauto
          · intro x _
            exact ⟨(r1, c1), (roomCells_inner area left right _).mpr (Or.inl hin1)⟩

/-! ## BSP: the whole run -/

theorem partition_allLeaves {P : BSPRect → Option BSPRect → Prop} :
    ∀ t : BSPTree, t.Partition P → t.AllLeaves (fun leaf => P leaf.area leaf.room) := by
  intro t
  induction t with
  | null => intro ht; exact ht
  | node area room left right ihl ihr =>
    intro ht
    unfold BSPTree.Partition at ht
    unfold BSPTree.AllLeaves
    rcases ht with ⟨hl, hr, hp⟩ | ⟨hl, hr, _, hpl, hpr⟩
    · exact Or.inl ⟨hl, hr, hp⟩
    · exact Or.inr ⟨hl, hr, ihl hpl, ihr hpr⟩

/-- A tree all of whose leaves hold a room records at least one room cell. -/
theorem partition_has_room_cell :
    ∀ t : BSPTree,
      t.Partition (fun _ r => ∃ rect, r = some rect ∧ 2 ≤ rect.w ∧ 2 ≤ rect.h) →
      ∃ q, t.roomCells q := by
  intro t
  induction t with
  | null => intro ht; exact absurd ht id
  | node area room left right ihl _ =>
    intro ht
    unfold BSPTree.Partition at ht
    rcases ht with ⟨_, _, rect, hrect, hw, hh⟩ | ⟨_, _, _, hpl, _⟩
    · refine ⟨(rect.y, rect.x), ?_⟩
      unfold BSPTree.roomCells
      refine Or.inl ⟨rect, hrect, ?_⟩
      unfold hallBox inBox
      simp only []
      omega
    · obtain ⟨q, hq⟩ := ihl hpl
      refine ⟨q, ?_⟩
      unfold BSPTree.roomCells
      exact Or.inr (Or.inl hq)

/-- What start does: it returns with a single roomless root that covers the grid
and a grid of the same size whose cells are all Wall. -/
theorem bsp_start_spec (g : BSPGenerator) (map : Map) :
    ∃ g1 m1, g.start map = some (g1, m1) ∧ g1.config = g.config ∧
      g1.splitEngine = g.splitEngine ∧
      g1.generatedTree = BSPTree.node { x := 0, y := 0, w := map.cols, h := map.rows } none
        BSPTree.null BSPTree.null ∧
      m1.SameDims map ∧ ∀ q, m1.validCoords q.1 q.2 = true → m1.cells q = CellType.Wall := by
  obtain ⟨m1, hm1⟩ := fillBox_defined CellType.Wall 0 map.rows 0 map.cols map (by
    intro q hq
    rw [Map.validCoords_iff]
    exact hq)
  obtain ⟨_, hd1, hc1⟩ := fillBox_inv CellType.Wall 0 map.rows 0 map.cols map m1 hm1
  refine ⟨⟨g.config, BSPTree.node ⟨0, 0, map.cols, map.rows⟩ none BSPTree.null BSPTree.null,
    g.splitEngine⟩, m1, ?_, rfl, rfl, rfl, hd1, ?_⟩
  · unfold BSPGenerator.start
    rw [hm1]
  · intro q hq
    rw [Map.validCoords_congr hd1, Map.validCoords_iff] at hq
    rw [hc1 q, if_pos hq]

/-- The whole BSP run on a grid that is at least as large as the minimum leaf,
with room sizes between 2 and the minimum leaf size minus 2: start and generate
return, and the grid after generate is the grid after start with exactly the
cells of the recorded rooms and of a set `hall` of corridor cells set to Empty;
all these cells are cells of the grid, they form a connected set, and corridor
cells exist only when some room does. -/
theorem bsp_generate_cells (g : BSPGenerator) (map : Map) (fuel : Nat)
    (hcols : g.config.minWidth ≤ (map.cols : Int))
    (hrows : g.config.minHeight ≤ (map.rows : Int))
    (hw : 2 ≤ g.config.minRoomWidth ∧ g.config.minRoomWidth ≤ g.config.maxRoomWidth ∧
      g.config.maxRoomWidth ≤ g.config.minWidth - 2)
    (hh : 2 ≤ g.config.minRoomHeight ∧ g.config.minRoomHeight ≤ g.config.maxRoomHeight ∧
      g.config.maxRoomHeight ≤ g.config.minHeight - 2)
    (hfuel : map.cols + map.rows < fuel) :
    ∃ (g1 : BSPGenerator) (m1 : Map) (g2 : BSPGenerator) (m2 : Map)
      (hall : Int × Int → Prop),
      g.start map = some (g1, m1) ∧ g1.generate fuel m1 = some (g2, m2) ∧
      m1.SameDims map ∧ m2.SameDims map ∧
      (∀ q, m1.validCoords q.1 q.2 = true → m1.cells q = CellType.Wall) ∧
      g2.generatedTree.Partition (fun a r =>
        (∀ rect, r = some rect → map.fitsRoom rect ∧ roomMargin a rect) ∧
        (g.config.emptyRoomProbability ≤ 0 → r ≠ none)) ∧
      (∀ q, g2.generatedTree.roomCells q ∨ hall q → map.validCoords q.1 q.2 = true) ∧
      (∀ q, g2.generatedTree.roomCells q ∨ hall q → m2.cells q = CellType.Empty) ∧
      (∀ q, ¬ (g2.generatedTree.roomCells q ∨ hall q) → m2.cells q = m1.cells q) ∧
      Connected4 (fun q => g2.generatedTree.roomCells q ∨ hall q) ∧
      (∀ q, hall q → ∃ y, g2.generatedTree.roomCells y) := by
  obtain ⟨g1, m1, hstart, hg1c, hg1e, hg1t, hd1, hwall⟩ := bsp_start_spec g map
  have hminW : 1 ≤ g.config.minWidth := by omega
  have hminH : 1 ≤ g.config.minHeight := by omega
  obtain ⟨s, hs⟩ := split_defined g.config hminW hminH fuel
    { x := 0, y := 0, w := map.cols, h := map.rows } none BSPTree.null BSPTree.null
    g.splitEngine (by simp only [Int.toNat_ofNat]; exact hfuel)
  have hsplit := (split_tree g.config (by omega) (by omega) fuel
    { x := 0, y := 0, w := map.cols, h := map.rows } none g.splitEngine s hcols hrows hs).2 rfl
  have hleaves : s.1.Partition (fun a r => r = none ∧ g.config.maxRoomWidth ≤ a.w - 2 ∧
      g.config.maxRoomHeight ≤ a.h - 2 ∧ map.holds a) := by
    refine partition_mono ?_ s.1 hsplit
    intro a r ⟨hr, haw, hah, hin⟩
    refine ⟨hr, by omega, by omega, ?_⟩
    unfold BSPRect.within at hin
    unfold Map.holds
    simp only [] at hin
    omega
  obtain ⟨p, hp, hpd, hpp, hpset, hpkeep⟩ := populate_spec g.config map hh.2.1 hw.2.1 hw.1 hh.1
    s.1 hleaves m1 s.2 hd1
  have hfits : p.1.Partition (fun _ r => ∀ rect, r = some rect → map.fitsRoom rect) :=
    partition_mono (fun a r h rect hrect => (h.1 rect hrect).1) p.1 hpp
  obtain ⟨c, hall, hc, hcd, hcv, hcset, hckeep, hconn, hhallroom⟩ :=
    createHalls_spec map p.1 hfits p.2.1 p.2.2 hpd
  have hroomvalid : ∀ q, p.1.roomCells q → map.validCoords q.1 q.2 = true := by
    intro q hq
    by_contra hnv
    have h1 := hpset q hq
    have hfact : ∀ t : BSPTree,
        t.Partition (fun _ r => ∀ rect, r = some rect → map.fitsRoom rect) →
        t.roomCells q → map.validCoords q.1 q.2 = true := by
      intro t
      induction t with
      | null => intro ht; exact absurd ht id
      | node area room left right ihl ihr =>
        intro ht htq
        unfold BSPTree.Partition at ht
        unfold BSPTree.roomCells at htq
        rcases ht with ⟨hl, hr, hP⟩ | ⟨_, _, hroom, hpl, hpr⟩
        · rcases htq with ⟨rect, hrect, hbox⟩ | htq | htq
          · exact (hP rect hrect).2.2 q hbox
          · rw [isNull_eq_true hl] at htq; exact absurd htq id
          · rw [isNull_eq_true hr] at htq; exact absurd htq id
        · rcases htq with ⟨rect, hrect, _⟩ | htq | htq
          · rw [hroom] at hrect; cases hrect
          · exact ihl hpl htq
          · exact ihr hpr htq
    exact hnv (hfact p.1 hfits hq)
  refine ⟨g1, m1, { g1 with generatedTree := p.1, splitEngine := c.2 }, c.1, hall, hstart, ?_,
    hd1, hcd, hwall, hpp, ?_, ?_, ?_, hconn, hhallroom⟩
  · unfold BSPGenerator.generate
    rw [hg1c, hg1e, hg1t, hs]
    simp only []
    rw [hp]
    simp only []
    rw [hc]
  · rintro q (h | h)
    · exact hroomvalid q h
    · exact hcv q h
  · rintro q (h | h)
    · by_cases hq : hall q
      · exact hcset q hq
      · rw [hckeep q hq]
        exact hpset q h
    · exact hcset q h
  · intro q hq
    rw [not_or] at hq
    rw [hckeep q hq.2, hpkeep q hq.1]

/-- The whole BSP run on a grid that is at least as large as the minimum leaf,
with room sizes between 2 and the minimum leaf size minus 2: start and generate
return, the Empty cells of the grid are exactly the cells of the recorded rooms
and of the corridors, and they form a connected set. -/
theorem bsp_generate_spec (g : BSPGenerator) (map : Map) (fuel : Nat)
    (hcols : g.config.minWidth ≤ (map.cols : Int))
    (hrows : g.config.minHeight ≤ (map.rows : Int))
    (hw : 2 ≤ g.config.minRoomWidth ∧ g.config.minRoomWidth ≤ g.config.maxRoomWidth ∧
      g.config.maxRoomWidth ≤ g.config.minWidth - 2)
    (hh : 2 ≤ g.config.minRoomHeight ∧ g.config.minRoomHeight ≤ g.config.maxRoomHeight ∧
      g.config.maxRoomHeight ≤ g.config.minHeight - 2)
    (hfuel : map.cols + map.rows < fuel) :
    ∃ (g1 : BSPGenerator) (m1 : Map) (g2 : BSPGenerator) (m2 : Map),
      g.start map = some (g1, m1) ∧ g1.generate fuel m1 = some (g2, m2) ∧
      m2.SameDims map ∧
      g2.generatedTree.Partition (fun a r =>
        (∀ rect, r = some rect → map.fitsRoom rect ∧ roomMargin a rect) ∧
        (g.config.emptyRoomProbability ≤ 0 → r ≠ none)) ∧
      (∀ q, g2.generatedTree.roomCells q → m2.isEmptyCell q) ∧
      Connected4 m2.isEmptyCell := by
  obtain ⟨g1, m1, g2, m2, hall, hstart, hgen, hd1, hd2, hwall, hpart, hvalid, hset, hkeep,
    hconn, _⟩ := bsp_generate_cells g map fuel hcols hrows hw hh hfuel
  have hempty : ∀ q, m2.isEmptyCell q ↔ (g2.generatedTree.roomCells q ∨ hall q) := by
    intro q
    unfold Map.isEmptyCell
    rw [Map.validCoords_congr hd2]
    constructor
    · rintro ⟨hv, hcell⟩
      by_contra hnot
      rw [hkeep q hnot, hwall q (by rw [Map.validCoords_congr hd1]; exact hv)] at hcell
      cases hcell
    · intro h
      exact ⟨hvalid q h, hset q h⟩
  exact ⟨g1, m1, g2, m2, hstart, hgen, hd2, hpart, fun q hq => (hempty q).mpr (Or.inl hq),
    connected4_congr (fun q => (hempty q).symm) hconn⟩

/-- C1. On a 40 x 40 grid with minWidth = minHeight = 10, minRoomWidth =
minRoomHeight = 4, maxRoomWidth = maxRoomHeight = 8 and emptyRoomProbability = 0,
for every engine (and every value of the other configuration fields), start
followed by generate returns once the fuel exceeds 80, every leaf of the
partition tree holds a room, and the Empty cells of the grid form one non-empty
4-connected region. -/
theorem bsp_scenario_connected (g : BSPGenerator) (map : Map) (fuel : Nat)
    (hmap : map.rows = 40 ∧ map.cols = 40)
    (hmin : g.config.minWidth = 10 ∧ g.config.minHeight = 10)
    (hminRoom : g.config.minRoomWidth = 4 ∧ g.config.minRoomHeight = 4)
    (hmaxRoom : g.config.maxRoomWidth = 8 ∧ g.config.maxRoomHeight = 8)
    (hprob : g.config.emptyRoomProbability = 0) (hfuel : 80 < fuel) :
    ∃ (g1 : BSPGenerator) (m1 : Map) (g2 : BSPGenerator) (m2 : Map),
      g.start map = some (g1, m1) ∧ g1.generate fuel m1 = some (g2, m2) ∧
      (∃ leaves, g2.generatedTree.getLeaves = some leaves ∧ leaves ≠ [] ∧
        ∀ leaf ∈ leaves, leaf.room.isSome = true) ∧
      (∃ p, m2.isEmptyCell p) ∧ Connected4 m2.isEmptyCell := by
  obtain ⟨g1, m1, g2, m2, hstart, hgen, _, hpart, hrooms, hconn⟩ :=
    bsp_generate_spec g map fuel (by rw [hmin.1, hmap.2]; decide)
      (by rw [hmin.2, hmap.1]; decide)
      (by rw [hminRoom.1, hmaxRoom.1, hmin.1]; decide)
      (by rw [hminRoom.2, hmaxRoom.2, hmin.2]; decide)
      (by rw [hmap.1, hmap.2]; exact hfuel)
  have hall : g2.generatedTree.Partition (fun _ r =>
      ∃ rect, r = some rect ∧ 2 ≤ rect.w ∧ 2 ≤ rect.h) := by
    refine partition_mono ?_ _ hpart
    intro a r ⟨hfit, hsome⟩
    cases r with
    | none => exact absurd rfl (hsome (le_of_eq hprob))
    | some rect => exact ⟨rect, rfl, (hfit rect rfl).1.1, (hfit rect rfl).1.2.1⟩
  obtain ⟨leaves, hleaves, hne, hp⟩ := getLeaves_of_allLeaves _ (partition_allLeaves _ hall)
  obtain ⟨q, hq⟩ := partition_has_room_cell _ hall
  refine ⟨g1, m1, g2, m2, hstart, hgen, ⟨leaves, hleaves, hne, ?_⟩, ⟨q, hrooms q hq⟩, hconn⟩
  intro leaf hleaf
  obtain ⟨rect, hrect, _⟩ := hp leaf hleaf
  rw [hrect]
  rfl

/-- Witness for C1: the scenario generator on the 40 x 40 grid with fuel 81. -/
theorem bsp_scenario_connected_witness :
    (scenarioMap.rows = 40 ∧ scenarioMap.cols = 40) ∧
    (scenarioGenerator.config.minWidth = 10 ∧ scenarioGenerator.config.minHeight = 10) ∧
    (scenarioGenerator.config.minRoomWidth = 4 ∧
      scenarioGenerator.config.minRoomHeight = 4) ∧
    (scenarioGenerator.config.maxRoomWidth = 8 ∧
      scenarioGenerator.config.maxRoomHeight = 8) ∧
    scenarioGenerator.config.emptyRoomProbability = 0 ∧ 80 < 81 ∧
    ∃ (g1 : BSPGenerator) (m1 : Map) (g2 : BSPGenerator) (m2 : Map),
      scenarioGenerator.start scenarioMap = some (g1, m1) ∧
      g1.generate 81 m1 = some (g2, m2) ∧
      (∃ leaves, g2.generatedTree.getLeaves = some leaves ∧ leaves ≠ [] ∧
        ∀ leaf ∈ leaves, leaf.room.isSome = true) ∧
      (∃ p, m2.isEmptyCell p) ∧ Connected4 m2.isEmptyCell :=
  ⟨⟨rfl, rfl⟩, ⟨rfl, rfl⟩, ⟨rfl, rfl⟩, ⟨rfl, rfl⟩, rfl, by decide,
    bsp_scenario_connected scenarioGenerator scenarioMap 81 ⟨rfl, rfl⟩ ⟨rfl, rfl⟩ ⟨rfl, rfl⟩
      ⟨rfl, rfl⟩ rfl (by decide)⟩

/-! ## BSP: the populate phase as a loop over the leaves -/

theorem populateLoop_append (config : BSPConfig) :
    ∀ (xs ys : List BSPTree) (map : Map) (engine : Engine),
      populateLoop config (xs ++ ys) map engine =
        match populateLoop config xs map engine with
        | none => none
        | some rx =>
          match populateLoop config ys rx.2.1 rx.2.2 with
          | none => none
          | some ry => some (rx.1 ++ ry.1, ry.2.1, ry.2.2) := by
  intro xs
  induction xs with
  | nil =>
    intro ys map engine
    simp only [List.nil_append, populateLoop]
    cases populateLoop config ys map engine <;> rfl
  | cons x xs ih =>
    intro ys map engine
    simp only [List.cons_append, populateLoop]
    cases populateLeaf config x map engine with
    | none => rfl
    | some r =>
      simp only []
      have hih := ih ys r.2.1 r.2.2
      rw [show xs.append ys = xs ++ ys from rfl, hih]
      cases populateLoop config xs r.2.1 r.2.2 with
      | none => rfl
      | some rx =>
        simp only []
        cases populateLoop config ys rx.2.1 rx.2.2 <;> rfl

theorem populateLeaf_keeps_children (config : BSPConfig) (area : BSPRect)
    (room : Option BSPRect) (left right : BSPTree) (map : Map) (engine : Engine)
    (res : BSPTree × Map × Engine)
    (h : populateLeaf config (BSPTree.node area room left right) map engine = some res) :
    ∃ room', res.1 = BSPTree.node area room' left right := by
  rcases populateLeaf_cases config area room left right map engine res h with
    ⟨_, hsame⟩ | ⟨_, rh, rw', dx, dy, _, _, _, _, hnode, _⟩
  · exact ⟨room, by rw [hsame]⟩
  · exact ⟨_, hnode⟩

/-- The tree recursion populate agrees with the loop of the source: on a tree in
which every node has no child or two, it returns exactly when the loop over the
leaves collected by getLeaves returns, with the same grid and engine, and the
leaves of the tree it returns are the leaves as the loop leaves them. -/
theorem populate_as_loop (config : BSPConfig) :
    ∀ t : BSPTree, t.AllLeaves (fun _ => True) → ∀ (map : Map) (engine : Engine),
      ∃ leaves, t.getLeaves = some leaves ∧
        (populate config t map engine).map (fun r => (r.1.getLeaves, r.2)) =
          (populateLoop config leaves map engine).map (fun r => (some r.1, r.2)) := by
  intro t
  induction t with
  | null => intro ht; exact absurd ht id
  | node area room left right ihl ihr =>
    intro ht map engine
    unfold BSPTree.AllLeaves at ht
    rcases ht with ⟨hl, hr, _⟩ | ⟨hl, hr, hal, har⟩
    · refine ⟨_, getLeaves_leaf area room left right hl hr, ?_⟩
      rw [populate_leaf config area room left right map engine hl hr]
      simp only [populateLoop]
      cases hres : populateLeaf config (BSPTree.node area room left right) map engine with
      | none => rfl
      | some res =>
        obtain ⟨room', hnode⟩ := populateLeaf_keeps_children config area room left right map
          engine res hres
        simp only [Option.map_some']
        rw [hnode, getLeaves_leaf area room' left right hl hr]
    · obtain ⟨ls, hls, hlrel⟩ := ihl hal map engine
      refine ⟨?_, ?_⟩
      · exact ls ++ (match right.getLeaves with | some rs => rs | none => [])
      · cases hpl : populate config left map engine with
        | none =>
          rw [hpl] at hlrel
          have hloopL : populateLoop config ls map engine = none := by
            cases hloop : populateLoop config ls map engine with
            | none => rfl
            | some x => rw [hloop] at hlrel; cases hlrel
          obtain ⟨rs, hrs, _⟩ := ihr har map engine
          refine ⟨?_, ?_⟩
          · rw [getLeaves_inner area room left right hl hr, hls, hrs]
          · rw [populate_inner config area room left right map engine hl hr, hpl,
              populateLoop_append, hloopL]
            rfl
        | some l =>
          rw [hpl] at hlrel
          obtain ⟨rs, hrs, hrrel⟩ := ihr har l.2.1 l.2.2
          refine ⟨?_, ?_⟩
          · rw [getLeaves_inner area room left right hl hr, hls, hrs]
          · rw [hrs, populate_inner config area room left right map engine hl hr, hpl,
              populateLoop_append]
            cases hloopL : populateLoop config ls map engine with
            | none => rw [hloopL] at hlrel; cases hlrel
            | some rl =>
              rw [hloopL] at hlrel
              simp only [Option.map_some', Option.some.injEq, Prod.mk.injEq] at hlrel
              obtain ⟨hlleaves, hlstate⟩ := hlrel
              simp only []
              rw [← hlstate]
              cases hpr : populate config right l.2.1 l.2.2 with
              | none =>
                rw [hpr] at hrrel
                cases hloopR : populateLoop config rs l.2.1 l.2.2 with
                | none => rfl
                | some x => rw [hloopR] at hrrel; cases hrrel
              | some r =>
                rw [hpr] at hrrel
                cases hloopR : populateLoop config rs l.2.1 l.2.2 with
                | none => rw [hloopR] at hrrel; cases hrrel
                | some rr =>
                  rw [hloopR] at hrrel
                  simp only [Option.map_some', Option.some.injEq, Prod.mk.injEq] at hrrel
                  obtain ⟨hrleaves, hrstate⟩ := hrrel
                  have hnl : l.1.isNull = false := by
                    cases hl1 : l.1 with
                    | null => rw [hl1] at hlleaves; cases hlleaves
                    | node _ _ _ _ => rfl
                  have hnr : r.1.isNull = false := by
                    cases hr1 : r.1 with
                    | null => rw [hr1] at hrleaves; cases hrleaves
                    | node _ _ _ _ => rfl
                  simp only [Option.map_some']
                  rw [getLeaves_inner area room l.1 r.1 hnl hnr, hlleaves, hrleaves, hrstate]

/-! ## Drunkard walk: one step -/

theorem manhattan_of_adjacent {p q : Int × Int} (h : adjacent4 p q) : manhattan p q = 1 := by
  unfold adjacent4 at h
  unfold manhattan
  rcases h with ⟨h1, h2 | h2⟩ | ⟨h1, h2 | h2⟩
  · rw [h1, h2, sub_self, abs_zero, add_sub_cancel_left]
    rfl
  · rw [h1, h2, sub_self, abs_zero, sub_add_cancel_left]
    rfl
  · rw [h1, h2, sub_self, abs_zero, add_sub_cancel_left]
    rfl
  · rw [h1, h2, sub_self, abs_zero, sub_add_cancel_left]
    rfl

/-- C14. Whenever step returns, from any position, the new position is a
cell of the grid at Manhattan distance 1 from the old one, reached by one
cardinal step; that cell is Empty, the grid keeps its size and no other cell has
changed. -/
theorem drunkard_step_frame (g : DrunkardWalkGenerator) (fuel : Nat) (map : Map)
    (res : DrunkardWalkGenerator × Map) (h : g.step fuel map = some res) :
    map.validCoords res.1.row res.1.col = true ∧
    adjacent4 (g.row, g.col) (res.1.row, res.1.col) ∧
    manhattan (g.row, g.col) (res.1.row, res.1.col) = 1 ∧
    res.2.cells (res.1.row, res.1.col) = CellType.Empty ∧
    res.2.rows = map.rows ∧ res.2.cols = map.cols ∧
    ∀ q, q ≠ (res.1.row, res.1.col) → res.2.cells q = map.cells q := by
  obtain ⟨hv, hadj, hm⟩ := drunkard_step_spec g fuel map res h
  refine ⟨hv, hadj, manhattan_of_adjacent hadj, ?_, ?_, ?_, ?_⟩
  · rw [hm]
    show (if (res.1.row, res.1.col) = (res.1.row, res.1.col) then CellType.Empty
      else map.cells (res.1.row, res.1.col)) = CellType.Empty
    rw [if_pos rfl]
  · rw [hm]
    rfl
  · rw [hm]
    rfl
  · intro q hq
    rw [hm]
    show (if q = (res.1.row, res.1.col) then CellType.Empty else map.cells q) = map.cells q
    rw [if_neg hq]

theorem sampleWalker_step : sampleWalker.step 1 sampleMap = some sampleWalkerMoved := by
  rfl

/-- Witness for C14: the sample walker at (0, 0) steps east. -/
theorem drunkard_step_frame_witness :
    sampleWalker.step 1 sampleMap = some sampleWalkerMoved ∧
    sampleMap.validCoords sampleWalkerMoved.1.row sampleWalkerMoved.1.col = true ∧
    adjacent4 (sampleWalker.row, sampleWalker.col)
      (sampleWalkerMoved.1.row, sampleWalkerMoved.1.col) ∧
    manhattan (sampleWalker.row, sampleWalker.col)
      (sampleWalkerMoved.1.row, sampleWalkerMoved.1.col) = 1 ∧
    sampleWalkerMoved.2.cells (sampleWalkerMoved.1.row, sampleWalkerMoved.1.col) =
      CellType.Empty ∧
    sampleWalkerMoved.2.rows = sampleMap.rows ∧ sampleWalkerMoved.2.cols = sampleMap.cols ∧
    ∀ q, q ≠ (sampleWalkerMoved.1.row, sampleWalkerMoved.1.col) →
      sampleWalkerMoved.2.cells q = sampleMap.cells q :=
  ⟨sampleWalker_step,
    drunkard_step_frame sampleWalker 1 sampleMap sampleWalkerMoved sampleWalker_step⟩

/-! ## Drunkard walk: the rejection loop -/

theorem uniformInt_constant (dir : Nat) (hdir : dir ≤ 3) :
    uniformInt 0 3 (constantEngine dir) =
      some ((dir : Int), ((constantEngine dir).pop).2) := by
  have hcases : dir = 0 ∨ dir = 1 ∨ dir = 2 ∨ dir = 3 := by omega
  rcases hcases with h | h | h | h <;> subst h <;> rfl

/-- A first draw that leads to a cell of the grid is accepted at once. -/
theorem pickDirection_accepts (map : Map) (row col : Int) (dir : Nat) (hdir : dir ≤ 3)
    (hvalid : map.validCoords (neighbourAt row col dir).1 (neighbourAt row col dir).2 = true)
    (fuel : Nat) :
    DrunkardWalkGenerator.pickDirection map row col (fuel + 1) (constantEngine dir) =
      some ((dir : Int), ((constantEngine dir).pop).2) := by
  unfold DrunkardWalkGenerator.pickDirection
  rw [uniformInt_constant dir hdir]
  simp only []
  unfold neighbourAt at hvalid
  simp only [] at hvalid
  rw [hvalid]
  have h0 : ¬ ((dir : Int) < 0) := by omega
  simp [h0]

/-- On a grid with a single cell no draw is accepted. -/
theorem pickDirection_single_cell (map : Map) (row col : Int)
    (hcells : map.rows * map.cols < 2) (hpos : map.validCoords row col = true) :
    ∀ (fuel : Nat) (engine : Engine),
      DrunkardWalkGenerator.pickDirection map row col fuel engine = none := by
  rw [Map.validCoords_iff] at hpos
  have hr : map.rows = 1 := by
    rcases Nat.eq_zero_or_pos map.cols with hc | hc
    · omega
    · by_contra hne
      have h2 : 2 ≤ map.rows := by omega
      have := Nat.mul_le_mul h2 hc
      omega
  have hc : map.cols = 1 := by
    rw [hr] at hcells
    omega
  intro fuel
  induction fuel with
  | zero => intro engine; rfl
  | succ fuel ih =>
    intro engine
    unfold DrunkardWalkGenerator.pickDirection
    cases hd : uniformInt 0 3 engine with
    | none => rfl
    | some draw =>
      simp only []
      have hrange := uniformInt_some hd
      have hcases : draw.1 = 0 ∨ draw.1 = 1 ∨ draw.1 = 2 ∨ draw.1 = 3 := by omega
      have hrow : row = 0 := by omega
      have hcol : col = 0 := by omega
      have hbad : map.validCoords (row + tableAt rowIndexes draw.1)
          (col + tableAt colIndexes draw.1) = false := by
        rw [Bool.eq_false_iff]
        intro hv
        rw [Map.validCoords_iff, hr, hc, hrow, hcol] at hv
        rcases hcases with h | h | h | h <;> rw [h] at hv <;>
          simp [tableAt, rowIndexes, colIndexes] at hv
      rw [hbad]
      simp only [Bool.not_false, Bool.or_true, if_true]
      exact ih draw.2

/-- C19. On a grid with rows >= 1 and cols >= 1 and from a current position in
bounds: when the grid has at least two cells, one of the four directions 0..3
leads to a cell of the grid, and the rejection loop of step accepts that
direction as soon as it is drawn; when the grid has a single cell, the loop
accepts no direction whatever the draws, and step never returns. -/
theorem drunkard_step_progress (map : Map) (row col : Int)
    (hrows : 1 ≤ map.rows) (hcols : 1 ≤ map.cols)
    (hpos : map.validCoords row col = true) :
    (2 ≤ map.rows * map.cols →
      ∃ dir : Nat, dir ≤ 3 ∧
        map.validCoords (neighbourAt row col dir).1 (neighbourAt row col dir).2 = true ∧
        ∀ fuel : Nat,
          DrunkardWalkGenerator.pickDirection map row col (fuel + 1) (constantEngine dir) =
            some ((dir : Int), ((constantEngine dir).pop).2)) ∧
    (map.rows * map.cols < 2 →
      (∀ (fuel : Nat) (engine : Engine),
        DrunkardWalkGenerator.pickDirection map row col fuel engine = none) ∧
      ∀ (g : DrunkardWalkGenerator) (fuel : Nat), g.row = row → g.col = col →
        g.step fuel map = none) := by
  constructor
  · intro hcells
    have hp := (Map.validCoords_iff map row col).mp hpos
    have hsize : 2 ≤ map.rows ∨ 2 ≤ map.cols := by
      by_contra hne
      have hr : map.rows = 1 := by omega
      have hc : map.cols = 1 := by omega
      rw [hr, hc] at hcells
      omega
    have hdir : ∃ dir : Nat, dir ≤ 3 ∧
        map.validCoords (neighbourAt row col dir).1 (neighbourAt row col dir).2 = true := by
      rcases hsize with h2 | h2
      · by_cases hlast : row + 1 < (map.rows : Int)
        · refine ⟨2, by omega, ?_⟩
          rw [Map.validCoords_iff]
          simp [neighbourAt, tableAt, rowIndexes, colIndexes]
          omega
        · refine ⟨3, by omega, ?_⟩
          rw [Map.validCoords_iff]
          simp [neighbourAt, tableAt, rowIndexes, colIndexes]
          omega
      · by_cases hlast : col + 1 < (map.cols : Int)
        · refine ⟨0, by omega, ?_⟩
          rw [Map.validCoords_iff]
          simp [neighbourAt, tableAt, rowIndexes, colIndexes]
          omega
        · refine ⟨1, by omega, ?_⟩
          rw [Map.validCoords_iff]
          simp [neighbourAt, tableAt, rowIndexes, colIndexes]
          omega
    obtain ⟨dir, hle, hv⟩ := hdir
    exact ⟨dir, hle, hv, pickDirection_accepts map row col dir hle hv⟩
  · intro hcells
    have hnone := pickDirection_single_cell map row col hcells hpos
    refine ⟨hnone, ?_⟩
    intro g fuel hrow hcol
    unfold DrunkardWalkGenerator.step
    rw [hrow, hcol, hnone fuel g.engine]

/-- Witness for C19: the 3 x 4 sample grid at (0, 0) has an accepting choice, and
the 1 x 1 grid has none. -/
theorem drunkard_step_progress_witness :
    (∃ dir : Nat, dir ≤ 3 ∧
      sampleMap.validCoords (neighbourAt 0 0 dir).1 (neighbourAt 0 0 dir).2 = true ∧
      ∀ fuel : Nat,
        DrunkardWalkGenerator.pickDirection sampleMap 0 0 (fuel + 1) (constantEngine dir) =
          some ((dir : Int), ((constantEngine dir).pop).2)) ∧
    ((∀ (fuel : Nat) (engine : Engine),
      DrunkardWalkGenerator.pickDirection singleCellMap 0 0 fuel engine = none) ∧
    ∀ (g : DrunkardWalkGenerator) (fuel : Nat), g.row = 0 → g.col = 0 →
      g.step fuel singleCellMap = none) :=
  ⟨(drunkard_step_progress sampleMap 0 0 (by decide) (by decide) (by decide)).1 (by decide),
    (drunkard_step_progress singleCellMap 0 0 (by decide) (by decide) (by decide)).2
      (by decide)⟩

/-! ## BSP: looking up a room -/

theorem containsRoom_null : ¬ BSPTree.null.containsRoom := by
  rintro ⟨n, hn, _⟩
  cases hn

theorem containsRoom_node (area : BSPRect) (room : Option BSPRect) (left right : BSPTree) :
    (BSPTree.node area room left right).containsRoom ↔
      room.isSome = true ∨ left.containsRoom ∨ right.containsRoom := by
  unfold BSPTree.containsRoom
  constructor
  · rintro ⟨n, hn, hroom⟩
    unfold BSPTree.nodes at hn
    rcases List.mem_cons.mp hn with h | h
    · left
      rw [h] at hroom
      exact hroom
    · rcases List.mem_append.mp h with h | h
      · exact Or.inr (Or.inl ⟨n, h, hroom⟩)
      · exact Or.inr (Or.inr ⟨n, h, hroom⟩)
  · rintro (h | ⟨n, hn, hroom⟩ | ⟨n, hn, hroom⟩)
    · exact ⟨BSPTree.node area room left right, List.mem_cons_self _ _, h⟩
    · exact ⟨n, List.mem_cons_of_mem _ (List.mem_append_left _ hn), hroom⟩
    · exact ⟨n, List.mem_cons_of_mem _ (List.mem_append_right _ hn), hroom⟩

theorem mem_nodes_left {n : BSPTree} (area : BSPRect) (room : Option BSPRect)
    (left right : BSPTree) (h : n ∈ left.nodes) :
    n ∈ (BSPTree.node area room left right).nodes :=
  List.mem_cons_of_mem _ (List.mem_append_left _ h)

theorem mem_nodes_right {n : BSPTree} (area : BSPRect) (room : Option BSPRect)
    (left right : BSPTree) (h : n ∈ right.nodes) :
    n ∈ (BSPTree.node area room left right).nodes :=
  List.mem_cons_of_mem _ (List.mem_append_right _ h)

theorem getRoom_inner (area : BSPRect) (left right : BSPTree) (engine : Engine) :
    (BSPTree.node area none left right).getRoom engine =
      if (left.getRoom engine).1.isNull && (right.getRoom (left.getRoom engine).2).1.isNull
      then (BSPTree.null, (right.getRoom (left.getRoom engine).2).2)
      else if (left.getRoom engine).1.isNull
      then ((right.getRoom (left.getRoom engine).2).1, (right.getRoom (left.getRoom engine).2).2)
      else if (right.getRoom (left.getRoom engine).2).1.isNull
      then ((left.getRoom engine).1, (right.getRoom (left.getRoom engine).2).2)
      else
        (if (uniformReal (right.getRoom (left.getRoom engine).2).2).1 < 1 / 2
          then (left.getRoom engine).1 else (right.getRoom (left.getRoom engine).2).1,
          (uniformReal (right.getRoom (left.getRoom engine).2).2).2) := by
  rw [BSPTree.getRoom]

/-- The four outcomes of getRoom on a node without a room of its own. -/
theorem getRoom_inner_cases (area : BSPRect) (left right : BSPTree) (engine : Engine) :
    ((left.getRoom engine).1.isNull = true ∧
      (right.getRoom (left.getRoom engine).2).1.isNull = true ∧
      ((BSPTree.node area none left right).getRoom engine).1 = BSPTree.null) ∨
    ((left.getRoom engine).1.isNull = true ∧
      (right.getRoom (left.getRoom engine).2).1.isNull = false ∧
      ((BSPTree.node area none left right).getRoom engine).1 =
        (right.getRoom (left.getRoom engine).2).1) ∨
    ((left.getRoom engine).1.isNull = false ∧
      (right.getRoom (left.getRoom engine).2).1.isNull = true ∧
      ((BSPTree.node area none left right).getRoom engine).1 = (left.getRoom engine).1) ∨
    ((left.getRoom engine).1.isNull = false ∧
      (right.getRoom (left.getRoom engine).2).1.isNull = false ∧
      (((BSPTree.node area none left right).getRoom engine).1 = (left.getRoom engine).1 ∨
        ((BSPTree.node area none left right).getRoom engine).1 =
          (right.getRoom (left.getRoom engine).2).1)) := by
  rw [getRoom_inner]
  generalize left.getRoom engine = l
  generalize right.getRoom l.2 = r
  cases hl : l.1.isNull <;> cases hr : r.1.isNull
  · right; right; right
    refine ⟨rfl, rfl, ?_⟩
    simp only [Bool.false_and, Bool.false_eq_true, if_false]
    by_cases hd : (uniformReal r.2).1 < 1 / 2
    · left; rw [if_pos hd]
    · right; rw [if_neg hd]
  · right; right; left
    refine ⟨rfl, rfl, ?_⟩
    simp
  · right; left
    refine ⟨rfl, rfl, ?_⟩
    simp
  · left
    refine ⟨rfl, rfl, ?_⟩
    simp

/-- The result of getRoom is null exactly when no node of the subtree holds a
room, and otherwise it is a node of the subtree that holds a room. -/
theorem getRoom_sound : ∀ (t : BSPTree) (engine : Engine),
    ((t.getRoom engine).1.isNull = true ↔ ¬ t.containsRoom) ∧
    ((t.getRoom engine).1.isNull = false →
      (t.getRoom engine).1 ∈ t.nodes ∧ (t.getRoom engine).1.room.isSome = true) := by
  intro t
  induction t with
  | null =>
    intro engine
    refine ⟨⟨fun _ => containsRoom_null, fun _ => rfl⟩, ?_⟩
    intro h
    cases h
  | node area room left right ihl ihr =>
    intro engine
    cases room with
    | some rect =>
      have hres : ((BSPTree.node area (some rect) left right).getRoom engine).1 =
          BSPTree.node area (some rect) left right := by
        rw [BSPTree.getRoom]
      rw [hres]
      refine ⟨⟨(fun h => by cases h), fun h => ?_⟩, fun _ => ⟨List.mem_cons_self _ _, rfl⟩⟩
      exact absurd ((containsRoom_node area (some rect) left right).mpr (Or.inl rfl)) h
    | none =>
      obtain ⟨hl1, hl2⟩ := ihl engine
      obtain ⟨hr1, hr2⟩ := ihr (left.getRoom engine).2
      have hcr : (BSPTree.node area none left right).containsRoom ↔
          left.containsRoom ∨ right.containsRoom := by
        rw [containsRoom_node]
        simp
      rcases getRoom_inner_cases area left right engine with
        ⟨hl, hr, hres⟩ | ⟨hl, hr, hres⟩ | ⟨hl, hr, hres⟩ | ⟨hl, hr, hres⟩
      · rw [hres]
        refine ⟨⟨fun _ => ?_, fun _ => rfl⟩, fun h => by cases h⟩
        rw [hcr]
        rintro (h | h)
        · exact hl1.mp hl h
        · exact hr1.mp hr h
      · rw [hres]
        obtain ⟨hmem, hroom⟩ := hr2 hr
        refine ⟨⟨fun h => ?_, fun h => ?_⟩, fun _ => ⟨mem_nodes_right _ _ _ _ hmem, hroom⟩⟩
        · rw [hr] at h
          cases h
        · exact absurd (hcr.mpr (Or.inr ⟨_, hmem, hroom⟩)) h
      · rw [hres]
        obtain ⟨hmem, hroom⟩ := hl2 hl
        refine ⟨⟨fun h => ?_, fun h => ?_⟩, fun _ => ⟨mem_nodes_left _ _ _ _ hmem, hroom⟩⟩
        · rw [hl] at h
          cases h
        · exact absurd (hcr.mpr (Or.inl ⟨_, hmem, hroom⟩)) h
      · obtain ⟨hmeml, hrooml⟩ := hl2 hl
        obtain ⟨hmemr, hroomr⟩ := hr2 hr
        rcases hres with hres | hres
        · rw [hres]
          refine ⟨⟨fun h => ?_, fun h => ?_⟩,
            fun _ => ⟨mem_nodes_left _ _ _ _ hmeml, hrooml⟩⟩
          · rw [hl] at h
            cases h
          · exact absurd (hcr.mpr (Or.inl ⟨_, hmeml, hrooml⟩)) h
        · rw [hres]
          refine ⟨⟨fun h => ?_, fun h => ?_⟩,
            fun _ => ⟨mem_nodes_right _ _ _ _ hmemr, hroomr⟩⟩
          · rw [hr] at h
            cases h
          · exact absurd (hcr.mpr (Or.inr ⟨_, hmemr, hroomr⟩)) h

/-- C15. For every tree node and every engine: getRoom returns null if and only
if no node of the subtree holds a room; a node it returns belongs to the subtree
and holds a room; and on a node without a room of its own, as every node with
children is, when exactly one child subtree contains a room the result is a node
of that child. -/
theorem getRoom_finds_room (t : BSPTree) (engine : Engine) :
    ((t.getRoom engine).1.isNull = true ↔ ¬ t.containsRoom) ∧
    ((t.getRoom engine).1.isNull = false →
      (t.getRoom engine).1 ∈ t.nodes ∧ (t.getRoom engine).1.room.isSome = true) ∧
    (t.room = none →
      (t.left.containsRoom ∧ ¬ t.right.containsRoom →
        (t.getRoom engine).1.isNull = false ∧ (t.getRoom engine).1 ∈ t.left.nodes) ∧
      (¬ t.left.containsRoom ∧ t.right.containsRoom →
        (t.getRoom engine).1.isNull = false ∧ (t.getRoom engine).1 ∈ t.right.nodes)) := by
  refine ⟨(getRoom_sound t engine).1, (getRoom_sound t engine).2, ?_⟩
  intro hroom
  cases t with
  | null =>
    exact ⟨fun h => absurd h.1 containsRoom_null, fun h => absurd h.2 containsRoom_null⟩
  | node area room left right =>
    have hnone : room = none := hroom
    subst hnone
    show (left.containsRoom ∧ ¬ right.containsRoom → _ ∧ _ ∈ left.nodes) ∧
      (¬ left.containsRoom ∧ right.containsRoom → _ ∧ _ ∈ right.nodes)
    obtain ⟨hl1, hl2⟩ := getRoom_sound left engine
    obtain ⟨hr1, hr2⟩ := getRoom_sound right (left.getRoom engine).2
    rcases getRoom_inner_cases area left right engine with
      ⟨hl, hr, hres⟩ | ⟨hl, hr, hres⟩ | ⟨hl, hr, hres⟩ | ⟨hl, hr, hres⟩
    · exact ⟨fun h => absurd h.1 (hl1.mp hl), fun h => absurd h.2 (hr1.mp hr)⟩
    · rw [hres]
      exact ⟨fun h => absurd h.1 (hl1.mp hl), fun _ => ⟨hr, (hr2 hr).1⟩⟩
    · rw [hres]
      exact ⟨fun _ => ⟨hl, (hl2 hl).1⟩, fun h => absurd h.2 (hr1.mp hr)⟩
    · have hcl : left.containsRoom := ⟨_, (hl2 hl).1, (hl2 hl).2⟩
      have hcr : right.containsRoom := ⟨_, (hr2 hr).1, (hr2 hr).2⟩
      exact ⟨fun h => absurd hcr h.2, fun h => absurd hcl h.1⟩

theorem oneRoomTree_left : oneRoomTree.left.containsRoom :=
  ⟨_, List.mem_cons_self _ _, rfl⟩

theorem oneRoomTree_right : ¬ oneRoomTree.right.containsRoom := by
  intro h
  rcases (containsRoom_node _ _ _ _).mp h with h1 | h1 | h1
  · cases h1
  · exact containsRoom_null h1
  · exact containsRoom_null h1

/-- Witness for C15: on the sample node only the left child holds a room, and
getRoom returns a node of the left child. -/
theorem getRoom_finds_room_witness :
    oneRoomTree.room = none ∧ oneRoomTree.left.containsRoom ∧
    ¬ oneRoomTree.right.containsRoom ∧
    (oneRoomTree.getRoom zeroEngine).1.isNull = false ∧
    (oneRoomTree.getRoom zeroEngine).1 ∈ oneRoomTree.left.nodes :=
  ⟨rfl, oneRoomTree_left, oneRoomTree_right,
    ((getRoom_finds_room oneRoomTree zeroEngine).2.2 rfl).1
      ⟨oneRoomTree_left, oneRoomTree_right⟩⟩

/-! ## BSP: termination of split -/

/-- More fuel does not change a result of split. -/
theorem split_fuel_succ (config : BSPConfig) :
    ∀ (fuel : Nat) (t : BSPTree) (engine : Engine) (res : BSPTree × Engine),
      BSPTree.split config fuel t engine = some res →
      BSPTree.split config (fuel + 1) t engine = some res := by
  intro fuel
  induction fuel with
  | zero =>
    intro t engine res h
    unfold BSPTree.split at h
    cases h
  | succ fuel ih =>
    intro t engine res h
    cases t with
    | null =>
      unfold BSPTree.split at h
      cases h
    | node area room left right =>
      rw [split_step] at h ⊢
      by_cases hle : (if splitOrientation config area (uniformReal engine).1 then
            area.h - config.minHeight else area.w - config.minWidth) ≤
          (if splitOrientation config area (uniformReal engine).1 then
            config.minHeight else config.minWidth)
      · rw [if_pos hle] at h ⊢
        exact h
      · rw [if_neg hle] at h ⊢
        cases hdraw : uniformInt
            (if splitOrientation config area (uniformReal engine).1 then
              config.minHeight else config.minWidth)
            (if splitOrientation config area (uniformReal engine).1 then
              area.h - config.minHeight else area.w - config.minWidth)
            (uniformReal engine).2 with
        | none =>
          try rw [hdraw] at h
          cases h
        | some draw =>
          try rw [hdraw] at h
          try rw [hdraw]
          simp only [] at h ⊢
          cases hl : BSPTree.split config fuel
              (BSPTree.node
                (leftAreaOf (splitOrientation config area (uniformReal engine).1) area draw.1)
                none BSPTree.null BSPTree.null) draw.2 with
          | none =>
            try rw [hl] at h
            cases h
          | some l =>
            try rw [hl] at h
            rw [ih _ _ _ hl]
            simp only [] at h ⊢
            cases hr : BSPTree.split config fuel
                (BSPTree.node
                  (rightAreaOf (splitOrientation config area (uniformReal engine).1) area
                    draw.1)
                  none BSPTree.null BSPTree.null) l.2 with
            | none =>
              try rw [hr] at h
              cases h
            | some r =>
              try rw [hr] at h
              rw [ih _ _ _ hr]
              exact h

theorem split_fuel_le (config : BSPConfig) (t : BSPTree) (engine : Engine)
    (res : BSPTree × Engine) (fuel : Nat)
    (h : BSPTree.split config fuel t engine = some res) :
    ∀ more : Nat, BSPTree.split config (fuel + more) t engine = some res := by
  intro more
  induction more with
  | zero => exact h
  | succ more ih => exact split_fuel_succ config (fuel + more) t engine res ih

/-- With minimum sizes of at least 1, every split cuts a node into two children
that are strictly smaller along the split axis. -/
theorem split_shrinking (config : BSPConfig) (hminW : 1 ≤ config.minWidth)
    (hminH : 1 ≤ config.minHeight) :
    ∀ (fuel : Nat) (area : BSPRect) (room : Option BSPRect) (engine : Engine)
      (res : BSPTree × Engine),
      BSPTree.split config fuel (BSPTree.node area room BSPTree.null BSPTree.null) engine =
        some res →
      res.1.Shrinking := by
  intro fuel
  induction fuel with
  | zero =>
    intro area room engine res h
    unfold BSPTree.split at h
    cases h
  | succ fuel ih =>
    intro area room engine res h
    rcases split_cases config fuel area room _ _ engine res h with h1 | h1
    · rw [h1]
      unfold BSPTree.Shrinking
      exact Or.inl ⟨rfl, rfl⟩
    · obtain ⟨isHSplit, sv, e1, l, r, _, hlt, hlo, hhi, hl, hr, hres⟩ := h1
      have hla := split_area config fuel _ _ _ _ _ l hl
      have hra := split_area config fuel _ _ _ _ _ r hr
      rw [hres]
      unfold BSPTree.Shrinking
      refine Or.inr ⟨hla.2, hra.2, ⟨isHSplit, ?_, ?_⟩, ih _ _ _ l hl, ih _ _ _ r hr⟩
      · rw [hla.1]
        unfold shrinksAlong leftAreaOf
        cases isHSplit
        · simp only [Bool.false_eq_true, if_false] at hlt hlo hhi ⊢
          refine ⟨trivial, ?_, ?_⟩ <;> omega
        · simp only [if_true] at hlt hlo hhi ⊢
          refine ⟨trivial, ?_, ?_⟩ <;> omega
      · rw [hra.1]
        unfold shrinksAlong rightAreaOf
        cases isHSplit
        · simp only [Bool.false_eq_true, if_false] at hlt hlo hhi ⊢
          refine ⟨trivial, ?_, ?_⟩ <;> omega
        · simp only [if_true] at hlt hlo hhi ⊢
          refine ⟨trivial, ?_, ?_⟩ <;> omega

/-- A shrinking tree is no deeper than the width plus the height of its root,
plus one. -/
theorem depth_of_shrinking : ∀ t : BSPTree, t.Shrinking →
    t.depth ≤ t.area.w.toNat + t.area.h.toNat + 1 := by
  intro t
  induction t with
  | null =>
    intro _
    unfold BSPTree.depth
    omega
  | node area room left right ihl ihr =>
    intro h
    unfold BSPTree.Shrinking at h
    unfold BSPTree.depth
    show 1 + max left.depth right.depth ≤ area.w.toNat + area.h.toNat + 1
    rcases h with ⟨hl, hr⟩ | ⟨_, _, ⟨isHSplit, hsl, hsr⟩, hshl, hshr⟩
    · rw [isNull_eq_true hl, isNull_eq_true hr]
      unfold BSPTree.depth
      simp
    · have h1 := ihl hshl
      have h2 := ihr hshr
      have hmax : max left.depth right.depth ≤ area.w.toNat + area.h.toNat := by
        unfold shrinksAlong at hsl hsr
        apply max_le
        · cases isHSplit
          · simp only [Bool.false_eq_true, if_false] at hsl
            omega
          · simp only [if_true] at hsl
            omega
        · cases isHSplit
          · simp only [Bool.false_eq_true, if_false] at hsr
            omega
          · simp only [if_true] at hsr
            omega
      omega

/-- C17. With minWidth >= 1 and minHeight >= 1, for every root rectangle (of
non-negative width and height) and every engine, split returns one and the same
tree for every fuel above width + height: the recursion ends.  In that tree both
children of every split node are strictly smaller than the node along the split
axis, and the tree is at most width + height + 1 nodes deep. -/
theorem split_terminates (config : BSPConfig) (area : BSPRect) (room : Option BSPRect)
    (engine : Engine)
    (hminW : 1 ≤ config.minWidth) (hminH : 1 ≤ config.minHeight)
    (hw : 0 ≤ area.w) (hh : 0 ≤ area.h) :
    ∃ res : BSPTree × Engine,
      (∀ fuel : Nat, area.w + area.h < (fuel : Int) →
        BSPTree.split config fuel (BSPTree.node area room BSPTree.null BSPTree.null) engine =
          some res) ∧
      res.1.Shrinking ∧
      (res.1.depth : Int) ≤ area.w + area.h + 1 := by
  obtain ⟨res, hres⟩ := split_defined config hminW hminH (area.w.toNat + area.h.toNat + 1)
    area room BSPTree.null BSPTree.null engine (Nat.lt_succ_self _)
  have hsh := split_shrinking config hminW hminH _ area room engine res hres
  have hdepth := depth_of_shrinking res.1 hsh
  rw [(split_area config _ area room _ _ engine res hres).1] at hdepth
  refine ⟨res, ?_, hsh, by omega⟩
  intro fuel hfuel
  have hfuel' : fuel = (area.w.toNat + area.h.toNat + 1) +
      (fuel - (area.w.toNat + area.h.toNat + 1)) := by omega
  rw [hfuel']
  exact split_fuel_le config _ engine res _ hres _

/-- Witness for C17: a 6 x 4 root with minimum leaf size 1 x 1. -/
theorem split_terminates_witness :
    ∃ res : BSPTree × Engine,
      (∀ fuel : Nat, (6 : Int) + 4 < (fuel : Int) →
        BSPTree.split unitConfig fuel
          (BSPTree.node { x := 0, y := 0, w := 6, h := 4 } none BSPTree.null BSPTree.null)
          zeroEngine = some res) ∧
      res.1.Shrinking ∧
      (res.1.depth : Int) ≤ 6 + 4 + 1 :=
  split_terminates unitConfig { x := 0, y := 0, w := 6, h := 4 } none zeroEngine
    (by decide) (by decide) (by decide) (by decide)

/-! ## BSP: orientation of a split -/

/-- A run of split on a 3 x 3 root with minimum leaf size 2 x 1 and a draw below
horizSplitProbability: the root is cut horizontally. -/
theorem square_run :
    (BSPTree.split orientationConfig 2
      (BSPTree.node { x := 0, y := 0, w := 3, h := 3 } none BSPTree.null BSPTree.null)
      zeroEngine).map Prod.fst =
    some (BSPTree.node { x := 0, y := 0, w := 3, h := 3 } none
      (BSPTree.node { x := 0, y := 0, w := 3, h := 1 } none BSPTree.null BSPTree.null)
      (BSPTree.node { x := 0, y := 1, w := 3, h := 2 } none BSPTree.null BSPTree.null)) := by
  have hroot : splitOrientation orientationConfig { x := 0, y := 0, w := 3, h := 3 }
      (uniformReal zeroEngine).1 = true := by
    rw [splitOrientation_draw _ _ _ 1 (3 / 2) 1 (5452595 / 4194304) (by decide) (by decide)
      floatQuotient_3_by_3 floatOnePlus_1_2 (by norm_num) floatQuotient_3_by_3
      floatOnePlus_3_10 (by norm_num), uniformReal_zeroEngine]
    simp [orientationConfig]
  have hleft : splitOrientation orientationConfig { x := 0, y := 0, w := 3, h := 1 }
      (uniformReal zeroEngine).1 = false :=
    splitOrientation_vertical _ _ _ 3 (3 / 2) (by decide) floatQuotient_3_by_1
      floatOnePlus_1_2 (by norm_num)
  have hright : splitOrientation orientationConfig { x := 0, y := 1, w := 3, h := 2 }
      (uniformReal zeroEngine).1 = false :=
    splitOrientation_vertical _ _ _ (3 / 2) (3 / 2) (by decide) floatQuotient_3_by_2
      floatOnePlus_1_2 (by norm_num)
  rw [split_cut orientationConfig 1 _ none _ _ zeroEngine true 1 zeroEngine
    (BSPTree.node { x := 0, y := 0, w := 3, h := 1 } none BSPTree.null BSPTree.null, zeroEngine)
    (BSPTree.node { x := 0, y := 1, w := 3, h := 2 } none BSPTree.null BSPTree.null, zeroEngine)
    hroot (by decide)
    (by rw [uniformReal_zeroEngine]; exact uniformInt_zeroEngine _ _ (by decide))
    (by
      have h := split_leaf orientationConfig 0 { x := 0, y := 0, w := 3, h := 1 } none
        BSPTree.null BSPTree.null zeroEngine false hleft (by decide)
      rw [uniformReal_zeroEngine] at h
      exact h)
    (by
      have h := split_leaf orientationConfig 0 { x := 0, y := 1, w := 3, h := 2 } none
        BSPTree.null BSPTree.null zeroEngine false hright (by decide)
      rw [uniformReal_zeroEngine] at h
      exact h)]
  rfl

/-- A run of split on a 5 x 2 root with minimum leaf size 2 x 1: the root is cut
vertically. -/
theorem wide_run :
    (BSPTree.split orientationConfig 2
      (BSPTree.node { x := 0, y := 0, w := 5, h := 2 } none BSPTree.null BSPTree.null)
      zeroEngine).map Prod.fst =
    some (BSPTree.node { x := 0, y := 0, w := 5, h := 2 } none
      (BSPTree.node { x := 0, y := 0, w := 2, h := 2 } none BSPTree.null BSPTree.null)
      (BSPTree.node { x := 2, y := 0, w := 3, h := 2 } none BSPTree.null BSPTree.null)) := by
  have hroot : splitOrientation orientationConfig { x := 0, y := 0, w := 5, h := 2 }
      (uniformReal zeroEngine).1 = false :=
    splitOrientation_vertical _ _ _ (5 / 2) (3 / 2) (by decide) floatQuotient_5_by_2
      floatOnePlus_1_2 (by norm_num)
  have hleft : splitOrientation orientationConfig { x := 0, y := 0, w := 2, h := 2 }
      (uniformReal zeroEngine).1 = true := by
    rw [splitOrientation_draw _ _ _ 1 (3 / 2) 1 (5452595 / 4194304) (by decide) (by decide)
      floatQuotient_2_by_2 floatOnePlus_1_2 (by norm_num) floatQuotient_2_by_2
      floatOnePlus_3_10 (by norm_num), uniformReal_zeroEngine]
    simp [orientationConfig]
  have hright : splitOrientation orientationConfig { x := 2, y := 0, w := 3, h := 2 }
      (uniformReal zeroEngine).1 = false :=
    splitOrientation_vertical _ _ _ (3 / 2) (3 / 2) (by decide) floatQuotient_3_by_2
      floatOnePlus_1_2 (by norm_num)
  rw [split_cut orientationConfig 1 _ none _ _ zeroEngine false 2 zeroEngine
    (BSPTree.node { x := 0, y := 0, w := 2, h := 2 } none BSPTree.null BSPTree.null, zeroEngine)
    (BSPTree.node { x := 2, y := 0, w := 3, h := 2 } none BSPTree.null BSPTree.null, zeroEngine)
    hroot (by decide)
    (by rw [uniformReal_zeroEngine]; exact uniformInt_zeroEngine _ _ (by decide))
    (by
      have h := split_leaf orientationConfig 0 { x := 0, y := 0, w := 2, h := 2 } none
        BSPTree.null BSPTree.null zeroEngine true hleft (by decide)
      rw [uniformReal_zeroEngine] at h
      exact h)
    (by
      have h := split_leaf orientationConfig 0 { x := 2, y := 0, w := 3, h := 2 } none
        BSPTree.null BSPTree.null zeroEngine false hright (by decide)
      rw [uniformReal_zeroEngine] at h
      exact h)]
  rfl

/-- Rounding decides at a tie: for a node 5 wide and 6 high and splitHRatio =
0.2f the exact quotient 6/5 exceeds the exact sum 1 + splitHRatio, but both
round to the same `float`, so the second ratio test fails and the orientation
follows the draw. -/
theorem splitOrientation_at_tie (sample : ℚ) :
    ((6 : Int) : ℚ) / ((5 : Int) : ℚ) > 1 + tieConfig.splitHRatio ∧
    floatQuotient 6 5 = floatOnePlus tieConfig.splitHRatio ∧
    splitOrientation tieConfig { x := 0, y := 0, w := 5, h := 6 } sample =
      decide (sample < tieConfig.horizSplitProbability) := by
  refine ⟨by norm_num [tieConfig], ?_, ?_⟩
  · rw [floatQuotient_6_by_5]
    exact floatOnePlus_3355443_16777216.symm
  · exact splitOrientation_draw _ _ _ (13981013 / 16777216) (3 / 2) (5033165 / 4194304)
      (5033165 / 4194304) (by decide) (by decide) floatQuotient_5_by_6 floatOnePlus_1_2
      (by norm_num) floatQuotient_6_by_5 floatOnePlus_3355443_16777216 (le_refl _)

/-- Rounding decides at the threshold: for a node 1 wide and 2 high and
splitVRatio = -16777215 / 2^25 the exact quotient 1/2 is below the exact sum
1 + splitVRatio, but the sum rounds to 1/2, so the first ratio test passes and
the orientation is vertical for every sample. -/
theorem splitOrientation_at_rounded_threshold (sample : ℚ) :
    ((1 : Int) : ℚ) / ((2 : Int) : ℚ) < 1 + roundingConfig.splitVRatio ∧
    floatQuotient 1 2 = floatOnePlus roundingConfig.splitVRatio ∧
    splitOrientation roundingConfig { x := 0, y := 0, w := 1, h := 2 } sample = false := by
  refine ⟨by norm_num [roundingConfig], ?_, ?_⟩
  · rw [floatQuotient_1_by_2]
    exact floatOnePlus_n16777215_33554432.symm
  · exact splitOrientation_vertical _ _ _ (1 / 2) (1 / 2) (by decide) floatQuotient_1_by_2
      floatOnePlus_n16777215_33554432 (le_refl _)

/-- C16 as stated fails: on a 3 x 3 root the width/height ratio 1 exceeds
splitVRatio = 1/2, yet split cuts the root horizontally, into the rows 0 and
1 .. 2, when the draw is below horizSplitProbability; and the draw does decide:
with a draw of 1/2 the orientation is vertical. -/
theorem split_square_follows_draw :
    ((3 : Int) : ℚ) / ((3 : Int) : ℚ) > orientationConfig.splitVRatio ∧
    splitOrientation orientationConfig { x := 0, y := 0, w := 3, h := 3 }
      (uniformReal zeroEngine).1 = true ∧
    (BSPTree.split orientationConfig 2
      (BSPTree.node { x := 0, y := 0, w := 3, h := 3 } none BSPTree.null BSPTree.null)
      zeroEngine).map Prod.fst =
    some (BSPTree.node { x := 0, y := 0, w := 3, h := 3 } none
      (BSPTree.node { x := 0, y := 0, w := 3, h := 1 } none BSPTree.null BSPTree.null)
      (BSPTree.node { x := 0, y := 1, w := 3, h := 2 } none BSPTree.null BSPTree.null)) ∧
    splitOrientation orientationConfig { x := 0, y := 0, w := 3, h := 3 }
      (uniformReal oneOneEngine).1 = false := by
  refine ⟨?_, ?_, square_run, ?_⟩
  · norm_num [orientationConfig]
  · rw [splitOrientation_draw _ _ _ 1 (3 / 2) 1 (5452595 / 4194304) (by decide) (by decide)
      floatQuotient_3_by_3 floatOnePlus_1_2 (by norm_num) floatQuotient_3_by_3
      floatOnePlus_3_10 (by norm_num), uniformReal_zeroEngine]
    simp [orientationConfig]
  · rw [splitOrientation_draw _ _ _ 1 (3 / 2) 1 (5452595 / 4194304) (by decide) (by decide)
      floatQuotient_3_by_3 floatOnePlus_1_2 (by norm_num) floatQuotient_3_by_3
      floatOnePlus_3_10 (by norm_num), uniformReal_oneOneEngine]
    simp [orientationConfig]

/-- C16, amended. On a rectangle of positive width and height, split works with
the orientation splitOrientation: it either leaves the node a leaf, because the
size along that orientation is too small, or cuts it along that orientation.  If
the single-precision quotient w / (float) h is at least the single-precision sum
1.f + splitVRatio the orientation is vertical for every sample, and otherwise if
the quotient h / (float) w exceeds the sum 1.f + splitHRatio it is horizontal for
every sample: in both cases the draw against horizSplitProbability has no
influence.  When both tests fail, the draw decides. -/
theorem split_orientation_by_aspect (config : BSPConfig) (fuel : Nat) (area : BSPRect)
    (room : Option BSPRect) (engine : Engine) (t : BSPTree)
    (hw : 0 < area.w) (hh : 0 < area.h)
    (h : (BSPTree.split config fuel (BSPTree.node area room BSPTree.null BSPTree.null)
      engine).map Prod.fst = some t) :
    ((t = BSPTree.node area room BSPTree.null BSPTree.null ∧
        (if splitOrientation config area (uniformReal engine).1 then
          area.h - config.minHeight else area.w - config.minWidth) ≤
        (if splitOrientation config area (uniformReal engine).1 then
          config.minHeight else config.minWidth)) ∨
      ∃ (splitValue : Int) (l r : BSPTree), t = BSPTree.node area room l r ∧
        l.isNull = false ∧ r.isNull = false ∧
        l.area = leftAreaOf (splitOrientation config area (uniformReal engine).1) area
          splitValue ∧
        r.area = rightAreaOf (splitOrientation config area (uniformReal engine).1) area
          splitValue) ∧
    (floatQuotient area.w area.h ≥ floatOnePlus config.splitVRatio →
      ∀ sample : ℚ, splitOrientation config area sample = false) ∧
    (¬ floatQuotient area.w area.h ≥ floatOnePlus config.splitVRatio →
      floatQuotient area.h area.w > floatOnePlus config.splitHRatio →
      ∀ sample : ℚ, splitOrientation config area sample = true) ∧
    (¬ floatQuotient area.w area.h ≥ floatOnePlus config.splitVRatio →
      ¬ floatQuotient area.h area.w > floatOnePlus config.splitHRatio →
      ∀ sample : ℚ, splitOrientation config area sample =
        decide (sample < config.horizSplitProbability)) := by
  have hw0 : area.w ≠ 0 := by omega
  have hh0 : area.h ≠ 0 := by omega
  refine ⟨?_, ?_, ?_, ?_⟩
  · cases fuel with
    | zero =>
      unfold BSPTree.split at h
      cases h
    | succ fuel =>
      rw [split_step] at h
      by_cases hle : (if splitOrientation config area (uniformReal engine).1 then
            area.h - config.minHeight else area.w - config.minWidth) ≤
          (if splitOrientation config area (uniformReal engine).1 then
            config.minHeight else config.minWidth)
      · rw [if_pos hle] at h
        cases h
        exact Or.inl ⟨rfl, hle⟩
      · rw [if_neg hle] at h
        right
        cases hdraw : uniformInt
            (if splitOrientation config area (uniformReal engine).1 then
              config.minHeight else config.minWidth)
            (if splitOrientation config area (uniformReal engine).1 then
              area.h - config.minHeight else area.w - config.minWidth)
            (uniformReal engine).2 with
        | none =>
          try rw [hdraw] at h
          cases h
        | some draw =>
          try rw [hdraw] at h
          simp only [] at h
          cases hl : BSPTree.split config fuel
              (BSPTree.node
                (leftAreaOf (splitOrientation config area (uniformReal engine).1) area draw.1)
                none BSPTree.null BSPTree.null) draw.2 with
          | none =>
            try rw [hl] at h
            cases h
          | some l =>
            try rw [hl] at h
            simp only [] at h
            cases hr : BSPTree.split config fuel
                (BSPTree.node
                  (rightAreaOf (splitOrientation config area (uniformReal engine).1) area
                    draw.1)
                  none BSPTree.null BSPTree.null) l.2 with
            | none =>
              try rw [hr] at h
              cases h
            | some r =>
              try rw [hr] at h
              cases h
              have hla := split_area config fuel _ _ _ _ _ l hl
              have hra := split_area config fuel _ _ _ _ _ r hr
              exact ⟨draw.1, l.1, r.1, rfl, hla.2, hra.2, hla.1, hra.1⟩
  · intro hv sample
    exact splitOrientation_vertical config area sample _ _ hh0 rfl rfl hv
  · intro hv hhz sample
    exact splitOrientation_horizontal config area sample _ _ _ _ hh0 hw0 rfl rfl
      (lt_of_not_le hv) rfl rfl hhz
  · intro hv hhz sample
    exact splitOrientation_draw config area sample _ _ _ _ hh0 hw0 rfl rfl
      (lt_of_not_le hv) rfl rfl (le_of_not_lt hhz)

/-- Witness for the amended C16: for a 5 x 2 root the quotient 5 / 2.f = 2.5 is
at least 1.f + 0.5f = 1.5, and the root is cut vertically, into the columns
0 .. 1 and 2 .. 4, whatever the sample. -/
theorem split_orientation_by_aspect_witness :
    (BSPTree.split orientationConfig 2
      (BSPTree.node { x := 0, y := 0, w := 5, h := 2 } none BSPTree.null BSPTree.null)
      zeroEngine).map Prod.fst =
    some (BSPTree.node { x := 0, y := 0, w := 5, h := 2 } none
      (BSPTree.node { x := 0, y := 0, w := 2, h := 2 } none BSPTree.null BSPTree.null)
      (BSPTree.node { x := 2, y := 0, w := 3, h := 2 } none BSPTree.null BSPTree.null)) ∧
    floatQuotient 5 2 ≥ floatOnePlus orientationConfig.splitVRatio ∧
    ∀ sample : ℚ,
      splitOrientation orientationConfig { x := 0, y := 0, w := 5, h := 2 } sample = false :=
  have hratio : floatQuotient 5 2 ≥ floatOnePlus orientationConfig.splitVRatio := by
    rw [floatQuotient_5_by_2, show floatOnePlus orientationConfig.splitVRatio = 3 / 2 from
      floatOnePlus_1_2]
    norm_num
  ⟨wide_run, hratio,
    (split_orientation_by_aspect orientationConfig 2 { x := 0, y := 0, w := 5, h := 2 } none
      zeroEngine _ (by decide) (by decide) wide_run).2.1 hratio⟩

/-! ## BSP: width of a straight corridor -/

/-- C11 fails on the code: for westRoom and eastRoom every engine draws the
points (2, 2) and (2, 7), which differ in the column only, and findHall then
sets rows 2 and 3 of the columns 2 .. 7 to Empty: the cell (3, 4), in the row
next to the row of the two points, was Wall and is written. -/
theorem findHall_straight_two_rows (engine : Engine) :
    ∃ (res : Map × Engine) (e' : Engine),
      drawHallPoints engine westRoom eastRoom = some ((2, 2, 2, 7), e') ∧
      findHall engine westRoom eastRoom twoRoomsMap = some res ∧
      (∀ q, res.1.cells q =
        if inBox 2 4 2 8 q then CellType.Empty else twoRoomsMap.cells q) ∧
      twoRoomsMap.cells (3, 4) = CellType.Wall ∧ res.1.cells (3, 4) = CellType.Empty := by
  have hdraw : drawHallPoints engine westRoom eastRoom =
      some ((2, 2, 2, 7), ((((engine.pop).2.pop).2.pop).2.pop).2) := by
    unfold drawHallPoints westRoom eastRoom
    simp only []
    rw [show ((1 : Int) + 2 - 1) = 1 + 1 from rfl, show ((6 : Int) + 2 - 1) = 6 + 1 from rfl]
    simp only [uniformInt_single]
    rfl
  obtain ⟨m', hm'⟩ := carveHall_defined { x := 2, y := 2, w := 5, h := 1 } twoRoomsMap (by
    intro q hq
    rw [Map.validCoords_iff]
    unfold hallBox inBox at hq
    simp only [twoRoomsMap] at hq ⊢
    omega)
  obtain ⟨_, _, hcells⟩ := carveHall_inv _ _ _ hm'
  have hbox : ∀ q, hallBox { x := 2, y := 2, w := 5, h := 1 } q ↔ inBox 2 4 2 8 q := by
    intro q
    unfold hallBox inBox
    simp only []
    omega
  refine ⟨(m', ((((engine.pop).2.pop).2.pop).2.pop).2), _, hdraw, ?_, ?_, ?_, ?_⟩
  · unfold findHall
    rw [hdraw]
    simp only []
    unfold routeHall
    simp only []
    rw [if_neg (by decide), if_pos (by decide), if_neg (by decide), if_neg (by decide)]
    rw [show ((7 : Int) - 2) = 5 from rfl, hm']
    rfl
  · intro q
    rw [hcells q]
    by_cases hq : inBox 2 4 2 8 q
    · rw [if_pos hq, if_pos ((hbox q).mpr hq)]
    · rw [if_neg hq, if_neg (fun h => hq ((hbox q).mp h))]
  · decide
  · rw [hcells (3, 4), if_pos ((hbox (3, 4)).mpr (by decide))]

/-! ## BSP: the cells carved for a room -/

/-- C12 fails on the code: on a 10 x 10 grid with rooms of 8 x 8 the run of start
and generate makes the whole grid one leaf and records the room x = 1, y = 1,
w = 8, h = 8, for every engine; the Empty cells are then the rows 1 .. 9 of the
columns 1 .. 9, 81 cells and not 64: the cell (9, 9), outside the recorded
rectangle and in the last row and column of the leaf, is Empty. -/
theorem generate_room_carved_beyond_rectangle (engine : Engine) :
    ∃ (g1 : BSPGenerator) (m1 : Map) (g2 : BSPGenerator) (m2 : Map),
      (tightGenerator engine).start tenMap = some (g1, m1) ∧
      g1.generate 1 m1 = some (g2, m2) ∧
      g2.generatedTree = BSPTree.node { x := 0, y := 0, w := 10, h := 10 }
        (some { x := 1, y := 1, w := 8, h := 8 }) BSPTree.null BSPTree.null ∧
      (∀ q, m2.validCoords q.1 q.2 = true →
        (m2.cells q = CellType.Empty ↔ inBox 1 10 1 10 q)) ∧
      m2.cells (9, 9) = CellType.Empty ∧
      ¬ ({ x := 1, y := 1, w := 8, h := 8 } : BSPRect).covers (9, 9) := by
  obtain ⟨g1, m1, hstart, hg1c, hg1e, hg1t, hd1, hwall⟩ :=
    bsp_start_spec (tightGenerator engine) tenMap
  have hsplit : BSPTree.split tightConfig 1
      (BSPTree.node { x := 0, y := 0, w := 10, h := 10 } none BSPTree.null BSPTree.null)
      engine =
      some (BSPTree.node { x := 0, y := 0, w := 10, h := 10 } none BSPTree.null BSPTree.null,
        (uniformReal engine).2) := by
    rw [split_step, if_pos]
    generalize splitOrientation tightConfig { x := 0, y := 0, w := 10, h := 10 }
      (uniformReal engine).1 = o
    cases o <;> decide
  have hholds : m1.holds { x := 0, y := 0, w := 10, h := 10 } := by
    unfold Map.holds
    rw [hd1.1, hd1.2]
    decide
  obtain ⟨p, hp⟩ := populateLeaf_defined tightConfig { x := 0, y := 0, w := 10, h := 10 } none
    BSPTree.null BSPTree.null m1 (uniformReal engine).2 (by decide) (by decide) (by decide)
    (by decide) hholds
  have hnoskip : ¬ (uniformReal (uniformReal engine).2).1 < tightConfig.emptyRoomProbability :=
    not_lt.mpr (uniformReal_nonneg _)
  rcases populateLeaf_cases _ _ _ _ _ _ _ p hp with ⟨hskip, _⟩ | ⟨_, rh, rw', dx, dy, hrh, hrw,
    hdx, hdy, htree, hgrid⟩
  · exact absurd hskip hnoskip
  have erh : rh = 8 := le_antisymm hrh.2 hrh.1
  have erw : rw' = 8 := le_antisymm hrw.2 hrw.1
  subst erh
  subst erw
  have edx : dx = 1 := le_antisymm hdx.2 hdx.1
  have edy : dy = 1 := le_antisymm hdy.2 hdy.1
  subst edx
  subst edy
  obtain ⟨_, hd2, hcells⟩ := fillBox_inv CellType.Empty _ _ _ _ m1 p.2.1 hgrid
  have hgen : g1.generate 1 m1 =
      some ({ g1 with generatedTree := p.1, splitEngine := p.2.2 }, p.2.1) := by
    have e1 : (tightGenerator engine).config = tightConfig := rfl
    have e2 : (tightGenerator engine).splitEngine = engine := rfl
    have e3 : ((tenMap.cols : Nat) : Int) = 10 := rfl
    have e4 : ((tenMap.rows : Nat) : Int) = 10 := rfl
    unfold BSPGenerator.generate
    rw [hg1t, hg1c, hg1e, e1, e2, e3, e4, hsplit]
    simp only []
    rw [populate_leaf tightConfig { x := 0, y := 0, w := 10, h := 10 } none BSPTree.null
      BSPTree.null m1 (uniformReal engine).2 rfl rfl, hp]
    simp only []
    rw [htree]
    rfl
  refine ⟨g1, m1, _, p.2.1, hstart, hgen, htree, ?_, ?_, ?_⟩
  · intro q hq
    rw [hcells q]
    rw [Map.validCoords_congr hd2] at hq
    by_cases hbox : inBox ((0 : Int) + 1) (0 + 1 + 8 + 1) ((0 : Int) + 1) (0 + 1 + 8 + 1) q
    · rw [if_pos hbox]
      exact ⟨fun _ => hbox, fun _ => rfl⟩
    · rw [if_neg hbox, hwall q hq]
      exact ⟨(fun h => by cases h), fun h => absurd h hbox⟩
  · rw [hcells (9, 9), if_pos (by decide)]
  · unfold BSPRect.covers
    decide

/-! ## Cellular automata: the extended rule -/

/-- C13 fails on the code: on the 5 x 5 grid whose only Walls are the corners
(0, 0) and (4, 4), at the cell (2, 2), the basic rule is false and no Wall lies
in the 5 x 5 neighbourhood without its corner offsets, so the rule as described
gives Wall; the count of the code skips the offset (0, 0) instead of the corner
offsets, finds the two corner Walls and the rule of the code gives Empty. -/
theorem closed_rule_counts_corner_offsets :
    sampleAutomaton.basicEvaluation 2 2 cornerMap cornerMap.cells = false ∧
    closedWallCount cornerMap cornerMap.cells 2 2 sampleAutomaton.config.includeSelf = 0 ∧
    CellAutomataGenerator.countNeighbourhood 2 2 cornerMap cornerMap.cells 2
      sampleAutomaton.config.includeSelf = 2 ∧
    sampleAutomaton.basicEvaluationClosed 2 2 cornerMap cornerMap.cells = false ∧
    ¬ (sampleAutomaton.basicEvaluationClosed 2 2 cornerMap cornerMap.cells = true ↔
      (sampleAutomaton.basicEvaluation 2 2 cornerMap cornerMap.cells = true ∨
        closedWallCount cornerMap cornerMap.cells 2 2
          sampleAutomaton.config.includeSelf ≤ 1)) := by
  decide

/-! ## BSP: writes stay inside the grid -/

/-- C18. On a grid with cols >= minWidth and rows >= minHeight, with
2 <= minRoomWidth <= maxRoomWidth <= minWidth - 2 and the same for the heights,
for every engine: start and generate return, which they only do when every
write hits a cell of the grid; the grid after generate is the grid after start
with exactly the cells of the recorded rooms and of the corridors set to Empty,
and every one of these cells has 0 <= row < rows and 0 <= col < cols. -/
theorem bsp_generate_writes_inside_grid (g : BSPGenerator) (map : Map) (fuel : Nat)
    (hcols : g.config.minWidth ≤ (map.cols : Int))
    (hrows : g.config.minHeight ≤ (map.rows : Int))
    (hw : 2 ≤ g.config.minRoomWidth ∧ g.config.minRoomWidth ≤ g.config.maxRoomWidth ∧
      g.config.maxRoomWidth ≤ g.config.minWidth - 2)
    (hh : 2 ≤ g.config.minRoomHeight ∧ g.config.minRoomHeight ≤ g.config.maxRoomHeight ∧
      g.config.maxRoomHeight ≤ g.config.minHeight - 2)
    (hfuel : map.cols + map.rows < fuel) :
    ∃ (g1 : BSPGenerator) (m1 : Map) (g2 : BSPGenerator) (m2 : Map)
      (hall : Int × Int → Prop),
      g.start map = some (g1, m1) ∧ g1.generate fuel m1 = some (g2, m2) ∧
      Carves m1 m2 (fun q => g2.generatedTree.roomCells q ∨ hall q) ∧
      ∀ q, g2.generatedTree.roomCells q ∨ hall q →
        (0 ≤ q.1 ∧ q.1 < (map.rows : Int)) ∧ (0 ≤ q.2 ∧ q.2 < (map.cols : Int)) := by
  obtain ⟨g1, m1, g2, m2, hall, hstart, hgen, hd1, hd2, _, _, hvalid, hset, hkeep, _, _⟩ :=
    bsp_generate_cells g map fuel hcols hrows hw hh hfuel
  refine ⟨g1, m1, g2, m2, hall, hstart, hgen, ⟨⟨?_, ?_⟩, hset, hkeep⟩, ?_⟩
  · rw [hd2.1, hd1.1]
  · rw [hd2.2, hd1.2]
  · intro q hq
    exact (Map.validCoords_iff map q.1 q.2).mp (hvalid q hq)

/-- Witness for C18: the scenario generator on the 40 x 40 grid with fuel 81. -/
theorem bsp_generate_writes_inside_grid_witness :
    ∃ (g1 : BSPGenerator) (m1 : Map) (g2 : BSPGenerator) (m2 : Map)
      (hall : Int × Int → Prop),
      scenarioGenerator.start scenarioMap = some (g1, m1) ∧
      g1.generate 81 m1 = some (g2, m2) ∧
      Carves m1 m2 (fun q => g2.generatedTree.roomCells q ∨ hall q) ∧
      ∀ q, g2.generatedTree.roomCells q ∨ hall q →
        (0 ≤ q.1 ∧ q.1 < (scenarioMap.rows : Int)) ∧
          (0 ≤ q.2 ∧ q.2 < (scenarioMap.cols : Int)) :=
  bsp_generate_writes_inside_grid scenarioGenerator scenarioMap 81 (by decide) (by decide)
    (by decide) (by decide) (by decide)

/-! ## BSP: a run with a skipped leaf -/

theorem uniformReal_listEngine (n d : Nat) (xs : List Nat) :
    uniformReal (listEngine (n :: d :: xs)) =
      (((n % (d + 1) : Nat) : ℚ) / ((d + 1 : Nat) : ℚ), listEngine xs) := rfl

theorem uniformInt_listEngine_zero (a b : Int) (xs : List Nat) (h : a ≤ b) :
    uniformInt a b (listEngine (0 :: xs)) = some (a, listEngine xs) := by
  unfold uniformInt
  rw [if_pos h]
  show some (a + ((0 % ((b - a).toNat + 1) : Nat) : Int), listEngine xs) = _
  simp

/-- A node that is too small along either orientation stays a leaf. -/
theorem split_leaf_any (config : BSPConfig) (fuel : Nat) (area : BSPRect)
    (room : Option BSPRect) (left right : BSPTree) (engine : Engine)
    (hle : ∀ o : Bool, (if o then area.h - config.minHeight else area.w - config.minWidth) ≤
      (if o then config.minHeight else config.minWidth)) :
    BSPTree.split config (fuel + 1) (BSPTree.node area room left right) engine =
      some (BSPTree.node area room left right, (uniformReal engine).2) :=
  split_leaf config fuel area room left right engine _ rfl (hle _)

/-- The loop body on a leaf whose sample is below emptyRoomProbability. -/
theorem populateLeaf_skip (config : BSPConfig) (area : BSPRect) (room : Option BSPRect)
    (left right : BSPTree) (map : Map) (engine : Engine)
    (h : (uniformReal engine).1 < config.emptyRoomProbability) :
    populateLeaf config (BSPTree.node area room left right) map engine =
      some (BSPTree.node area room left right, map, (uniformReal engine).2) := by
  unfold populateLeaf
  simp only []
  rw [if_pos (by simpa using h)]

/-- The loop body on a leaf that gets a room, given the four draws. -/
theorem populateLeaf_room (config : BSPConfig) (area : BSPRect) (room : Option BSPRect)
    (left right : BSPTree) (map : Map) (engine : Engine) (rh rw' dx dy : Int)
    (e1 e2 e3 e4 : Engine) (m' : Map)
    (h : ¬ (uniformReal engine).1 < config.emptyRoomProbability)
    (hh : uniformInt config.minRoomHeight config.maxRoomHeight (uniformReal engine).2 =
      some (rh, e1))
    (hw : uniformInt config.minRoomWidth config.maxRoomWidth e1 = some (rw', e2))
    (hx : uniformInt 1 (area.w - rw' - 1) e2 = some (dx, e3))
    (hy : uniformInt 1 (area.h - rh - 1) e3 = some (dy, e4))
    (hgrid : forGrid (area.y + dy) (area.y + dy + rh + 1) (area.x + dx)
      (area.x + dx + rw' + 1) (fun posY posX m => m.set posY posX CellType.Empty) map =
        some m') :
    populateLeaf config (BSPTree.node area room left right) map engine =
      some (BSPTree.node area (some { x := area.x + dx, y := area.y + dy, w := rw', h := rh })
        left right, m', e4) := by
  unfold populateLeaf
  simp only []
  rw [if_neg (by simpa using h), hh]
  simp only []
  rw [hw]
  simp only []
  rw [hx]
  simp only []
  rw [hy]
  simp only []
  rw [hgrid]

/-- The split of the skipping run: the 40 x 10 root is cut at column 10, the rest
at column 20. -/
theorem skipping_split :
    BSPTree.split skippingConfig 51
      (BSPTree.node { x := 0, y := 0, w := 40, h := 10 } none BSPTree.null BSPTree.null)
      (listEngine skipDraws) =
    some (threeLeafTree, listEngine [1, 1, 0, 0, 0, 0, 0, 0, 1, 1, 0, 0, 0, 0]) := by
  have hroot : ∀ s, splitOrientation skippingConfig { x := 0, y := 0, w := 40, h := 10 } s =
      false := fun s =>
    splitOrientation_vertical _ _ _ 4 (3 / 2) (by decide) floatQuotient_40_by_10
      floatOnePlus_1_2 (by norm_num)
  have hrest : ∀ s, splitOrientation skippingConfig { x := 10, y := 0, w := 30, h := 10 } s =
      false := fun s =>
    splitOrientation_vertical _ _ _ 3 (3 / 2) (by decide) floatQuotient_30_by_10
      floatOnePlus_1_2 (by norm_num)
  have hA : BSPTree.split skippingConfig 50
      (BSPTree.node { x := 0, y := 0, w := 10, h := 10 } none BSPTree.null BSPTree.null)
      (listEngine [0, 0, 0, 0, 0, 0, 0, 0, 0, 1, 1, 0, 0, 0, 0, 0, 0, 1, 1, 0, 0, 0, 0]) =
      some (BSPTree.node { x := 0, y := 0, w := 10, h := 10 } none BSPTree.null BSPTree.null,
        listEngine [0, 0, 0, 0, 0, 0, 0, 1, 1, 0, 0, 0, 0, 0, 0, 1, 1, 0, 0, 0, 0]) :=
    split_leaf_any skippingConfig 49 _ none _ _ _ (fun o => by cases o <;> decide)
  have hB : BSPTree.split skippingConfig 49
      (BSPTree.node { x := 10, y := 0, w := 10, h := 10 } none BSPTree.null BSPTree.null)
      (listEngine [0, 0, 0, 0, 1, 1, 0, 0, 0, 0, 0, 0, 1, 1, 0, 0, 0, 0]) =
      some (BSPTree.node { x := 10, y := 0, w := 10, h := 10 } none BSPTree.null BSPTree.null,
        listEngine [0, 0, 1, 1, 0, 0, 0, 0, 0, 0, 1, 1, 0, 0, 0, 0]) :=
    split_leaf_any skippingConfig 48 _ none _ _ _ (fun o => by cases o <;> decide)
  have hC : BSPTree.split skippingConfig 49
      (BSPTree.node { x := 20, y := 0, w := 20, h := 10 } none BSPTree.null BSPTree.null)
      (listEngine [0, 0, 1, 1, 0, 0, 0, 0, 0, 0, 1, 1, 0, 0, 0, 0]) =
      some (BSPTree.node { x := 20, y := 0, w := 20, h := 10 } none BSPTree.null BSPTree.null,
        listEngine [1, 1, 0, 0, 0, 0, 0, 0, 1, 1, 0, 0, 0, 0]) :=
    split_leaf_any skippingConfig 48 _ none _ _ _ (fun o => by cases o <;> decide)
  have hR : BSPTree.split skippingConfig 50
      (BSPTree.node { x := 10, y := 0, w := 30, h := 10 } none BSPTree.null BSPTree.null)
      (listEngine [0, 0, 0, 0, 0, 0, 0, 1, 1, 0, 0, 0, 0, 0, 0, 1, 1, 0, 0, 0, 0]) =
      some (BSPTree.node { x := 10, y := 0, w := 30, h := 10 } none
        (BSPTree.node { x := 10, y := 0, w := 10, h := 10 } none BSPTree.null BSPTree.null)
        (BSPTree.node { x := 20, y := 0, w := 20, h := 10 } none BSPTree.null BSPTree.null),
        listEngine [1, 1, 0, 0, 0, 0, 0, 0, 1, 1, 0, 0, 0, 0]) :=
    split_cut skippingConfig 49 _ none _ _ _ false 10
      (listEngine [0, 0, 0, 0, 1, 1, 0, 0, 0, 0, 0, 0, 1, 1, 0, 0, 0, 0]) _ _ (hrest _)
      (by decide) (uniformInt_listEngine_zero _ _ _ (by decide)) hB hC
  exact split_cut skippingConfig 50 _ none _ _ _ false 10
    (listEngine [0, 0, 0, 0, 0, 0, 0, 0, 0, 1, 1, 0, 0, 0, 0, 0, 0, 1, 1, 0, 0, 0, 0]) _ _
    (hroot _) (by decide) (uniformInt_listEngine_zero _ _ _ (by decide)) hA hR

/-- The populate phase of the skipping run: the first and the third leaf get the
room at offset (1, 1) of size 4 x 4, the second leaf is skipped. -/
theorem skipping_populate (m : Map) (hm : m.SameDims wideMap) :
    ∃ m', populate skippingConfig threeLeafTree m
        (listEngine [1, 1, 0, 0, 0, 0, 0, 0, 1, 1, 0, 0, 0, 0]) =
      some (skippedTree, m', listEngine []) := by
  have hroom : ¬ (((1 % (1 + 1) : Nat) : ℚ) / ((1 + 1 : Nat) : ℚ)) <
      skippingConfig.emptyRoomProbability := by
    norm_num [skippingConfig, scenarioConfig]
  have hskip : (((0 % (0 + 1) : Nat) : ℚ) / ((0 + 1 : Nat) : ℚ)) <
      skippingConfig.emptyRoomProbability := by
    norm_num [skippingConfig, scenarioConfig]
  obtain ⟨mA, hmA⟩ := fillBox_defined CellType.Empty (0 + 1) (0 + 1 + 4 + 1) (0 + 1)
    (0 + 1 + 4 + 1) m (by
      intro q hq
      rw [Map.validCoords_congr hm, Map.validCoords_iff]
      unfold inBox at hq
      simp only [wideMap]
      omega)
  have hdA := (fillBox_inv CellType.Empty _ _ _ _ m mA hmA).2.1
  obtain ⟨mC, hmC⟩ := fillBox_defined CellType.Empty (0 + 1) (0 + 1 + 4 + 1) (20 + 1)
    (20 + 1 + 4 + 1) mA (by
      intro q hq
      rw [Map.validCoords_congr (hdA.trans hm), Map.validCoords_iff]
      unfold inBox at hq
      simp only [wideMap]
      omega)
  have hA : populate skippingConfig
      (BSPTree.node { x := 0, y := 0, w := 10, h := 10 } none BSPTree.null BSPTree.null) m
      (listEngine [1, 1, 0, 0, 0, 0, 0, 0, 1, 1, 0, 0, 0, 0]) =
      some (BSPTree.node { x := 0, y := 0, w := 10, h := 10 }
        (some { x := 1, y := 1, w := 4, h := 4 }) BSPTree.null BSPTree.null, mA,
        listEngine [0, 0, 1, 1, 0, 0, 0, 0]) := by
    rw [populate_leaf skippingConfig { x := 0, y := 0, w := 10, h := 10 } none BSPTree.null
      BSPTree.null m _ rfl rfl]
    exact populateLeaf_room skippingConfig { x := 0, y := 0, w := 10, h := 10 } none
      BSPTree.null BSPTree.null m _ 4 4 1 1 (listEngine [0, 0, 0, 0, 0, 1, 1, 0, 0, 0, 0])
      (listEngine [0, 0, 0, 0, 1, 1, 0, 0, 0, 0]) (listEngine [0, 0, 0, 1, 1, 0, 0, 0, 0])
      (listEngine [0, 0, 1, 1, 0, 0, 0, 0]) mA hroom
      (uniformInt_listEngine_zero _ _ _ (by decide))
      (uniformInt_listEngine_zero _ _ _ (by decide))
      (uniformInt_listEngine_zero _ _ _ (by decide))
      (uniformInt_listEngine_zero _ _ _ (by decide)) hmA
  have hB : populate skippingConfig
      (BSPTree.node { x := 10, y := 0, w := 10, h := 10 } none BSPTree.null BSPTree.null) mA
      (listEngine [0, 0, 1, 1, 0, 0, 0, 0]) =
      some (BSPTree.node { x := 10, y := 0, w := 10, h := 10 } none BSPTree.null BSPTree.null,
        mA, listEngine [1, 1, 0, 0, 0, 0]) := by
    rw [populate_leaf skippingConfig { x := 10, y := 0, w := 10, h := 10 } none BSPTree.null
      BSPTree.null mA _ rfl rfl]
    exact populateLeaf_skip skippingConfig { x := 10, y := 0, w := 10, h := 10 } none
      BSPTree.null BSPTree.null mA _ hskip
  have hC : populate skippingConfig
      (BSPTree.node { x := 20, y := 0, w := 20, h := 10 } none BSPTree.null BSPTree.null) mA
      (listEngine [1, 1, 0, 0, 0, 0]) =
      some (BSPTree.node { x := 20, y := 0, w := 20, h := 10 }
        (some { x := 21, y := 1, w := 4, h := 4 }) BSPTree.null BSPTree.null, mC,
        listEngine []) := by
    rw [populate_leaf skippingConfig { x := 20, y := 0, w := 20, h := 10 } none BSPTree.null
      BSPTree.null mA _ rfl rfl]
    exact populateLeaf_room skippingConfig { x := 20, y := 0, w := 20, h := 10 } none
      BSPTree.null BSPTree.null mA _ 4 4 1 1 (listEngine [0, 0, 0]) (listEngine [0, 0])
      (listEngine [0]) (listEngine []) mC hroom
      (uniformInt_listEngine_zero _ _ _ (by decide))
      (uniformInt_listEngine_zero _ _ _ (by decide))
      (uniformInt_listEngine_zero _ _ _ (by decide))
      (uniformInt_listEngine_zero _ _ _ (by decide)) hmC
  refine ⟨mC, ?_⟩
  unfold threeLeafTree skippedTree
  rw [populate_inner skippingConfig { x := 0, y := 0, w := 40, h := 10 } none
    (BSPTree.node { x := 0, y := 0, w := 10, h := 10 } none BSPTree.null BSPTree.null)
    (BSPTree.node { x := 10, y := 0, w := 30, h := 10 } none
      (BSPTree.node { x := 10, y := 0, w := 10, h := 10 } none BSPTree.null BSPTree.null)
      (BSPTree.node { x := 20, y := 0, w := 20, h := 10 } none BSPTree.null BSPTree.null))
    m _ rfl rfl, hA]
  simp only []
  rw [populate_inner skippingConfig { x := 10, y := 0, w := 30, h := 10 } none
    (BSPTree.node { x := 10, y := 0, w := 10, h := 10 } none BSPTree.null BSPTree.null)
    (BSPTree.node { x := 20, y := 0, w := 20, h := 10 } none BSPTree.null BSPTree.null)
    mA _ rfl rfl, hB]
  simp only []
  rw [hC]

/-- The tree of the skipping run: for every result of start followed by generate
on the 10 x 40 grid, the generated tree is skippedTree. -/
theorem skipping_tree (g1 g2 : BSPGenerator) (m1 m2 : Map)
    (hstart : skippingGenerator.start wideMap = some (g1, m1))
    (hgen : g1.generate 51 m1 = some (g2, m2)) :
    g2.generatedTree = skippedTree := by
  obtain ⟨g1', m1', hstart', hc, he, ht, hd, _⟩ := bsp_start_spec skippingGenerator wideMap
  rw [hstart] at hstart'
  cases hstart'
  obtain ⟨m', hpop⟩ := skipping_populate m1 hd
  have e1 : skippingGenerator.config = skippingConfig := rfl
  have e2 : skippingGenerator.splitEngine = listEngine skipDraws := rfl
  have e3 : ((wideMap.cols : Nat) : Int) = 40 := rfl
  have e4 : ((wideMap.rows : Nat) : Int) = 10 := rfl
  unfold BSPGenerator.generate at hgen
  rw [ht, hc, he, e1, e2, e3, e4, skipping_split] at hgen
  simp only [] at hgen
  rw [hpop] at hgen
  simp only [] at hgen
  cases hh : createHalls skippedTree (listEngine []) m' with
  | none =>
    rw [hh] at hgen
    cases hgen
  | some res =>
    rw [hh] at hgen
    cases hgen
    rfl

/-! ## BSP: connectivity with leaves left without a room -/

/-- C20. On a grid with cols >= minWidth and rows >= minHeight, with
2 <= minRoom <= maxRoom <= minimum leaf size - 2 on both axes, for every value
of emptyRoomProbability and every engine: start followed by generate returns,
and the set of Empty cells of the grid is either empty or a single 4-connected
region; it is empty exactly when no leaf has got a room, and the cells of every
room that was placed are Empty. -/
theorem bsp_connected_with_skipped_leaves (g : BSPGenerator) (map : Map) (fuel : Nat)
    (hcols : g.config.minWidth ≤ (map.cols : Int))
    (hrows : g.config.minHeight ≤ (map.rows : Int))
    (hw : 2 ≤ g.config.minRoomWidth ∧ g.config.minRoomWidth ≤ g.config.maxRoomWidth ∧
      g.config.maxRoomWidth ≤ g.config.minWidth - 2)
    (hh : 2 ≤ g.config.minRoomHeight ∧ g.config.minRoomHeight ≤ g.config.maxRoomHeight ∧
      g.config.maxRoomHeight ≤ g.config.minHeight - 2)
    (hfuel : map.cols + map.rows < fuel) :
    ∃ (g1 : BSPGenerator) (m1 : Map) (g2 : BSPGenerator) (m2 : Map),
      g.start map = some (g1, m1) ∧ g1.generate fuel m1 = some (g2, m2) ∧
      ((∀ q, ¬ m2.isEmptyCell q) ∨
        ∃ p, m2.isEmptyCell p ∧ ∀ q, m2.isEmptyCell q → Reach m2.isEmptyCell p q) ∧
      ((∀ q, ¬ m2.isEmptyCell q) ↔ ∀ q, ¬ g2.generatedTree.roomCells q) ∧
      ∀ q, g2.generatedTree.roomCells q → m2.isEmptyCell q := by
  obtain ⟨g1, m1, g2, m2, hall, hstart, hgen, hd1, hd2, hwall, _, hvalid, hset, hkeep, hconn,
    hhall⟩ := bsp_generate_cells g map fuel hcols hrows hw hh hfuel
  have hempty : ∀ q, m2.isEmptyCell q ↔ (g2.generatedTree.roomCells q ∨ hall q) := by
    intro q
    unfold Map.isEmptyCell
    rw [Map.validCoords_congr hd2]
    constructor
    · rintro ⟨hv, hcell⟩
      by_contra hnot
      rw [hkeep q hnot, hwall q (by rw [Map.validCoords_congr hd1]; exact hv)] at hcell
      cases hcell
    · intro h
      exact ⟨hvalid q h, hset q h⟩
  have hconn' : Connected4 m2.isEmptyCell :=
    connected4_congr (fun q => (hempty q).symm) hconn
  refine ⟨g1, m1, g2, m2, hstart, hgen, ?_, ?_, fun q hq => (hempty q).mpr (Or.inl hq)⟩
  · by_cases hsome : ∃ p, m2.isEmptyCell p
    · obtain ⟨p, hp⟩ := hsome
      exact Or.inr ⟨p, hp, fun q hq => hconn' p q hp hq⟩
    · exact Or.inl (fun q hq => hsome ⟨q, hq⟩)
  · constructor
    · intro hnone q hq
      exact hnone q ((hempty q).mpr (Or.inl hq))
    · intro hnone q hq
      rcases (hempty q).mp hq with h | h
      · exact hnone q h
      · obtain ⟨y, hy⟩ := hhall q h
        exact hnone y hy

/-- Witness for C20: the skipping generator, with emptyRoomProbability = 1/2, on
the 10 x 40 grid with fuel 51.  The run cuts the grid into three leaves, places
a room in the first and in the third and skips the second; the Empty cells are
not the empty set, they form one 4-connected region. -/
theorem bsp_connected_with_skipped_leaves_witness :
    ∃ (g1 : BSPGenerator) (m1 : Map) (g2 : BSPGenerator) (m2 : Map),
      skippingGenerator.start wideMap = some (g1, m1) ∧
      g1.generate 51 m1 = some (g2, m2) ∧
      ((∀ q, ¬ m2.isEmptyCell q) ∨
        ∃ p, m2.isEmptyCell p ∧ ∀ q, m2.isEmptyCell q → Reach m2.isEmptyCell p q) ∧
      ((∀ q, ¬ m2.isEmptyCell q) ↔ ∀ q, ¬ g2.generatedTree.roomCells q) ∧
      (∀ q, g2.generatedTree.roomCells q → m2.isEmptyCell q) ∧
      g2.generatedTree = skippedTree ∧
      (BSPTree.node { x := 10, y := 0, w := 10, h := 10 } none BSPTree.null BSPTree.null) ∈
        g2.generatedTree.nodes ∧
      m2.isEmptyCell (2, 2) ∧ m2.isEmptyCell (2, 22) ∧
      Reach m2.isEmptyCell (2, 2) (2, 22) := by
  obtain ⟨g1, m1, g2, m2, hstart, hgen, hconn, hiff, hrooms⟩ :=
    bsp_connected_with_skipped_leaves skippingGenerator wideMap 51 (by decide) (by decide)
      (by decide) (by decide) (by decide)
  have htree := skipping_tree g1 g2 m1 m2 hstart hgen
  have hroomA : g2.generatedTree.roomCells (2, 2) := by
    rw [htree]
    unfold skippedTree BSPTree.roomCells
    right; left
    unfold BSPTree.roomCells
    exact Or.inl ⟨_, rfl, by decide⟩
  have hroomC : g2.generatedTree.roomCells (2, 22) := by
    rw [htree]
    unfold skippedTree BSPTree.roomCells
    right; right
    unfold BSPTree.roomCells
    right; right
    unfold BSPTree.roomCells
    exact Or.inl ⟨_, rfl, by decide⟩
  have hleaf : (BSPTree.node { x := 10, y := 0, w := 10, h := 10 } none BSPTree.null
      BSPTree.null) ∈ g2.generatedTree.nodes := by
    rw [htree]
    decide
  have hA := hrooms _ hroomA
  have hC := hrooms _ hroomC
  have hreach : Reach m2.isEmptyCell (2, 2) (2, 22) := by
    rcases hconn with hnone | ⟨p, _, hp⟩
    · exact absurd hA (hnone _)
    · exact reach_trans (reach_symm (hp _ hA)) (hp _ hC)
  exact ⟨g1, m1, g2, m2, hstart, hgen, hconn, hiff, hrooms, htree, hleaf, hA, hC, hreach⟩

end Cavegen
